import Mathlib

/-! Evidence contract (Hyperledger Fabric chaincode): a model of `evidence.go`.

The chaincode keeps evidence records and custody-transfer events in the ledger's
world state.  The Go standard library (`time`, `strconv`, `fmt`, `crypto/sha256`,
`encoding/json`) and the Fabric stub are the program's environment; they are
modelled first, then the contract functions are translated one by one, keeping
the names and the control flow of the source.

A Go string is a sequence of bytes.  It is modelled by the `String` that has one
character per byte, the code of the character being the byte: the strings that
stand for Go strings are those over U+0000..U+00FF, and ASCII text stands for
itself.  The Go string `"\xff"` is `String.mk [Char.ofNat 255]`; the three bytes
EF BF BD that encode U+FFFD are three characters.  Byte order on keys is the
order of the codes.  Where the code looks at the UTF-8 reading of a string (JSON
encoding and decoding, composite keys) the model does so through `runeLen`.
-/

namespace EvidenceContract

/-! ## `strconv` and `fmt`: decimal text -/

/-- The ASCII digit for a value below ten. -/
def digitChar (d : Nat) : Char := Char.ofNat (48 + d)

/-- Decimal digits of `n`, most significant first, written in front of `acc`;
the first argument bounds the number of digits. -/
def toDigitsFuel : Nat → Nat → List Char → List Char
  | 0, _, acc => acc
  | fuel + 1, n, acc =>
    if n < 10 then digitChar n :: acc
    else toDigitsFuel fuel (n / 10) (digitChar (n % 10) :: acc)

/-- Decimal text of a natural number, without sign or padding. -/
def decimal (n : Nat) : List Char := toDigitsFuel (n + 1) n []

/-- Text of `strconv.FormatInt(i, 10)`. -/
def formatInt (i : Int) : String :=
  if i < 0 then String.mk ('-' :: decimal i.natAbs) else String.mk (decimal i.natAbs)

/-- Text written by `appendInt(b, x, width)` of package `time`: a minus sign for a
negative value, then the digits, zero-padded on the left to `width`. -/
def appendInt (x : Int) (width : Nat) : List Char :=
  let ds := decimal x.natAbs
  let padded := List.replicate (width - ds.length) '0' ++ ds
  if x < 0 then '-' :: padded else padded

/-! ## `time.Time` -/

/-- A `time.Time` value: the instant (seconds and nanoseconds since the Unix epoch)
and the offset of its location, in seconds east of UTC.  The monotonic clock
reading, which neither `Format` nor `MarshalJSON` looks at, is left out. -/
structure Time where
  sec : Int
  nsec : Nat
  offset : Int
deriving DecidableEq, Repr

namespace Time

/-- The zero value `time.Time{}`: January 1, year 1, 00:00:00 UTC. -/
def zero : Time := { sec := -62135596800, nsec := 0, offset := 0 }

/-- Seconds since the Unix epoch, `t.Unix()`. -/
def Unix (t : Time) : Int := t.sec

/-- Order of instants, `t.Before(u)`. -/
def Before (t u : Time) : Prop := t.sec < u.sec ∨ (t.sec = u.sec ∧ t.nsec < u.nsec)

instance (t u : Time) : Decidable (Before t u) := by
  unfold Before
  exact inferInstance

/-- Civil date `(year, month, day)` of a day count relative to 1970-01-01 in the
proleptic Gregorian calendar. -/
def civil (days : Int) : Int × Int × Int :=
  let z := days + 719468
  let era := z / 146097
  let doe := z - era * 146097
  let yoe := (doe - doe / 1460 + doe / 36524 - doe / 146096) / 365
  let doy := doe - (365 * yoe + yoe / 4 - yoe / 100)
  let mp := (5 * doy + 2) / 153
  let d := doy - (153 * mp + 2) / 5 + 1
  let m := if mp < 10 then mp + 3 else mp - 9
  let y := yoe + era * 400
  (if m ≤ 2 then y + 1 else y, m, d)

/-- The year of the time as seen in its own zone, `t.Year()`. -/
def Year (t : Time) : Int := (civil ((t.sec + t.offset) / 86400)).1

/-- Times that RFC 3339 text can carry without loss: a year from 0 to 9999 and a
zone offset of whole minutes below 24 hours.  Readings of `time.Now()` are of
this kind. -/
def Plain (t : Time) : Prop :=
  0 ≤ t.Year ∧ t.Year ≤ 9999 ∧ t.offset % 60 = 0 ∧ t.offset.natAbs < 86400

instance (t : Time) : Decidable (Plain t) := by
  unfold Plain
  exact inferInstance

/-- The zone offset that RFC 3339 text shows: the offset cut to whole minutes
(towards zero), in seconds. -/
def zoneSeconds (t : Time) : Int :=
  if t.offset < 0 then -((t.offset.natAbs / 60 * 60 : Nat) : Int)
  else ((t.offset.natAbs / 60 * 60 : Nat) : Int)

/-- The time that `UnmarshalJSON` reads back from the text that `MarshalJSON`
writes for `t`: the text shows the clock of the zone and the zone offset in whole
minutes, so the seconds of an offset pass from the offset into the instant. -/
def readBack (t : Time) : Time :=
  { sec := t.sec + t.offset - t.zoneSeconds, nsec := t.nsec, offset := t.zoneSeconds }

/-- Date and clock part `2006-01-02T15:04:05` of the time as seen in its own zone. -/
def dateClock (t : Time) : List Char :=
  let abs := t.sec + t.offset
  let days := abs / 86400
  let rem := abs % 86400
  let ymd := civil days
  appendInt ymd.1 4 ++ '-' :: appendInt ymd.2.1 2 ++ '-' :: appendInt ymd.2.2 2 ++
    'T' :: appendInt (rem / 3600) 2 ++ ':' :: appendInt (rem % 3600 / 60) 2 ++
    ':' :: appendInt (rem % 60) 2

/-- Zone part `Z07:00`: `Z` for offset zero, otherwise sign, hours and minutes. -/
def zoneText (t : Time) : List Char :=
  if t.offset = 0 then ['Z']
  else
    let zone := t.offset.natAbs / 60
    (if t.offset ≤ -60 then '-' else '+') ::
      (appendInt (zone / 60) 2 ++ ':' :: appendInt (zone % 60) 2)

/-- Fraction part `.999999999` of `time.RFC3339Nano`: nothing for a whole second,
otherwise nine digits with the trailing zeros removed. -/
def fracText (t : Time) : List Char :=
  if t.nsec % 1000000000 = 0 then []
  else '.' :: ((appendInt (t.nsec % 1000000000) 9).reverse.dropWhile (· == '0')).reverse

/-- Text of `t.Format(time.RFC3339)`, layout `2006-01-02T15:04:05Z07:00`. -/
def formatRFC3339 (t : Time) : String := String.mk (dateClock t ++ zoneText t)

/-- Text of `t.Format(time.RFC3339Nano)`, the form `MarshalJSON` writes. -/
def formatRFC3339Nano (t : Time) : String :=
  String.mk (dateClock t ++ fracText t ++ zoneText t)

end Time

/-! ## `crypto/sha256` and `%x` -/

namespace SHA256

/-- Round constants. -/
def K : List Nat := [
  0x428a2f98, 0x71374491, 0xb5c0fbcf, 0xe9b5dba5, 0x3956c25b, 0x59f111f1, 0x923f82a4, 0xab1c5ed5,
  0xd807aa98, 0x12835b01, 0x243185be, 0x550c7dc3, 0x72be5d74, 0x80deb1fe, 0x9bdc06a7, 0xc19bf174,
  0xe49b69c1, 0xefbe4786, 0x0fc19dc6, 0x240ca1cc, 0x2de92c6f, 0x4a7484aa, 0x5cb0a9dc, 0x76f988da,
  0x983e5152, 0xa831c66d, 0xb00327c8, 0xbf597fc7, 0xc6e00bf3, 0xd5a79147, 0x06ca6351, 0x14292967,
  0x27b70a85, 0x2e1b2138, 0x4d2c6dfc, 0x53380d13, 0x650a7354, 0x766a0abb, 0x81c2c92e, 0x92722c85,
  0xa2bfe8a1, 0xa81a664b, 0xc24b8b70, 0xc76c51a3, 0xd192e819, 0xd6990624, 0xf40e3585, 0x106aa070,
  0x19a4c116, 0x1e376c08, 0x2748774c, 0x34b0bcb5, 0x391c0cb3, 0x4ed8aa4a, 0x5b9cca4f, 0x682e6ff3,
  0x748f82ee, 0x78a5636f, 0x84c87814, 0x8cc70208, 0x90befffa, 0xa4506ceb, 0xbef9a3f7, 0xc67178f2]

/-- Initial hash value. -/
def H0 : List Nat := [
  0x6a09e667, 0xbb67ae85, 0x3c6ef372, 0xa54ff53a, 0x510e527f, 0x9b05688c, 0x1f83d9ab, 0x5be0cd19]

/-- Addition of 32-bit words. -/
def add32 (a b : Nat) : Nat := (a + b) % 2 ^ 32

/-- Rotation of a 32-bit word to the right. -/
def rotr (x n : Nat) : Nat := (x >>> n ||| x <<< (32 - n)) % 2 ^ 32

/-- Complement of a 32-bit word. -/
def not32 (x : Nat) : Nat := 2 ^ 32 - 1 - x % 2 ^ 32

/-- Big-endian bytes of `x`, `n` of them. -/
def beBytes : Nat → Nat → List Nat
  | 0, _ => []
  | n + 1, x => beBytes n (x / 256) ++ [x % 256]

/-- The message followed by the padding: a one bit, zeros up to 56 modulo 64 bytes,
and the bit length as a 64-bit big-endian number. -/
def pad (msg : List Nat) : List Nat :=
  let l := msg.length
  msg ++ 0x80 :: List.replicate ((119 - l % 64) % 64) 0 ++ beBytes 8 (8 * l % 2 ^ 64)

/-- Big-endian 32-bit words of a byte string whose length is a multiple of four. -/
def toWords : Nat → List Nat → List Nat
  | 0, _ => []
  | n + 1, bs =>
    (bs.getD 0 0 * 2 ^ 24 + bs.getD 1 0 * 2 ^ 16 + bs.getD 2 0 * 2 ^ 8 + bs.getD 3 0) ::
      toWords n (bs.drop 4)

/-- Message schedule: extends the sixteen block words by `n` further words. -/
def schedule : Nat → List Nat → List Nat
  | 0, w => w
  | n + 1, w =>
    let i := w.length
    let w15 := w.getD (i - 15) 0
    let w2 := w.getD (i - 2) 0
    let s0 := rotr w15 7 ^^^ rotr w15 18 ^^^ (w15 >>> 3)
    let s1 := rotr w2 17 ^^^ rotr w2 19 ^^^ (w2 >>> 10)
    schedule n (w ++ [add32 (add32 (w.getD (i - 16) 0) s0) (add32 (w.getD (i - 7) 0) s1)])

/-- One round of the compression function on the working variables `a` to `h`. -/
def round (v : List Nat) (kw : Nat × Nat) : List Nat :=
  let a := v.getD 0 0
  let b := v.getD 1 0
  let c := v.getD 2 0
  let d := v.getD 3 0
  let e := v.getD 4 0
  let f := v.getD 5 0
  let g := v.getD 6 0
  let h := v.getD 7 0
  let s1 := rotr e 6 ^^^ rotr e 11 ^^^ rotr e 25
  let ch := (e &&& f) ^^^ (not32 e &&& g)
  let t1 := add32 (add32 (add32 h s1) (add32 ch kw.1)) kw.2
  let s0 := rotr a 2 ^^^ rotr a 13 ^^^ rotr a 22
  let maj := (a &&& b) ^^^ (a &&& c) ^^^ (b &&& c)
  let t2 := add32 s0 maj
  [add32 t1 t2, a, b, c, add32 d t1, e, f, g]

/-- Compression of one 64-byte block into the hash state. -/
def compress (st : List Nat) (block : List Nat) : List Nat :=
  let w := schedule 48 (toWords 16 block)
  let v := (K.zip w).foldl round st
  List.zipWith add32 st v

/-- Hash state after the blocks of a padded message; the first argument is the
number of blocks. -/
def blocks : Nat → List Nat → List Nat → List Nat
  | 0, st, _ => st
  | n + 1, st, bs => blocks n (compress st (bs.take 64)) (bs.drop 64)

/-- The 32 bytes of `sha256.Sum256(msg)`. -/
def Sum256 (msg : List Nat) : List Nat :=
  let p := pad msg
  (blocks (p.length / 64) H0 p).flatMap (beBytes 4)

end SHA256

/-- Lower-case hexadecimal digit. -/
def hexChar (d : Nat) : Char := if d < 10 then Char.ofNat (48 + d) else Char.ofNat (87 + d)

/-- Text of `fmt.Sprintf("%x", bytes)`: two lower-case hexadecimal digits per byte. -/
def hexString (bytes : List Nat) : String :=
  String.mk (bytes.flatMap (fun b => [hexChar (b / 16 % 16), hexChar (b % 16)]))

/-- The bytes of a Go string, `[]byte(s)`: one byte per character of the model
string. -/
def stringBytes (s : String) : List Nat :=
  s.data.map (fun c => c.toNat % 256)

/-! ## `unicode/utf8` -/

/-- Continuation bytes, 80 to BF. -/
def isContinuation (b : Char) : Bool := 0x80 ≤ b.toNat && b.toNat ≤ 0xBF

/-- The first two bytes of a two-byte sequence: C2..DF, then a continuation byte. -/
def startsTwo (a b : Char) : Bool := 0xC2 ≤ a.toNat && a.toNat ≤ 0xDF && isContinuation b

/-- The first two bytes of a three-byte sequence: E0 then A0..BF, ED then 80..9F
(no surrogates), E1..EC and EE..EF then a continuation byte. -/
def startsThree (a b : Char) : Bool :=
  (a.toNat == 0xE0 && 0xA0 ≤ b.toNat && b.toNat ≤ 0xBF) ||
  (0xE1 ≤ a.toNat && a.toNat ≤ 0xEC && isContinuation b) ||
  (a.toNat == 0xED && 0x80 ≤ b.toNat && b.toNat ≤ 0x9F) ||
  (0xEE ≤ a.toNat && a.toNat ≤ 0xEF && isContinuation b)

/-- The first two bytes of a four-byte sequence: F0 then 90..BF, F4 then 80..8F
(nothing above U+10FFFF), F1..F3 then a continuation byte. -/
def startsFour (a b : Char) : Bool :=
  (a.toNat == 0xF0 && 0x90 ≤ b.toNat && b.toNat ≤ 0xBF) ||
  (0xF1 ≤ a.toNat && a.toNat ≤ 0xF3 && isContinuation b) ||
  (a.toNat == 0xF4 && 0x80 ≤ b.toNat && b.toNat ≤ 0x8F)

/-- The size that `utf8.DecodeRuneInString` reports for a well-formed sequence at
the head of the bytes, and 0 where it reports `RuneError` with size 1 (a byte that
starts no well-formed sequence) or the input is empty. -/
def runeLen : List Char → Nat
  | [] => 0
  | a :: rest =>
    if a.toNat < 0x80 then 1
    else
      match rest with
      | [] => 0
      | b :: rest1 =>
        if startsTwo a b then 2
        else
          match rest1 with
          | [] => 0
          | c :: rest2 =>
            if startsThree a b && isContinuation c then 3
            else
              match rest2 with
              | [] => 0
              | d :: _ =>
                if startsFour a b && isContinuation c && isContinuation d then 4 else 0

/-- The UTF-8 encoding of U+FFFD, the replacement character: EF BF BD. -/
def replacementChar : List Char := [Char.ofNat 0xEF, Char.ofNat 0xBF, Char.ofNat 0xBD]

/-- Walk of `utf8.ValidString` over the bytes; the first argument bounds the number
of steps. -/
def utf8Valid.go : Nat → List Char → Bool
  | _, [] => true
  | 0, _ :: _ => false
  | fuel + 1, a :: rest =>
    match runeLen (a :: rest) with
    | 0 => false
    | n + 1 => utf8Valid.go fuel (rest.drop n)

/-- Result of `utf8.ValidString(s)`: the bytes are a sequence of well-formed UTF-8
sequences. -/
def utf8Valid (s : String) : Bool := utf8Valid.go s.data.length s.data

/-- Walk that copies every well-formed sequence and writes U+FFFD for every byte
that starts none; the first argument bounds the number of steps. -/
def toValidUTF8.go : Nat → List Char → List Char
  | _, [] => []
  | 0, _ :: _ => []
  | fuel + 1, a :: rest =>
    match runeLen (a :: rest) with
    | 0 => replacementChar ++ toValidUTF8.go fuel rest
    | n + 1 => a :: rest.take n ++ toValidUTF8.go fuel (rest.drop n)

/-- The string that a JSON round trip makes of a Go string: `json.Marshal` writes
every byte that is not part of a well-formed UTF-8 sequence as the escape
`\ufffd`, and decoding gives U+FFFD in its place; well-formed sequences are kept. -/
def toValidUTF8 (s : String) : String := String.mk (toValidUTF8.go s.data.length s.data)

/-! ## Data model (`evidence.go`, lines 18-46) -/

/-- Go errors, identified with their message. -/
abbrev Error := String

deriving instance DecidableEq for Except

/-- Evidence represents the evidence structure stored on blockchain. -/
structure Evidence where
  ID : String
  CaseID : String
  Filename : String
  IPFSCid : String
  FileHash : String
  BlockchainHash : String
  CustodyOfficer : String
  Timestamp : Time
  Status : String
  AccessLevel : String
deriving DecidableEq, Repr

/-- CustodyTransfer represents a custody change event. -/
structure CustodyTransfer where
  EvidenceID : String
  FromOfficer : String
  ToOfficer : String
  Timestamp : Time
  Reason : String
  TransactionID : String
deriving DecidableEq, Repr

/-- QueryResult structure used for handling result of query. -/
structure QueryResult where
  Key : String
  Record : Evidence
deriving DecidableEq, Repr

/-- The zero value `Evidence{}`. -/
def Evidence.zero : Evidence :=
  { ID := "", CaseID := "", Filename := "", IPFSCid := "", FileHash := "", BlockchainHash := "",
    CustodyOfficer := "", Timestamp := Time.zero, Status := "", AccessLevel := "" }

/-- The zero value `CustodyTransfer{}`. -/
def CustodyTransfer.zero : CustodyTransfer :=
  { EvidenceID := "", FromOfficer := "", ToOfficer := "", Timestamp := Time.zero, Reason := "",
    TransactionID := "" }

/-! ## `encoding/json`

Stored bytes are modelled by the JSON document they spell.  A string that spells
an RFC 3339 timestamp is kept as the time it denotes (`JSONValue.time`), every
other string as `JSONValue.string`; bytes that `json.Unmarshal` rejects for a
struct target are `Bytes.raw`.

`json.Marshal` writes a string field with every byte that is not part of a
well-formed UTF-8 sequence replaced by U+FFFD, and `json.Unmarshal` does the same
to the strings it reads, so what is stored and read back is `toValidUTF8` of the
field.  Object members are matched to struct fields by their `json` tag without
regard to case.  `json.Marshal` of the two struct types can fail only inside
`Time.MarshalJSON`, which rejects a year outside 0..9999 and a zone hour outside
0..23. -/

/-- A member value of a JSON object. -/
inductive JSONValue where
  | string (s : String)
  | time (t : Time)
  | null
  | other (text : String)
deriving DecidableEq, Repr

/-- A value of the world state: a JSON object, or bytes that are not one. -/
inductive Bytes where
  | object (members : List (String × JSONValue))
  | raw (text : String)
deriving DecidableEq, Repr

/-- Length test `len(value) > 0`. -/
def Bytes.nonEmpty : Bytes → Bool
  | .object _ => true
  | .raw text => text != ""

/-- Decoding of a member value into a `string` field holding `old`. -/
def decodeString (v : JSONValue) (old : String) : Except Error String :=
  match v with
  | .string s => .ok (toValidUTF8 s)
  | .time t => .ok t.formatRFC3339Nano
  | .null => .ok old
  | .other text => .error ("json: cannot unmarshal " ++ text ++ " into Go value of type string")

/-- Decoding of a member value into a `time.Time` field holding `old`. -/
def decodeTime (v : JSONValue) (old : Time) : Except Error Time :=
  match v with
  | .string s => .error ("parsing time " ++ s ++ ": cannot parse as RFC 3339")
  | .time t => .ok t
  | .null => .ok old
  | .other _ => .error "Time.UnmarshalJSON: input is not a JSON string"

/-- Result of `t.MarshalJSON()`: an error for a year outside 0..9999 or a zone
hour outside 0..23, otherwise the RFC 3339 text with sub-second digits, kept as
the time that text denotes. -/
def Time.MarshalJSON (t : Time) : Except Error JSONValue :=
  if t.Year < 0 ∨ 9999 < t.Year then
    .error "Time.MarshalJSON: year outside of range [0,9999]"
  else if 24 ≤ t.offset.natAbs / 60 / 60 then
    .error "Time.MarshalJSON: timezone hour outside of range [0,23]"
  else .ok (.time t.readBack)

/-- Document written by `json.Marshal(evidence)`: the fields in declaration order
under their `json` tags, the strings coerced to valid UTF-8. -/
def jsonMarshalEvidence (e : Evidence) : Except Error Bytes :=
  match e.Timestamp.MarshalJSON with
  | .error err => .error ("json: error calling MarshalJSON for type time.Time: " ++ err)
  | .ok timestamp =>
    .ok (.object [
      ("id", .string (toValidUTF8 e.ID)),
      ("caseId", .string (toValidUTF8 e.CaseID)),
      ("filename", .string (toValidUTF8 e.Filename)),
      ("ipfsCid", .string (toValidUTF8 e.IPFSCid)),
      ("fileHash", .string (toValidUTF8 e.FileHash)),
      ("blockchainHash", .string (toValidUTF8 e.BlockchainHash)),
      ("custodyOfficer", .string (toValidUTF8 e.CustodyOfficer)),
      ("timestamp", timestamp),
      ("status", .string (toValidUTF8 e.Status)),
      ("accessLevel", .string (toValidUTF8 e.AccessLevel))])

/-- Document written by `json.Marshal(transfer)`. -/
def jsonMarshalTransfer (t : CustodyTransfer) : Except Error Bytes :=
  match t.Timestamp.MarshalJSON with
  | .error err => .error ("json: error calling MarshalJSON for type time.Time: " ++ err)
  | .ok timestamp =>
    .ok (.object [
      ("evidenceId", .string (toValidUTF8 t.EvidenceID)),
      ("fromOfficer", .string (toValidUTF8 t.FromOfficer)),
      ("toOfficer", .string (toValidUTF8 t.ToOfficer)),
      ("timestamp", timestamp),
      ("reason", .string (toValidUTF8 t.Reason)),
      ("transactionId", .string (toValidUTF8 t.TransactionID))])

/-- The folded form of a member name as `json.Unmarshal` compares it with the
tags: ASCII letters in upper case, the long s (bytes C5 BF) as `S` and the Kelvin
sign (bytes E2 84 AA) as `K`.  Every other non-ASCII rune folds to a non-ASCII
rune and cannot make a name equal to one of the tags, which are ASCII; such bytes
are kept as they are. -/
def foldName : List Char → List Char
  | [] => []
  | [a] => if 97 ≤ a.toNat ∧ a.toNat ≤ 122 then [Char.ofNat (a.toNat - 32)] else [a]
  | [a, b] =>
    if 97 ≤ a.toNat ∧ a.toNat ≤ 122 then Char.ofNat (a.toNat - 32) :: foldName [b]
    else if a.toNat = 0xC5 ∧ b.toNat = 0xBF then ['S']
    else a :: foldName [b]
  | a :: b :: c :: rest =>
    if 97 ≤ a.toNat ∧ a.toNat ≤ 122 then Char.ofNat (a.toNat - 32) :: foldName (b :: c :: rest)
    else if a.toNat = 0xC5 ∧ b.toNat = 0xBF then 'S' :: foldName (c :: rest)
    else if a.toNat = 0xE2 ∧ b.toNat = 0x84 ∧ c.toNat = 0xAA then 'K' :: foldName rest
    else a :: foldName (b :: c :: rest)

/-- A member name matches a field tag when the two are equal or equal under case
folding. -/
def tagMatches (key tag : String) : Bool := foldName key.data == foldName tag.data

/-- Assignment of one object member to the `Evidence` field whose tag the name
matches; a member with an unknown name is skipped. -/
def Evidence.setMember (e : Evidence) (key : String) (v : JSONValue) : Except Error Evidence :=
  if tagMatches key "id" then (decodeString v e.ID).map (fun s => { e with ID := s })
  else if tagMatches key "caseId" then (decodeString v e.CaseID).map (fun s => { e with CaseID := s })
  else if tagMatches key "filename" then (decodeString v e.Filename).map (fun s => { e with Filename := s })
  else if tagMatches key "ipfsCid" then (decodeString v e.IPFSCid).map (fun s => { e with IPFSCid := s })
  else if tagMatches key "fileHash" then (decodeString v e.FileHash).map (fun s => { e with FileHash := s })
  else if tagMatches key "blockchainHash" then
    (decodeString v e.BlockchainHash).map (fun s => { e with BlockchainHash := s })
  else if tagMatches key "custodyOfficer" then
    (decodeString v e.CustodyOfficer).map (fun s => { e with CustodyOfficer := s })
  else if tagMatches key "timestamp" then (decodeTime v e.Timestamp).map (fun t => { e with Timestamp := t })
  else if tagMatches key "status" then (decodeString v e.Status).map (fun s => { e with Status := s })
  else if tagMatches key "accessLevel" then
    (decodeString v e.AccessLevel).map (fun s => { e with AccessLevel := s })
  else .ok e

/-- Assignment of one object member to the `CustodyTransfer` field whose tag the
name matches. -/
def CustodyTransfer.setMember (t : CustodyTransfer) (key : String) (v : JSONValue) :
    Except Error CustodyTransfer :=
  if tagMatches key "evidenceId" then (decodeString v t.EvidenceID).map (fun s => { t with EvidenceID := s })
  else if tagMatches key "fromOfficer" then
    (decodeString v t.FromOfficer).map (fun s => { t with FromOfficer := s })
  else if tagMatches key "toOfficer" then (decodeString v t.ToOfficer).map (fun s => { t with ToOfficer := s })
  else if tagMatches key "timestamp" then (decodeTime v t.Timestamp).map (fun x => { t with Timestamp := x })
  else if tagMatches key "reason" then (decodeString v t.Reason).map (fun s => { t with Reason := s })
  else if tagMatches key "transactionId" then
    (decodeString v t.TransactionID).map (fun s => { t with TransactionID := s })
  else .ok t

/-- Members of an object assigned in order to an `Evidence` value. -/
def Evidence.setMembers : List (String × JSONValue) → Evidence → Except Error Evidence
  | [], e => .ok e
  | (key, v) :: rest, e =>
    match e.setMember key v with
    | .error err => .error err
    | .ok e1 => Evidence.setMembers rest e1

/-- Members of an object assigned in order to a `CustodyTransfer` value. -/
def CustodyTransfer.setMembers :
    List (String × JSONValue) → CustodyTransfer → Except Error CustodyTransfer
  | [], t => .ok t
  | (key, v) :: rest, t =>
    match t.setMember key v with
    | .error err => .error err
    | .ok t1 => CustodyTransfer.setMembers rest t1

/-- Result of `json.Unmarshal(data, &evidence)` on a zero `Evidence`. -/
def jsonUnmarshalEvidence : Bytes → Except Error Evidence
  | .raw text => .error ("json: cannot unmarshal " ++ text ++ " into Go value of type main.Evidence")
  | .object members => Evidence.setMembers members Evidence.zero

/-- Result of `json.Unmarshal(data, &transfer)` on a zero `CustodyTransfer`. -/
def jsonUnmarshalTransfer : Bytes → Except Error CustodyTransfer
  | .raw text =>
    .error ("json: cannot unmarshal " ++ text ++ " into Go value of type main.CustodyTransfer")
  | .object members => CustodyTransfer.setMembers members CustodyTransfer.zero

/-! ## The ledger and the Fabric stub

The world state is a finite map from keys to values, kept as a list in key order
(the order range scans return).  Every committed write is also appended to the
ledger's history.

A contract function runs against a stub.  What it reads comes from the committed
ledger; `PutState` only adds to the write set of the invocation (a later read in
the same invocation does not see it).  The platform commits the write set when
the function returns without error and drops it otherwise: see `invoke`. -/

/-- Byte order of keys: lexicographic order of the code points. -/
def keyLt : List Char → List Char → Bool
  | [], [] => false
  | [], _ :: _ => true
  | _ :: _, [] => false
  | a :: as, b :: bs =>
    if a.toNat < b.toNat then true
    else if b.toNat < a.toNat then false
    else keyLt as bs

/-- The world state: key-value pairs in key order. -/
abbrev WorldState := List (String × Bytes)

/-- Value stored under a key, if any. -/
def WorldState.get : WorldState → String → Option Bytes
  | [], _ => none
  | (k, v) :: rest, key => if k = key then some v else WorldState.get rest key

/-- Write of a key: replaces the value of an existing key, or inserts the pair at
its place in key order. -/
def WorldState.put : WorldState → String → Bytes → WorldState
  | [], key, value => [(key, value)]
  | (k, v) :: rest, key, value =>
    if k = key then (key, value) :: rest
    else if keyLt key.data k.data then (key, value) :: (k, v) :: rest
    else (k, v) :: WorldState.put rest key value

/-- Keys strictly increasing: the shape of every world state the stub builds. -/
def WorldState.Sorted (w : WorldState) : Prop :=
  w.Pairwise (fun a b => keyLt a.1.data b.1.data = true)

instance (w : WorldState) : Decidable w.Sorted := by
  unfold WorldState.Sorted
  exact inferInstance

/-- One entry of a key's history: the transaction that wrote it and the value. -/
structure KeyModification where
  Key : String
  TxId : String
  Value : Bytes
deriving DecidableEq, Repr

/-- The ledger as the chaincode sees it: current world state and write history,
oldest write first. -/
structure Ledger where
  world : WorldState
  history : List KeyModification
deriving DecidableEq, Repr

/-- The ledger before any transaction. -/
def Ledger.empty : Ledger := { world := [], history := [] }

/-- The ledger after a committed write of a key by a transaction. -/
def Ledger.put (l : Ledger) (txID key : String) (value : Bytes) : Ledger :=
  { world := l.world.put key value,
    history := l.history ++ [{ Key := key, TxId := txID, Value := value }] }

/-- The ledger after the commit of a write set, entry by entry. -/
def Ledger.commit (l : Ledger) (txID : String) : List (String × Bytes) → Ledger
  | [] => l
  | (key, value) :: rest => (l.put txID key value).commit txID rest

/-- The stub of one invocation: the committed ledger it reads and the write set
it has collected so far, one entry per key, in the order of the writes. -/
structure Stub where
  ledger : Ledger
  writes : List (String × Bytes)
deriving DecidableEq, Repr

/-- The stub at the start of an invocation on a ledger: nothing written yet. -/
def Ledger.stub (l : Ledger) : Stub := { ledger := l, writes := [] }

/-- The environment of one invocation: the transaction id of the stub, the
successive readings of `time.Now()` during the call (reading 0 is the first), each
of them a plain time, and the failures the stub's calls meet. -/
structure TransactionContext where
  txID : String
  now : Nat → Time
  nowPlain : ∀ i, (now i).Plain
  getStateErr : String → Option Error
  putStateErr : String → Option Error
  iteratorErr : Option Error
  nextErr : Nat → Option Error

/-- Result of `ctx.GetStub().GetTxID()`. -/
def GetTxID (ctx : TransactionContext) : String := ctx.txID

/-- Result of `ctx.GetStub().GetState(key)`: the committed value, `none` for Go's
`nil` when the key is absent. -/
def GetState (ctx : TransactionContext) (stub : Stub) (key : String) :
    Except Error (Option Bytes) × Stub :=
  match ctx.getStateErr key with
  | some err => (.error err, stub)
  | none => (.ok (stub.ledger.world.get key), stub)

/-- The stub after a write has entered its write set, in place of an earlier write
of the same key. -/
def Stub.put (stub : Stub) (key : String) (value : Bytes) : Stub :=
  { stub with writes := stub.writes.filter (fun kv => kv.1 ≠ key) ++ [(key, value)] }

/-- Result of `ctx.GetStub().PutState(key, value)`: an empty key is refused;
otherwise the write enters the write set. -/
def PutState (ctx : TransactionContext) (stub : Stub) (key : String) (value : Bytes) :
    Except Error Unit × Stub :=
  if key = "" then (.error "key must not be an empty string", stub)
  else
    match ctx.putStateErr key with
    | some err => (.error err, stub)
    | none => (.ok (), stub.put key value)

/-- An invocation of a contract function as the platform runs it on a ledger: the
function runs on a stub with an empty write set; when it returns without error
its write set is committed, when it returns an error nothing is. -/
def invoke {α : Type} (ctx : TransactionContext) (l : Ledger)
    (f : TransactionContext → Stub → Except Error α × Stub) : Except Error α × Ledger :=
  match f ctx l.stub with
  | (.ok a, stub) => (.ok a, l.commit ctx.txID stub.writes)
  | (.error err, _) => (.error err, l)

/-- The bytes F4 8F BF BF of U+10FFFF, `maxUnicodeRuneValue`. -/
def maxUnicodeRune : List Char :=
  [Char.ofNat 0xF4, Char.ofNat 0x8F, Char.ofNat 0xBF, Char.ofNat 0xBF]

/-- The bytes hold the sequence F4 8F BF BF. -/
def hasMaxUnicodeRune : List Char → Bool
  | a :: b :: c :: d :: rest =>
    (a.toNat == 0xF4 && b.toNat == 0x8F && c.toNat == 0xBF && d.toNat == 0xBF) ||
      hasMaxUnicodeRune (b :: c :: d :: rest)
  | _ => false

/-- Check of `validateCompositeKeyAttribute`: valid UTF-8 without the runes U+0000
and U+10FFFF.  In valid UTF-8 the first is the byte 00 and the second the bytes
F4 8F BF BF wherever they stand. -/
def validateCompositeKeyAttribute (str : String) : Except Error Unit :=
  if utf8Valid str = false then
    .error ("not a valid utf8 string: [" ++ hexString (stringBytes str) ++ "]")
  else if str.data.any (fun c => c.toNat = 0) ∨ hasMaxUnicodeRune str.data = true then
    .error ("input contains unicode U+0000 or U+10FFFF, not allowed in the attribute of a " ++
      "composite key: " ++ str)
  else .ok ()

/-- Attributes appended to a composite key, each followed by U+0000. -/
def appendAttributes : List String → String → Except Error String
  | [], ck => .ok ck
  | att :: rest, ck =>
    match validateCompositeKeyAttribute att with
    | .error err => .error err
    | .ok _ => appendAttributes rest (ck ++ att ++ String.mk [Char.ofNat 0])

/-- Result of `ctx.GetStub().CreateCompositeKey(objectType, attributes)`:
U+0000, the object type, U+0000, then each attribute followed by U+0000. -/
def CreateCompositeKey (objectType : String) (attributes : List String) : Except Error String :=
  match validateCompositeKeyAttribute objectType with
  | .error err => .error err
  | .ok _ => appendAttributes attributes (String.mk [Char.ofNat 0] ++ objectType ++ String.mk [Char.ofNat 0])

/-- What the successive `Next()` calls of an iterator over `results` return, the
first of them being call number `i` . -/
def iteratorFrom (ctx : TransactionContext) : Nat → List (String × Bytes) →
    List (Except Error (String × Bytes))
  | _, [] => []
  | i, kv :: rest =>
    (match ctx.nextErr i with
      | some err => .error err
      | none => .ok kv) :: iteratorFrom ctx (i + 1) rest

/-- Keys of the range that a partial composite key opens: from the partial key
itself up to, and without, the partial key followed by U+10FFFF, in byte order. -/
def inKeyRange (startKey : String) (key : String) : Bool :=
  !keyLt key.data startKey.data && keyLt key.data (startKey.data ++ maxUnicodeRune)

/-- Result of `ctx.GetStub().GetStateByPartialCompositeKey(objectType, attributes)`:
an iterator over the committed pairs whose key lies in the range of the partial
composite key, in key order. -/
def GetStateByPartialCompositeKey (ctx : TransactionContext) (stub : Stub) (objectType : String)
    (attributes : List String) : Except Error (List (Except Error (String × Bytes))) × Stub :=
  match CreateCompositeKey objectType attributes with
  | .error err => (.error err, stub)
  | .ok startKey =>
    match ctx.iteratorErr with
    | some err => (.error err, stub)
    | none =>
      (.ok (iteratorFrom ctx 0 (stub.ledger.world.filter (fun kv => inKeyRange startKey kv.1))),
        stub)

/-! ## The contract (`evidence.go`, lines 48-356) -/

/-- The string `data` that `calculateBlockchainHash` builds with
`fmt.Sprintf("%s%s%s%s%s%s", ...)` and hands to SHA-256. -/
def digestInput (evidence : Evidence) : String :=
  evidence.ID ++ evidence.CaseID ++ evidence.IPFSCid ++ evidence.FileHash ++
    evidence.CustodyOfficer ++ evidence.Timestamp.formatRFC3339

/-- calculateBlockchainHash creates an immutable hash for blockchain verification. -/
def calculateBlockchainHash (evidence : Evidence) : String :=
  let data := digestInput evidence
  let hash := SHA256.Sum256 (stringBytes data)
  hexString hash

/-- EvidenceExists returns true when evidence with given ID exists in world state. -/
def EvidenceExists (ctx : TransactionContext) (stub : Stub) (id : String) :
    Except Error Bool × Stub :=
  match GetState ctx stub id with
  | (.error err, stub) => (.error ("failed to read from world state: " ++ err), stub)
  | (.ok evidenceJSON, stub) => (.ok evidenceJSON.isSome, stub)

/-- The loop of `InitLedger` over its base set of evidence. -/
def InitLedger.loop (ctx : TransactionContext) : Stub → List Evidence → Except Error Unit × Stub
  | stub, [] => (.ok (), stub)
  | stub, evidenceItem :: rest =>
    let evidenceItem :=
      { evidenceItem with BlockchainHash := calculateBlockchainHash evidenceItem }
    match jsonMarshalEvidence evidenceItem with
    | .error err => (.error err, stub)
    | .ok evidenceJSON =>
      match PutState ctx stub evidenceItem.ID evidenceJSON with
      | (.error err, stub) => (.error ("failed to put evidence to world state: " ++ err), stub)
      | (.ok _, stub) => InitLedger.loop ctx stub rest

/-- InitLedger adds a base set of evidence to the ledger. -/
def InitLedger (ctx : TransactionContext) (stub : Stub) : Except Error Unit × Stub :=
  let evidence : List Evidence := [
    { ID := "evidence1",
      CaseID := "case1",
      Filename := "initial_evidence.pdf",
      IPFSCid := "QmTestCID123",
      FileHash := "sha256_hash_placeholder",
      BlockchainHash := "",
      CustodyOfficer := "officer.doe@police.gov",
      Timestamp := ctx.now 0,
      Status := "ACTIVE",
      AccessLevel := "RESTRICTED" }]
  InitLedger.loop ctx stub evidence

/-- CreateEvidence issues a new evidence to the world state with given details. -/
def CreateEvidence (ctx : TransactionContext) (stub : Stub) (id caseId filename ipfsCid fileHash
    custodyOfficer accessLevel : String) : Except Error Unit × Stub :=
  match EvidenceExists ctx stub id with
  | (.error err, stub) => (.error err, stub)
  | (.ok isPresent, stub) =>
    if isPresent then (.error ("evidence " ++ id ++ " already exists"), stub)
    else
      let evidence : Evidence :=
        { ID := id,
          CaseID := caseId,
          Filename := filename,
          IPFSCid := ipfsCid,
          FileHash := fileHash,
          BlockchainHash := "",
          CustodyOfficer := custodyOfficer,
          Timestamp := ctx.now 0,
          Status := "ACTIVE",
          AccessLevel := accessLevel }
      let evidence := { evidence with BlockchainHash := calculateBlockchainHash evidence }
      match jsonMarshalEvidence evidence with
      | .error err => (.error err, stub)
      | .ok evidenceJSON => PutState ctx stub id evidenceJSON

/-- ReadEvidence returns the evidence stored in the world state with given id. -/
def ReadEvidence (ctx : TransactionContext) (stub : Stub) (id : String) :
    Except Error Evidence × Stub :=
  match GetState ctx stub id with
  | (.error err, stub) => (.error ("failed to read from world state: " ++ err), stub)
  | (.ok none, stub) => (.error ("evidence " ++ id ++ " does not exist"), stub)
  | (.ok (some evidenceJSON), stub) =>
    match jsonUnmarshalEvidence evidenceJSON with
    | .error err => (.error err, stub)
    | .ok evidence => (.ok evidence, stub)

/-- UpdateEvidenceStatus changes the status of an existing evidence. -/
def UpdateEvidenceStatus (ctx : TransactionContext) (stub : Stub) (id newStatus : String) :
    Except Error Unit × Stub :=
  match ReadEvidence ctx stub id with
  | (.error err, stub) => (.error err, stub)
  | (.ok evidence, stub) =>
    let evidence := { evidence with Status := newStatus }
    let evidence := { evidence with Timestamp := ctx.now 0 }
    let evidence := { evidence with BlockchainHash := calculateBlockchainHash evidence }
    match jsonMarshalEvidence evidence with
    | .error err => (.error err, stub)
    | .ok evidenceJSON => PutState ctx stub id evidenceJSON

/-- TransferCustody transfers evidence custody to a new officer. -/
def TransferCustody (ctx : TransactionContext) (stub : Stub)
    (evidenceId newOfficer reason : String) : Except Error Unit × Stub :=
  match ReadEvidence ctx stub evidenceId with
  | (.error err, stub) => (.error err, stub)
  | (.ok evidence, stub) =>
    let transfer : CustodyTransfer :=
      { EvidenceID := evidenceId,
        FromOfficer := evidence.CustodyOfficer,
        ToOfficer := newOfficer,
        Timestamp := ctx.now 0,
        Reason := reason,
        TransactionID := GetTxID ctx }
    match CreateCompositeKey "custody_transfer" [evidenceId, formatInt (ctx.now 1).Unix] with
    | .error err => (.error err, stub)
    | .ok transferKey =>
      match jsonMarshalTransfer transfer with
      | .error err => (.error err, stub)
      | .ok transferJSON =>
        match PutState ctx stub transferKey transferJSON with
        | (.error err, stub) => (.error err, stub)
        | (.ok _, stub) =>
          let evidence := { evidence with CustodyOfficer := newOfficer }
          let evidence := { evidence with Timestamp := ctx.now 2 }
          let evidence := { evidence with BlockchainHash := calculateBlockchainHash evidence }
          match jsonMarshalEvidence evidence with
          | .error err => (.error err, stub)
          | .ok evidenceJSON => PutState ctx stub evidenceId evidenceJSON

/-- The report `map[string]interface{}` that `VerifyIntegrity` builds, one field
per key of the map. -/
structure VerificationResult where
  evidenceId : String
  originalHash : String
  currentHash : String
  hashMatch : Bool
  blockchainHash : String
  timestamp : Time
  custodyOfficer : String
  verifiedAt : Time
deriving DecidableEq, Repr

/-- VerifyIntegrity verifies evidence integrity by comparing hashes. -/
def VerifyIntegrity (ctx : TransactionContext) (stub : Stub) (id currentFileHash : String) :
    Except Error VerificationResult × Stub :=
  match ReadEvidence ctx stub id with
  | (.error err, stub) => (.error err, stub)
  | (.ok evidence, stub) =>
    (.ok { evidenceId := evidence.ID,
           originalHash := evidence.FileHash,
           currentHash := currentFileHash,
           hashMatch := evidence.FileHash == currentFileHash,
           blockchainHash := evidence.BlockchainHash,
           timestamp := evidence.Timestamp,
           custodyOfficer := evidence.CustodyOfficer,
           verifiedAt := ctx.now 0 }, stub)

/-- The loop of `GetCustodyChain` over the iterator. -/
def GetCustodyChain.loop : List (Except Error (String × Bytes)) → List CustodyTransfer →
    Except Error (List CustodyTransfer)
  | [], transfers => .ok transfers
  | .error err :: _, _ => .error err
  | .ok response :: rest, transfers =>
    match jsonUnmarshalTransfer response.2 with
    | .error err => .error err
    | .ok transfer => GetCustodyChain.loop rest (transfers ++ [transfer])

/-- GetCustodyChain returns the custody transfer history for an evidence. -/
def GetCustodyChain (ctx : TransactionContext) (stub : Stub) (evidenceId : String) :
    Except Error (List CustodyTransfer) × Stub :=
  match GetStateByPartialCompositeKey ctx stub "custody_transfer" [evidenceId] with
  | (.error err, stub) => (.error err, stub)
  | (.ok resultsIterator, stub) => (GetCustodyChain.loop resultsIterator [], stub)

/-! ## Calls, reachable ledgers and sample environments -/

/-- A mutating invocation of the contract with its arguments. -/
inductive Call where
  | initLedger
  | createEvidence (id caseId filename ipfsCid fileHash custodyOfficer accessLevel : String)
  | updateEvidenceStatus (id newStatus : String)
  | transferCustody (evidenceId newOfficer reason : String)
deriving DecidableEq, Repr

/-- The contract function that a call names, applied to its arguments. -/
def Call.apply : Call → TransactionContext → Stub → Except Error Unit × Stub
  | .initLedger => fun ctx stub => InitLedger ctx stub
  | .createEvidence id caseId filename ipfsCid fileHash custodyOfficer accessLevel =>
    fun ctx stub =>
      CreateEvidence ctx stub id caseId filename ipfsCid fileHash custodyOfficer accessLevel
  | .updateEvidenceStatus id newStatus => fun ctx stub => UpdateEvidenceStatus ctx stub id newStatus
  | .transferCustody evidenceId newOfficer reason =>
    fun ctx stub => TransferCustody ctx stub evidenceId newOfficer reason

/-- Invocation of one call on a ledger in an environment: what the function
returns and the ledger afterwards. -/
def Call.run (ctx : TransactionContext) (l : Ledger) (c : Call) : Except Error Unit × Ledger :=
  invoke ctx l c.apply

/-- Ledgers that arise from the empty ledger by invocations of the four mutating
operations with arguments of a given kind, in any environments and whether the
calls succeed or fail. -/
inductive ReachableBy (P : Call → Prop) : Ledger → Prop where
  | empty : ReachableBy P Ledger.empty
  | step (ctx : TransactionContext) (c : Call) {l : Ledger} :
      P c → ReachableBy P l → ReachableBy P (c.run ctx l).2

/-- Ledgers that arise from the empty ledger by invocations of the four mutating
operations, with any arguments. -/
def Reachable (l : Ledger) : Prop := ReachableBy (fun _ => True) l

/-- Calls whose arguments that enter the digest of a new record are valid UTF-8:
the id, case, content locator, file hash and officer of `CreateEvidence` and the
new officer of `TransferCustody`. -/
def Call.digestArgsValid : Call → Prop
  | .initLedger => True
  | .createEvidence id caseId _ ipfsCid fileHash custodyOfficer _ =>
    utf8Valid id = true ∧ utf8Valid caseId = true ∧ utf8Valid ipfsCid = true ∧
      utf8Valid fileHash = true ∧ utf8Valid custodyOfficer = true
  | .updateEvidenceStatus _ _ => True
  | .transferCustody _ newOfficer _ => utf8Valid newOfficer = true

/-- Ledger after a sequence of calls, each in its own environment. -/
def runCalls (l : Ledger) : List (TransactionContext × Call) → Ledger
  | [] => l
  | (ctx, c) :: rest => runCalls (c.run ctx l).2 rest

/-- A sequence of `TransferCustody` invocations on one evidence id, each given by
its environment, new officer and reason; stops at the first call that fails. -/
def transferAll (evidenceId : String) :
    Ledger → List (TransactionContext × String × String) → Except Error Unit × Ledger
  | l, [] => (.ok (), l)
  | l, (ctx, newOfficer, reason) :: rest =>
    match Call.run ctx l (.transferCustody evidenceId newOfficer reason) with
    | (.error err, l1) => (.error err, l1)
    | (.ok _, l1) => transferAll evidenceId l1 rest

/-- An environment without failures: transaction id `tx`, clock readings in Unix
second `sec` of the UTC zone, the `i`-th reading `nsec + i` nanoseconds into it. -/
def quietCtx (tx : String) (sec : Int) (nsec : Nat)
    (h : Time.Plain { sec := sec, nsec := 0, offset := 0 } := by decide) : TransactionContext :=
  { txID := tx,
    now := fun i => { sec := sec, nsec := nsec + i, offset := 0 },
    nowPlain := fun _ => h,
    getStateErr := fun _ => none,
    putStateErr := fun _ => none,
    iteratorErr := none,
    nextErr := fun _ => none }

/-- An environment as `quietCtx` in which the put of one key fails. -/
def failingPutCtx (tx : String) (sec : Int) (badKey : String)
    (h : Time.Plain { sec := sec, nsec := 0, offset := 0 } := by decide) : TransactionContext :=
  { quietCtx tx sec 0 h with
    putStateErr := fun key => if key = badKey then some "connection lost" else none }

/-- The key under which a transfer of evidence `E1` in second 1700000005 is stored. -/
def sampleTransferKey : String :=
  String.mk ([Char.ofNat 0] ++ "custody_transfer".data ++ [Char.ofNat 0] ++ "E1".data ++
    [Char.ofNat 0] ++ "1700000005".data ++ [Char.ofNat 0])

/-- Ledger after creating evidence `E1` held by `alice` with file hash `abc123`. -/
def ledgerE1 : Ledger :=
  (Call.run (quietCtx "tx1" 1700000000 0) Ledger.empty
    (.createEvidence "E1" "case1" "photo.jpg" "QmCid" "abc123" "alice" "RESTRICTED")).2

/-- Ledger after the transfer of `E1` from `alice` to `bob`. -/
def ledgerE1Bob : Ledger :=
  (Call.run (quietCtx "tx2" 1700000005 0) ledgerE1
    (.transferCustody "E1" "bob" "reassignment")).2

/-- Ledger after a further transfer of `E1` to `carol` within the same second. -/
def ledgerE1Carol : Ledger :=
  (Call.run (quietCtx "tx3" 1700000005 500) ledgerE1Bob
    (.transferCustody "E1" "carol" "shift change")).2

/-- The `w` low decimal digits of `n`, most significant first. -/
def fixedDigits : Nat → Nat → List Char
  | 0, _ => []
  | w + 1, n => fixedDigits w (n / 10) ++ [digitChar (n % 10)]

/-- The chain that transfers of evidence `evidenceId`, first held by `officer`,
are expected to leave: one record per call, each from the officer the previous
call handed the evidence to.  Officers, reasons and transaction ids stand as JSON
stores them, coerced to valid UTF-8. -/
def expectedChain (evidenceId : String) :
    String → List (TransactionContext × String × String) → List CustodyTransfer
  | _, [] => []
  | officer, (ctx, newOfficer, reason) :: rest =>
    { EvidenceID := evidenceId, FromOfficer := officer, ToOfficer := toValidUTF8 newOfficer,
      Timestamp := ctx.now 0, Reason := toValidUTF8 reason,
      TransactionID := toValidUTF8 (GetTxID ctx) } ::
      expectedChain evidenceId (toValidUTF8 newOfficer) rest

/-- Keys of the composite-key namespace: those that begin with U+0000. -/
def isCompositeKey (key : String) : Prop := key.data.head? = some (Char.ofNat 0)

instance (key : String) : Decidable (isCompositeKey key) := by
  unfold isCompositeKey
  exact inferInstance

/-- The six strings that `calculateBlockchainHash` concatenates, in order. -/
def hashedFields (evidence : Evidence) : List String :=
  [evidence.ID, evidence.CaseID, evidence.IPFSCid, evidence.FileHash, evidence.CustodyOfficer,
    evidence.Timestamp.formatRFC3339]

/-- The five string fields that enter the digest are valid UTF-8. -/
def Evidence.digestValid (e : Evidence) : Prop :=
  utf8Valid e.ID = true ∧ utf8Valid e.CaseID = true ∧ utf8Valid e.IPFSCid = true ∧
    utf8Valid e.FileHash = true ∧ utf8Valid e.CustodyOfficer = true

instance (e : Evidence) : Decidable e.digestValid := by
  unfold Evidence.digestValid
  exact inferInstance

/-- All nine string fields are valid UTF-8. -/
def Evidence.utf8Valid (e : Evidence) : Prop :=
  EvidenceContract.utf8Valid e.ID = true ∧ EvidenceContract.utf8Valid e.CaseID = true ∧
    EvidenceContract.utf8Valid e.Filename = true ∧ EvidenceContract.utf8Valid e.IPFSCid = true ∧
    EvidenceContract.utf8Valid e.FileHash = true ∧
    EvidenceContract.utf8Valid e.BlockchainHash = true ∧
    EvidenceContract.utf8Valid e.CustodyOfficer = true ∧
    EvidenceContract.utf8Valid e.Status = true ∧ EvidenceContract.utf8Valid e.AccessLevel = true

instance (e : Evidence) : Decidable e.utf8Valid := by
  unfold Evidence.utf8Valid
  exact inferInstance

/-- The record with every string field coerced to valid UTF-8: what is read back
after the record has been stored. -/
def Evidence.toValidUTF8 (e : Evidence) : Evidence :=
  { ID := EvidenceContract.toValidUTF8 e.ID,
    CaseID := EvidenceContract.toValidUTF8 e.CaseID,
    Filename := EvidenceContract.toValidUTF8 e.Filename,
    IPFSCid := EvidenceContract.toValidUTF8 e.IPFSCid,
    FileHash := EvidenceContract.toValidUTF8 e.FileHash,
    BlockchainHash := EvidenceContract.toValidUTF8 e.BlockchainHash,
    CustodyOfficer := EvidenceContract.toValidUTF8 e.CustodyOfficer,
    Timestamp := e.Timestamp,
    Status := EvidenceContract.toValidUTF8 e.Status,
    AccessLevel := EvidenceContract.toValidUTF8 e.AccessLevel }

/-- The transfer record with every string field coerced to valid UTF-8. -/
def CustodyTransfer.toValidUTF8 (t : CustodyTransfer) : CustodyTransfer :=
  { EvidenceID := EvidenceContract.toValidUTF8 t.EvidenceID,
    FromOfficer := EvidenceContract.toValidUTF8 t.FromOfficer,
    ToOfficer := EvidenceContract.toValidUTF8 t.ToOfficer,
    Timestamp := t.Timestamp,
    Reason := EvidenceContract.toValidUTF8 t.Reason,
    TransactionID := EvidenceContract.toValidUTF8 t.TransactionID }

/-- Invariant of the world state: every value stored under a key outside the
composite-key namespace is the serialisation of an evidence record whose id is the
key, whose digest fields are valid UTF-8 and whose stored hash is the hash of the
record. -/
def WellHashed (l : Ledger) : Prop :=
  ∀ key b, l.world.get key = some b → ¬ isCompositeKey key →
    ∃ e, jsonMarshalEvidence e = .ok b ∧ e.Timestamp.Plain ∧ e.ID = key ∧ e.digestValid ∧
      e.BlockchainHash = calculateBlockchainHash e

/-- The transfer record that `TransferCustody` builds when it has read `evidence`. -/
def transferRecord (ctx : TransactionContext) (evidence : Evidence)
    (evidenceId newOfficer reason : String) : CustodyTransfer :=
  { EvidenceID := evidenceId,
    FromOfficer := evidence.CustodyOfficer,
    ToOfficer := newOfficer,
    Timestamp := ctx.now 0,
    Reason := reason,
    TransactionID := GetTxID ctx }

/-- The evidence record that `TransferCustody` writes back when it has read
`evidence`: new officer, new timestamp, hash recomputed. -/
def transferredEvidence (ctx : TransactionContext) (evidence : Evidence) (newOfficer : String) :
    Evidence :=
  { evidence with
    CustodyOfficer := newOfficer,
    Timestamp := ctx.now 2,
    BlockchainHash := calculateBlockchainHash
      { evidence with CustodyOfficer := newOfficer, Timestamp := ctx.now 2 } }

/-- Two transfers of `E1` at distinct clock readings of the same second. -/
def sameSecondCalls : List (TransactionContext × String × String) :=
  [(quietCtx "tx2" 1700000005 0, "bob", "reassignment"),
   (quietCtx "tx3" 1700000005 500, "carol", "shift change")]

/-- Two transfers of `E1` in different seconds, a minute apart. -/
def spacedCalls : List (TransactionContext × String × String) :=
  [(quietCtx "tx2" 1700000005 0, "bob", "reassignment"),
   (quietCtx "tx3" 1700000065 0, "carol", "shift change")]

/-- Ledger after creating evidence `E1` held by `alice` on 2001-09-09, shortly
before Unix second 1000000000. -/
def ledgerOld : Ledger :=
  (Call.run (quietCtx "tx1" 999999000 0) Ledger.empty
    (.createEvidence "E1" "case1" "photo.jpg" "QmCid" "abc123" "alice" "RESTRICTED")).2

/-- Two transfers of `E1` in the seconds 999999999 and 1000000000. -/
def rolloverCalls : List (TransactionContext × String × String) :=
  [(quietCtx "tx2" 999999999 0, "bob", "reassignment"),
   (quietCtx "tx3" 1000000000 0, "carol", "shift change")]

/-- The evidence record that `InitLedger` writes. -/
def initialEvidence (ctx : TransactionContext) : Evidence :=
  let evidenceItem : Evidence :=
    { ID := "evidence1",
      CaseID := "case1",
      Filename := "initial_evidence.pdf",
      IPFSCid := "QmTestCID123",
      FileHash := "sha256_hash_placeholder",
      BlockchainHash := "",
      CustodyOfficer := "officer.doe@police.gov",
      Timestamp := ctx.now 0,
      Status := "ACTIVE",
      AccessLevel := "RESTRICTED" }
  { evidenceItem with BlockchainHash := calculateBlockchainHash evidenceItem }

/-- The evidence record that `CreateEvidence` writes for its seven arguments. -/
def createdEvidence (ctx : TransactionContext) (id caseId filename ipfsCid fileHash
    custodyOfficer accessLevel : String) : Evidence :=
  let evidence : Evidence :=
    { ID := id,
      CaseID := caseId,
      Filename := filename,
      IPFSCid := ipfsCid,
      FileHash := fileHash,
      BlockchainHash := "",
      CustodyOfficer := custodyOfficer,
      Timestamp := ctx.now 0,
      Status := "ACTIVE",
      AccessLevel := accessLevel }
  { evidence with BlockchainHash := calculateBlockchainHash evidence }

/-- The evidence record that `UpdateEvidenceStatus` writes back when it has read
`evidence`: new status, new timestamp, hash recomputed. -/
def updatedEvidence (ctx : TransactionContext) (evidence : Evidence) (newStatus : String) :
    Evidence :=
  { evidence with
    Status := newStatus,
    Timestamp := ctx.now 0,
    BlockchainHash := calculateBlockchainHash
      { evidence with Status := newStatus, Timestamp := ctx.now 0 } }

/-- The writes that a call commits, each described by the ledger it is committed
on: the record of `InitLedger`, the record of `CreateEvidence` for an absent id,
the record `UpdateEvidenceStatus` derives from the one it read, the transfer
record of `TransferCustody` under its composite key, and the evidence record
`TransferCustody` derives from the one stored under the id. -/
inductive Write (ctx : TransactionContext) (l : Ledger) : Call → String → Bytes → Prop where
  | initial (b : Bytes) :
      jsonMarshalEvidence (initialEvidence ctx) = .ok b →
      Write ctx l .initLedger "evidence1" b
  | created (id caseId filename ipfsCid fileHash custodyOfficer accessLevel : String)
      (b : Bytes) :
      l.world.get id = none →
      jsonMarshalEvidence (createdEvidence ctx id caseId filename ipfsCid fileHash custodyOfficer
        accessLevel) = .ok b →
      Write ctx l (.createEvidence id caseId filename ipfsCid fileHash custodyOfficer accessLevel)
        id b
  | updated (id newStatus : String) (e : Evidence) (b : Bytes) :
      (ReadEvidence ctx l.stub id).1 = .ok e →
      jsonMarshalEvidence (updatedEvidence ctx e newStatus) = .ok b →
      Write ctx l (.updateEvidenceStatus id newStatus) id b
  | transfer (id newOfficer reason : String) (e : Evidence) (key : String) (b : Bytes) :
      (ReadEvidence ctx l.stub id).1 = .ok e →
      CreateCompositeKey "custody_transfer" [id, formatInt (ctx.now 1).Unix] = .ok key →
      jsonMarshalTransfer (transferRecord ctx e id newOfficer reason) = .ok b →
      Write ctx l (.transferCustody id newOfficer reason) key b
  | transferred (id newOfficer reason : String) (e : Evidence) (b : Bytes) :
      (ReadEvidence ctx l.stub id).1 = .ok e →
      jsonMarshalEvidence (transferredEvidence ctx e newOfficer) = .ok b →
      Write ctx l (.transferCustody id newOfficer reason) id b

/-- Ledgers linked by a sequence of committed writes of calls of a given kind. -/
inductive WritesBy (P : Call → Prop) : Ledger → Ledger → Prop where
  | refl (l : Ledger) : WritesBy P l l
  | put {l l1 : Ledger} (ctx : TransactionContext) (c : Call) (key : String) (b : Bytes) :
      WritesBy P l l1 → P c → Write ctx l1 c key b → WritesBy P l (l1.put ctx.txID key b)

/-- Ledgers linked by a sequence of committed writes of the contract. -/
def Writes (l l1 : Ledger) : Prop := WritesBy (fun _ => True) l l1

/-- A snapshot with id `ab` and case `c`. -/
def snapshotAbC : Evidence :=
  { ID := "ab", CaseID := "c", Filename := "f", IPFSCid := "Qm", FileHash := "00",
    BlockchainHash := "", CustodyOfficer := "alice",
    Timestamp := { sec := 1700000000, nsec := 0, offset := 0 }, Status := "ACTIVE",
    AccessLevel := "PUBLIC" }

/-- The snapshot with id `a` and case `bc`, otherwise as `snapshotAbC`. -/
def snapshotABc : Evidence := { snapshotAbC with ID := "a", CaseID := "bc" }

/-- The snapshot taken half a second later, otherwise as `snapshotAbC`. -/
def snapshotLater : Evidence :=
  { snapshotAbC with Timestamp := { sec := 1700000000, nsec := 500000000, offset := 0 } }

/-! ## History and rich queries of the stub -/

/-- What the successive `Next()` calls of a history iterator over `results`
return, the first of them being call number `i` . -/
def historyIteratorFrom (ctx : TransactionContext) : Nat → List KeyModification →
    List (Except Error KeyModification)
  | _, [] => []
  | i, m :: rest =>
    (match ctx.nextErr i with
      | some err => .error err
      | none => .ok m) :: historyIteratorFrom ctx (i + 1) rest

/-- Result of `ctx.GetStub().GetHistoryForKey(key)`: an iterator over the committed
writes of the key, the newest first. -/
def GetHistoryForKey (ctx : TransactionContext) (stub : Stub) (key : String) :
    Except Error (List (Except Error KeyModification)) × Stub :=
  match ctx.iteratorErr with
  | some err => (.error err, stub)
  | none =>
    (.ok (historyIteratorFrom ctx 0 (stub.ledger.history.filter (fun m => m.Key = key)).reverse),
      stub)

/-- Value of a hexadecimal digit. -/
def hexValue (c : Char) : Option Nat :=
  if 48 ≤ c.toNat ∧ c.toNat ≤ 57 then some (c.toNat - 48)
  else if 97 ≤ c.toNat ∧ c.toNat ≤ 102 then some (c.toNat - 87)
  else if 65 ≤ c.toNat ∧ c.toNat ≤ 70 then some (c.toNat - 55)
  else none

/-- The number that the four hexadecimal digits of a `\u` escape spell. -/
def unicodeEscape (a b c d : Char) : Except Error Nat :=
  match hexValue a, hexValue b, hexValue c, hexValue d with
  | some x, some y, some z, some w => .ok (((x * 16 + y) * 16 + z) * 16 + w)
  | _, _, _, _ => .error "invalid character in \\u hexadecimal character escape"

/-- The bytes of `utf8.EncodeRune(r)`; a surrogate or a value above U+10FFFF is
written as U+FFFD. -/
def encodeRune (r : Nat) : List Char :=
  if r < 0x80 then [Char.ofNat r]
  else if r < 0x800 then [Char.ofNat (0xC0 + r / 64), Char.ofNat (0x80 + r % 64)]
  else if (0xD800 ≤ r ∧ r ≤ 0xDFFF) ∨ 0x10FFFF < r then replacementChar
  else if r < 0x10000 then
    [Char.ofNat (0xE0 + r / 4096), Char.ofNat (0x80 + r / 64 % 64), Char.ofNat (0x80 + r % 64)]
  else
    [Char.ofNat (0xF0 + r / 262144), Char.ofNat (0x80 + r / 4096 % 64),
      Char.ofNat (0x80 + r / 64 % 64), Char.ofNat (0x80 + r % 64)]

/-- The low surrogate that a `\u` escape at the head of the input spells, if there
is one. -/
def lowSurrogateAhead : List Char → Option Nat
  | b1 :: b2 :: g1 :: g2 :: g3 :: g4 :: _ =>
    match unicodeEscape g1 g2 g3 g4 with
    | .ok v => if b1 = '\\' ∧ b2 = 'u' ∧ 0xDC00 ≤ v ∧ v ≤ 0xDFFF then some v else none
    | .error _ => none
  | _ => none

/-- Scanner for the rest of a JSON string literal after its opening quote (RFC
8259): the first argument counts characters that an escape has consumed ahead, the
bytes denoted so far are `acc` reversed; returns the string, coerced to valid
UTF-8 as the decoder does, and the input after the closing quote.  A control
character, a backslash before anything but `"`, `\`, `/`, `b`, `f`, `n`, `r`,
`t`, `u`, and a missing closing quote are errors; a `\u` escape gives the bytes of
its rune, two escapes that form a surrogate pair the rune of the pair, a lone
surrogate U+FFFD. -/
def scanString : Nat → List Char → List Char → Except Error (String × List Char)
  | _, [], _ => .error "unexpected end of JSON input"
  | skip + 1, _ :: rest, acc => scanString skip rest acc
  | 0, c :: rest, acc =>
    if c = '"' then .ok (toValidUTF8 (String.mk acc.reverse), rest)
    else if c = '\\' then
      match rest with
      | [] => .error "unexpected end of JSON input"
      | e :: rest1 =>
        if e = '"' then scanString 0 rest1 ('"' :: acc)
        else if e = '\\' then scanString 0 rest1 ('\\' :: acc)
        else if e = '/' then scanString 0 rest1 ('/' :: acc)
        else if e = 'b' then scanString 0 rest1 (Char.ofNat 8 :: acc)
        else if e = 'f' then scanString 0 rest1 (Char.ofNat 12 :: acc)
        else if e = 'n' then scanString 0 rest1 ('\n' :: acc)
        else if e = 'r' then scanString 0 rest1 ('\r' :: acc)
        else if e = 't' then scanString 0 rest1 ('\t' :: acc)
        else if e = 'u' then
          match rest1 with
          | h1 :: h2 :: h3 :: h4 :: rest2 =>
            match unicodeEscape h1 h2 h3 h4 with
            | .error err => .error err
            | .ok u =>
              if 0xD800 ≤ u ∧ u ≤ 0xDBFF then
                match lowSurrogateAhead rest2 with
                | some v =>
                  scanString 6 rest2
                    ((encodeRune (0x10000 + (u - 0xD800) * 0x400 + (v - 0xDC00))).reverse ++ acc)
                | none => scanString 0 rest2 (replacementChar.reverse ++ acc)
              else scanString 0 rest2 ((encodeRune u).reverse ++ acc)
          | _ => .error "unexpected end of JSON input"
        else .error "invalid character in string escape code"
    else if c.toNat < 32 then .error "invalid character in string literal"
    else scanString 0 rest (c :: acc)

/-- Scanner for the members of a JSON object whose values are strings, after the
opening brace; the first argument bounds the number of members. -/
def scanStringMembers : Nat → List Char → List (String × String) →
    Except Error (List (String × String) × List Char)
  | 0, _, _ => .error "unexpected end of JSON input"
  | fuel + 1, input, acc =>
    match input with
    | '"' :: rest =>
      match scanString 0 rest [] with
      | .error err => .error err
      | .ok (key, ':' :: '"' :: rest1) =>
        match scanString 0 rest1 [] with
        | .error err => .error err
        | .ok (value, c :: rest2) =>
          if c = ',' then scanStringMembers fuel rest2 (acc ++ [(key, value)])
          else if c = Char.ofNat 125 then .ok (acc ++ [(key, value)], rest2)
          else .error "invalid character after object key:value pair"
        | .ok (_, []) => .error "unexpected end of JSON input"
      | .ok _ => .error "value of a selector member is not a string: not modelled"
    | _ => .error "invalid character looking for beginning of object key string"

/-- Scanner for a JSON object whose values are strings. -/
def scanStringObject (input : List Char) : Except Error (List (String × String) × List Char) :=
  match input with
  | [] => .error "unexpected end of JSON input"
  | c :: rest =>
    if c = Char.ofNat 123 then
      match rest with
      | d :: rest1 =>
        if d = Char.ofNat 125 then .ok ([], rest1)
        else scanStringMembers rest.length rest []
      | [] => .error "unexpected end of JSON input"
    else .error "value of a query member is not an object: not modelled"

/-- Scanner for the members of the query document, after the opening brace: each
value is an object of strings. -/
def scanQueryMembers : Nat → List Char → List (String × List (String × String)) →
    Except Error (List (String × List (String × String)) × List Char)
  | 0, _, _ => .error "unexpected end of JSON input"
  | fuel + 1, input, acc =>
    match input with
    | '"' :: rest =>
      match scanString 0 rest [] with
      | .error err => .error err
      | .ok (key, ':' :: rest1) =>
        match scanStringObject rest1 with
        | .error err => .error err
        | .ok (value, c :: rest2) =>
          if c = ',' then scanQueryMembers fuel rest2 (acc ++ [(key, value)])
          else if c = Char.ofNat 125 then .ok (acc ++ [(key, value)], rest2)
          else .error "invalid character after object key:value pair"
        | .ok (_, []) => .error "unexpected end of JSON input"
      | .ok _ => .error "invalid character after object key"
    | _ => .error "invalid character looking for beginning of object key string"

/-- Decoding of a query string as the stub does it before handing it to the state
database: the text must be a JSON object; its members are kept in order.  Only
documents without white space whose members are objects of strings are modelled,
which covers the two query strings of the contract. -/
def parseQuery (query : String) : Except Error (List (String × List (String × String))) :=
  match query.data with
  | [] => .error "unexpected end of JSON input"
  | c :: rest =>
    if c = Char.ofNat 123 then
      if rest = [Char.ofNat 125] then .ok []
      else
        match scanQueryMembers rest.length rest [] with
        | .error err => .error err
        | .ok (members, []) => .ok members
        | .ok (_, _ :: _) => .error "invalid character after top-level value"
    else .error "query is not a JSON object"

/-- The value of the last member with a given name, as decoding into a Go map
keeps it. -/
def lastMember {α : Type} (members : List (String × α)) (name : String) : Option α :=
  (members.reverse.find? (fun m => m.1 = name)).map (fun m => m.2)

/-- The text of a string member of a stored document. -/
def fieldText (doc : List (String × JSONValue)) (name : String) : Option String :=
  match lastMember doc name with
  | some (.string s) => some s
  | some (.time t) => some t.formatRFC3339Nano
  | _ => none

/-- Evaluation of an equality selector on a stored value: every named field of the
document equals the string asked for (all conditions joined by AND). -/
def selectorMatches (selector : List (String × String)) : Bytes → Bool
  | .raw _ => false
  | .object doc =>
    selector.all (fun cond => fieldText doc cond.1 == lastMember selector cond.1)

/-- Result of `ctx.GetStub().GetQueryResult(query)`: an iterator over the committed
pairs whose document matches the `selector` member of the query, in key order. -/
def GetQueryResult (ctx : TransactionContext) (stub : Stub) (query : String) :
    Except Error (List (Except Error (String × Bytes))) × Stub :=
  match parseQuery query with
  | .error err => (.error err, stub)
  | .ok members =>
    match lastMember members "selector" with
    | none => (.error "missing required key: selector", stub)
    | some selector =>
      match ctx.iteratorErr with
      | some err => (.error err, stub)
      | none =>
        (.ok (iteratorFrom ctx 0
          (stub.ledger.world.filter (fun kv => selectorMatches selector kv.2))), stub)

/-! ## The read-only part of the contract -/

/-- The loop of `GetEvidenceHistory` over the iterator. -/
def GetEvidenceHistory.loop (id : String) : List (Except Error KeyModification) →
    List QueryResult → Except Error (List QueryResult)
  | [], records => .ok records
  | .error err :: _, _ => .error err
  | .ok response :: rest, records =>
    let decoded : Except Error Evidence :=
      if response.Value.nonEmpty then jsonUnmarshalEvidence response.Value
      else .ok { Evidence.zero with ID := id }
    match decoded with
    | .error err => .error err
    | .ok evidence =>
      GetEvidenceHistory.loop id rest (records ++ [{ Key := response.TxId, Record := evidence }])

/-- GetEvidenceHistory returns the transaction history for an evidence. -/
def GetEvidenceHistory (ctx : TransactionContext) (stub : Stub) (id : String) :
    Except Error (List QueryResult) × Stub :=
  match GetHistoryForKey ctx stub id with
  | (.error err, stub) => (.error err, stub)
  | (.ok resultsIterator, stub) => (GetEvidenceHistory.loop id resultsIterator [], stub)

/-- The loop of `constructQueryResponseFromIterator`. -/
def constructQueryResponseFromIterator.loop : List (Except Error (String × Bytes)) →
    List Evidence → Except Error (List Evidence)
  | [], evidences => .ok evidences
  | .error err :: _, _ => .error err
  | .ok queryResult :: rest, evidences =>
    match jsonUnmarshalEvidence queryResult.2 with
    | .error err => .error err
    | .ok evidence => constructQueryResponseFromIterator.loop rest (evidences ++ [evidence])

/-- constructQueryResponseFromIterator constructs a slice of evidence from the
resultsIterator. -/
def constructQueryResponseFromIterator (resultsIterator : List (Except Error (String × Bytes))) :
    Except Error (List Evidence) :=
  constructQueryResponseFromIterator.loop resultsIterator []

/-- getQueryResultForQueryString executes the passed query string. -/
def getQueryResultForQueryString (ctx : TransactionContext) (stub : Stub) (queryString : String) :
    Except Error (List Evidence) × Stub :=
  match GetQueryResult ctx stub queryString with
  | (.error err, stub) => (.error err, stub)
  | (.ok resultsIterator, stub) => (constructQueryResponseFromIterator resultsIterator, stub)

/-- The query string of `QueryEvidenceByCase`: the format with `caseId` put in
place of `%s`, as `fmt.Sprintf` does, unchanged. -/
def caseQueryString (caseId : String) : String :=
  "\x7b\"selector\":\x7b\"caseId\":\"" ++ caseId ++ "\"\x7d\x7d"

/-- The query string of `QueryEvidenceByOfficer`. -/
def officerQueryString (officer : String) : String :=
  "\x7b\"selector\":\x7b\"custodyOfficer\":\"" ++ officer ++ "\",\"status\":\"ACTIVE\"\x7d\x7d"

/-- QueryEvidenceByCase returns all evidence for a specific case. -/
def QueryEvidenceByCase (ctx : TransactionContext) (stub : Stub) (caseId : String) :
    Except Error (List Evidence) × Stub :=
  let queryString := caseQueryString caseId
  getQueryResultForQueryString ctx stub queryString

/-- QueryEvidenceByOfficer returns all evidence under a specific officer's custody. -/
def QueryEvidenceByOfficer (ctx : TransactionContext) (stub : Stub) (officer : String) :
    Except Error (List Evidence) × Stub :=
  let queryString := officerQueryString officer
  getQueryResultForQueryString ctx stub queryString

/-- A call of one of the seven read-only functions with its arguments. -/
inductive Query where
  | verifyIntegrity (id currentFileHash : String)
  | readEvidence (id : String)
  | evidenceExists (id : String)
  | getEvidenceHistory (id : String)
  | getCustodyChain (evidenceId : String)
  | queryEvidenceByCase (caseId : String)
  | queryEvidenceByOfficer (officer : String)
deriving DecidableEq, Repr

/-- What a read-only function returns. -/
inductive Response where
  | verification (r : Except Error VerificationResult)
  | evidence (r : Except Error Evidence)
  | found (r : Except Error Bool)
  | history (r : Except Error (List QueryResult))
  | chain (r : Except Error (List CustodyTransfer))
  | evidences (r : Except Error (List Evidence))
deriving DecidableEq

/-- The read-only function that a query names, run on a stub: what it returns and
the stub it leaves. -/
def Query.apply (ctx : TransactionContext) (stub : Stub) : Query → Response × Stub
  | .verifyIntegrity id currentFileHash =>
    ((.verification (VerifyIntegrity ctx stub id currentFileHash).1),
      (VerifyIntegrity ctx stub id currentFileHash).2)
  | .readEvidence id => (.evidence (ReadEvidence ctx stub id).1, (ReadEvidence ctx stub id).2)
  | .evidenceExists id => (.found (EvidenceExists ctx stub id).1, (EvidenceExists ctx stub id).2)
  | .getEvidenceHistory id =>
    (.history (GetEvidenceHistory ctx stub id).1, (GetEvidenceHistory ctx stub id).2)
  | .getCustodyChain evidenceId =>
    (.chain (GetCustodyChain ctx stub evidenceId).1, (GetCustodyChain ctx stub evidenceId).2)
  | .queryEvidenceByCase caseId =>
    (.evidences (QueryEvidenceByCase ctx stub caseId).1, (QueryEvidenceByCase ctx stub caseId).2)
  | .queryEvidenceByOfficer officer =>
    (.evidences (QueryEvidenceByOfficer ctx stub officer).1,
      (QueryEvidenceByOfficer ctx stub officer).2)

/-- Invocation of a read-only function on a ledger, as the platform runs it: what
the function returns and the ledger afterwards. -/
def Query.run (ctx : TransactionContext) (l : Ledger) : Query → Response × Ledger
  | .verifyIntegrity id currentFileHash =>
    ((.verification (invoke ctx l (fun c s => VerifyIntegrity c s id currentFileHash)).1),
      (invoke ctx l (fun c s => VerifyIntegrity c s id currentFileHash)).2)
  | .readEvidence id =>
    (.evidence (invoke ctx l (fun c s => ReadEvidence c s id)).1,
      (invoke ctx l (fun c s => ReadEvidence c s id)).2)
  | .evidenceExists id =>
    (.found (invoke ctx l (fun c s => EvidenceExists c s id)).1,
      (invoke ctx l (fun c s => EvidenceExists c s id)).2)
  | .getEvidenceHistory id =>
    (.history (invoke ctx l (fun c s => GetEvidenceHistory c s id)).1,
      (invoke ctx l (fun c s => GetEvidenceHistory c s id)).2)
  | .getCustodyChain evidenceId =>
    (.chain (invoke ctx l (fun c s => GetCustodyChain c s evidenceId)).1,
      (invoke ctx l (fun c s => GetCustodyChain c s evidenceId)).2)
  | .queryEvidenceByCase caseId =>
    (.evidences (invoke ctx l (fun c s => QueryEvidenceByCase c s caseId)).1,
      (invoke ctx l (fun c s => QueryEvidenceByCase c s caseId)).2)
  | .queryEvidenceByOfficer officer =>
    (.evidences (invoke ctx l (fun c s => QueryEvidenceByOfficer c s officer)).1,
      (invoke ctx l (fun c s => QueryEvidenceByOfficer c s officer)).2)

/-- An invocation of the contract: a mutating call or a read-only one. -/
inductive Invocation where
  | call (c : Call)
  | query (q : Query)
deriving DecidableEq, Repr

/-- The ledger after an invocation. -/
def Invocation.run (ctx : TransactionContext) (l : Ledger) : Invocation → Ledger
  | .call c => (c.run ctx l).2
  | .query q => (q.run ctx l).2

/-- The ledger after a sequence of invocations, each in its own environment. -/
def runAll (l : Ledger) : List (TransactionContext × Invocation) → Ledger
  | [] => l
  | (ctx, i) :: rest => runAll (i.run ctx l) rest

/-- Invocations other than `InitLedger` and `CreateEvidence`: status updates,
custody transfers and read-only calls. -/
def Invocation.keepsRecords : Invocation → Prop
  | .call (.updateEvidenceStatus _ _) => True
  | .call (.transferCustody _ _ _) => True
  | .call _ => False
  | .query _ => True

/-- How an entry of `GetEvidenceHistory(id)` relates to the version of the history
it is made of: the key is the transaction id of the version; the record is the
deserialized value when the value is not empty, and the bare `Evidence` with only
the id set when it is empty. -/
def IsHistoryEntry (id : String) (m : KeyModification) (r : QueryResult) : Prop :=
  r.Key = m.TxId ∧
  (m.Value.nonEmpty = true → jsonUnmarshalEvidence m.Value = .ok r.Record) ∧
  (m.Value.nonEmpty = false → r.Record = { Evidence.zero with ID := id })

/-- Characters that may stand unescaped inside a JSON string literal: all but the
quote, the backslash and the control characters below U+0020. -/
def plainChar (c : Char) : Prop := c ≠ '"' ∧ c ≠ '\\' ∧ 32 ≤ c.toNat

instance (c : Char) : Decidable (plainChar c) := by
  unfold plainChar
  exact inferInstance

/-- Invariant of the ledger: every value stored under a key outside the
composite-key namespace, and every version of such a key in the history, is the
serialisation of an evidence record whose id reads back as the key does. -/
def HistoryIds (l : Ledger) : Prop :=
  (∀ key b, l.world.get key = some b → ¬ isCompositeKey key →
    ∃ e, jsonMarshalEvidence e = .ok b ∧ e.Timestamp.Plain ∧
      toValidUTF8 e.ID = toValidUTF8 key) ∧
  ∀ m ∈ l.history, ¬ isCompositeKey m.Key →
    ∃ e, jsonMarshalEvidence e = .ok m.Value ∧ e.Timestamp.Plain ∧
      toValidUTF8 e.ID = toValidUTF8 m.Key

/-- The value stored under `id` is the serialisation of an evidence record whose
fileHash, caseId, filename, ipfsCid and accessLevel read back as those of `e0`
do. -/
def KeepsFields (id : String) (e0 : Evidence) (l : Ledger) : Prop :=
  ∃ e b, l.world.get id = some b ∧ jsonMarshalEvidence e = .ok b ∧ e.Timestamp.Plain ∧
    toValidUTF8 e.FileHash = toValidUTF8 e0.FileHash ∧
    toValidUTF8 e.CaseID = toValidUTF8 e0.CaseID ∧
    toValidUTF8 e.Filename = toValidUTF8 e0.Filename ∧
    toValidUTF8 e.IPFSCid = toValidUTF8 e0.IPFSCid ∧
    toValidUTF8 e.AccessLevel = toValidUTF8 e0.AccessLevel

/-- Serialisation followed by deserialisation: `json.Marshal` as on the write
path, then `json.Unmarshal` as in `ReadEvidence`. -/
def roundTripEvidence (e : Evidence) : Except Error Evidence :=
  match jsonMarshalEvidence e with
  | .error err => .error err
  | .ok evidenceJSON => jsonUnmarshalEvidence evidenceJSON

/-! ## Further sample values -/

/-- The Go string `"\xff"`: one byte that is not valid UTF-8. -/
def invalidText : String := String.mk [Char.ofNat 0xFF]

/-- The string U+FFFD, bytes EF BF BD, that JSON makes of `invalidText`. -/
def replacementText : String := String.mk replacementChar

/-- Ledger in which, after `E1`, evidence was created under the text of a
composite key, and `E1` was then transferred in the second that key names. -/
def ledgerShadowed : Ledger :=
  runAll ledgerE1
    [(quietCtx "tx2" 1700000001 0,
      .call (.createEvidence sampleTransferKey "case2" "scan.pdf" "QmScan" "fff000" "dave"
        "PUBLIC")),
     (quietCtx "tx3" 1700000005 0, .call (.transferCustody "E1" "bob" "reassignment"))]

/-- Ledger holding evidence `E7` in the custody of an officer whose account name
contains a backslash. -/
def ledgerCorp : Ledger :=
  (Call.run (quietCtx "tx1" 1700000000 0) Ledger.empty
    (.createEvidence "E7" "case7" "disk.img" "QmDisk" "aa11" "CORP\\alice" "RESTRICTED")).2

/-- Ledger after `E1`, held by `bob`, has been archived. -/
def ledgerE1Archived : Ledger :=
  (Call.run (quietCtx "tx4" 1700000100 0) ledgerE1Bob
    (.updateEvidenceStatus "E1" "ARCHIVED")).2

/-- Ledger after creating evidence `E3` whose file hash is the byte FF. -/
def ledgerE3 : Ledger :=
  (Call.run (quietCtx "tx1" 1700000000 0) Ledger.empty
    (.createEvidence "E3" "case3" "dump.bin" "QmDump" invalidText "alice" "RESTRICTED")).2

/-- Ledger after creating evidence under the id that is the byte FF. -/
def ledgerFF : Ledger :=
  (Call.run (quietCtx "tx1" 1700000000 0) Ledger.empty
    (.createEvidence invalidText "case3" "dump.bin" "QmDump" "abc123" "alice" "RESTRICTED")).2

/-- Ledger after the transfer of `E1` to the officer whose name is the byte FF. -/
def ledgerE1Invalid : Ledger :=
  (Call.run (quietCtx "tx2" 1700000005 0) ledgerE1
    (.transferCustody "E1" invalidText "reassignment")).2

/-- Ledger after the status of `E1` has been set to the byte FF. -/
def ledgerE1StatusInvalid : Ledger :=
  (Call.run (quietCtx "tx4" 1700000100 0) ledgerE1 (.updateEvidenceStatus "E1" invalidText)).2

/-- A ledger whose history of `E9` holds a written version and, newer, an empty
value as a deletion leaves it. -/
def ledgerDeleted : Ledger :=
  { world := [],
    history := [
      { Key := "E9", TxId := "tx1",
        Value := .object [("id", .string "E9"), ("status", .string "ACTIVE")] },
      { Key := "E9", TxId := "tx2", Value := .raw "" }] }

/-- A ledger whose history of `E9` holds a version that is not a JSON object. -/
def ledgerCorrupt : Ledger :=
  { world := [],
    history := [
      { Key := "E9", TxId := "tx1", Value := .raw "not json" },
      { Key := "E9", TxId := "tx2",
        Value := .object [("id", .string "E9"), ("status", .string "ACTIVE")] }] }

/-- The first second of the year 10000, in UTC. -/
def timeYear10000 : Time := { sec := 253402300800, nsec := 0, offset := 0 }

/-- A time in a zone thirty seconds east of UTC. -/
def timeOddZone : Time := { sec := 1700000000, nsec := 0, offset := 30 }

/-- An instant as seen in UTC. -/
def timeUTC : Time := { sec := 1700000000, nsec := 0, offset := 0 }

/-- The same instant as seen in the zone +05:30. -/
def timeIndia : Time := { sec := 1700000000, nsec := 0, offset := 19800 }

/-- A snapshot with a given timestamp. -/
def snapshotAt (t : Time) : Evidence := { snapshotAbC with Timestamp := t }

set_option maxRecDepth 100000

/-! ## UTF-8 lemmas -/

theorem runeLen_le (s : List Char) : runeLen s ≤ s.length := by
  unfold runeLen
  split
  · simp
  · split
    · simp
    · split
      · simp
      · split
        · simp
        · split
          · simp
          · split
            · simp
            · split
              · simp
              · split <;> simp

theorem runeLen_take_append (s t : List Char) (n : Nat) (h : runeLen s = n + 1) :
    runeLen (s.take (n + 1) ++ t) = n + 1 := by
  cases s with
  | nil => simp [runeLen] at h
  | cons a rest =>
    by_cases h1 : a.toNat < 0x80
    · simp only [runeLen, h1, if_true] at h
      have hn : n = 0 := by omega
      subst hn
      simp [runeLen, h1]
    · cases rest with
      | nil => simp [runeLen, h1] at h
      | cons b rest1 =>
        cases h2 : startsTwo a b with
        | true =>
          simp only [runeLen, h1, h2, if_true, if_false] at h
          have hn : n = 1 := by omega
          subst hn
          simp [runeLen, h1, h2]
        | false =>
          cases rest1 with
          | nil => simp [runeLen, h1, h2] at h
          | cons c rest2 =>
            cases h3 : (startsThree a b && isContinuation c) with
            | true =>
              simp only [runeLen, h1, h2, h3, if_true, if_false, Bool.false_eq_true] at h
              have hn : n = 2 := by omega
              subst hn
              simp only [List.take_succ_cons, List.take_zero, List.cons_append, List.nil_append,
                runeLen, h1, h2, h3, if_true, if_false, Bool.false_eq_true]
            | false =>
              cases rest2 with
              | nil => simp [runeLen, h1, h2, h3] at h
              | cons d rest3 =>
                cases h4 : (startsFour a b && isContinuation c && isContinuation d) with
                | true =>
                  simp only [runeLen, h1, h2, h3, h4, if_true, if_false, Bool.false_eq_true] at h
                  have hn : n = 3 := by omega
                  subst hn
                  simp only [List.take_succ_cons, List.take_zero, List.cons_append,
                    List.nil_append, runeLen, h1, h2, h3, h4, if_true, if_false,
                    Bool.false_eq_true]
                | false => simp [runeLen, h1, h2, h3, h4] at h

theorem utf8Valid_go_step (g n : Nat) (a : Char) (r : List Char)
    (h : runeLen (a :: r) = n + 1) :
    utf8Valid.go (g + 1) (a :: r) = utf8Valid.go g (r.drop n) := by
  simp only [utf8Valid.go, h]

theorem runeLen_replacementChar (t : List Char) : runeLen (replacementChar ++ t) = 3 := by
  have h1 : ¬ (Char.ofNat 0xEF).toNat < 0x80 := by decide
  have h2 : startsTwo (Char.ofNat 0xEF) (Char.ofNat 0xBF) = false := by decide
  have h3 : (startsThree (Char.ofNat 0xEF) (Char.ofNat 0xBF) && isContinuation (Char.ofNat 0xBD)) =
      true := by decide
  simp only [replacementChar, List.cons_append, List.nil_append, runeLen, h1, h2, h3, if_true,
    if_false, Bool.false_eq_true]

theorem utf8Valid_go_more (fuel : Nat) : ∀ (s : List Char), s.length ≤ fuel →
    utf8Valid.go fuel s = utf8Valid.go s.length s := by
  induction fuel using Nat.strong_induction_on with
  | _ fuel ih =>
    intro s hs
    cases s with
    | nil => simp [utf8Valid.go]
    | cons a rest =>
      cases fuel with
      | zero => simp at hs
      | succ f =>
        simp only [List.length_cons, utf8Valid.go]
        cases hk : runeLen (a :: rest) with
        | zero => rfl
        | succ n =>
          simp only
          have hl : (rest.drop n).length ≤ rest.length := by simp
          simp only [List.length_cons, Nat.add_le_add_iff_right] at hs
          rw [ih f (by omega) _ (by omega), ih rest.length (by omega) _ hl]

theorem toValidUTF8_go_more (fuel : Nat) : ∀ (s : List Char), s.length ≤ fuel →
    toValidUTF8.go fuel s = toValidUTF8.go s.length s := by
  induction fuel using Nat.strong_induction_on with
  | _ fuel ih =>
    intro s hs
    cases s with
    | nil => simp [toValidUTF8.go]
    | cons a rest =>
      cases fuel with
      | zero => simp at hs
      | succ f =>
        simp only [List.length_cons, toValidUTF8.go]
        simp only [List.length_cons, Nat.add_le_add_iff_right] at hs
        cases hk : runeLen (a :: rest) with
        | zero =>
          simp only
          rw [ih f (by omega) _ hs]
        | succ n =>
          simp only
          have hl : (rest.drop n).length ≤ rest.length := by simp
          rw [ih f (by omega) _ (by omega), ih rest.length (by omega) _ hl]

/-- Valid strings are left as they are. -/
theorem toValidUTF8_go_of_valid (fuel : Nat) : ∀ (s : List Char), s.length ≤ fuel →
    utf8Valid.go fuel s = true → toValidUTF8.go fuel s = s := by
  induction fuel with
  | zero =>
    intro s hs _
    cases s with
    | nil => rfl
    | cons a rest => simp at hs
  | succ f ih =>
    intro s hs hv
    cases s with
    | nil => rfl
    | cons a rest =>
      simp only [List.length_cons, Nat.add_le_add_iff_right] at hs
      simp only [utf8Valid.go] at hv
      simp only [toValidUTF8.go]
      cases hk : runeLen (a :: rest) with
      | zero => rw [hk] at hv; simp at hv
      | succ n =>
        rw [hk] at hv
        simp only at hv ⊢
        rw [ih _ (by simp; omega) hv]
        simp

/-- The output of the walk is valid. -/
theorem utf8Valid_go_toValid (fuel : Nat) : ∀ (s : List Char), s.length ≤ fuel →
    ∀ fuel2, (toValidUTF8.go fuel s).length ≤ fuel2 →
      utf8Valid.go fuel2 (toValidUTF8.go fuel s) = true := by
  induction fuel with
  | zero =>
    intro s hs fuel2 _
    cases s with
    | nil => simp [toValidUTF8.go, utf8Valid.go]
    | cons a rest => simp at hs
  | succ f ih =>
    intro s hs fuel2 h2
    cases s with
    | nil => simp [toValidUTF8.go, utf8Valid.go]
    | cons a rest =>
      simp only [List.length_cons, Nat.add_le_add_iff_right] at hs
      simp only [toValidUTF8.go] at h2 ⊢
      cases hk : runeLen (a :: rest) with
      | zero =>
        rw [hk] at h2
        simp only at h2 ⊢
        cases fuel2 with
        | zero => simp [replacementChar] at h2
        | succ g =>
          have hr := runeLen_replacementChar (toValidUTF8.go f rest)
          simp only [replacementChar, List.cons_append, List.nil_append] at hr h2 ⊢
          simp only [utf8Valid.go, hr, List.drop_succ_cons, List.drop_zero]
          apply ih _ hs
          simp only [List.length_cons] at h2
          omega
      | succ n =>
        rw [hk] at h2
        simp only at h2 ⊢
        cases fuel2 with
        | zero => simp at h2
        | succ g =>
          have hr := runeLen_take_append (a :: rest) (toValidUTF8.go f (rest.drop n)) n hk
          simp only [List.take_succ_cons, List.cons_append] at hr
          have hlen := runeLen_le (a :: rest)
          rw [hk] at hlen
          simp only [List.length_cons, Nat.add_le_add_iff_right] at hlen
          have hd : (rest.take n ++ toValidUTF8.go f (rest.drop n)).drop n =
              toValidUTF8.go f (rest.drop n) := by
            rw [List.drop_append_of_le_length (by simp; omega)]
            simp [List.drop_take]
          rw [List.cons_append, utf8Valid_go_step g n a _ hr, hd]
          apply ih _ (by simp; omega)
          simp only [List.cons_append, List.length_cons, List.length_append, List.length_take] at h2
          omega

theorem toValidUTF8_of_valid {s : String} (h : utf8Valid s = true) : toValidUTF8 s = s := by
  unfold toValidUTF8
  unfold utf8Valid at h
  rw [toValidUTF8_go_of_valid _ _ (Nat.le_refl _) h]

theorem utf8Valid_toValidUTF8 (s : String) : utf8Valid (toValidUTF8 s) = true := by
  unfold utf8Valid toValidUTF8
  exact utf8Valid_go_toValid _ _ (Nat.le_refl _) _ (Nat.le_refl _)

theorem toValidUTF8_idem (s : String) : toValidUTF8 (toValidUTF8 s) = toValidUTF8 s :=
  toValidUTF8_of_valid (utf8Valid_toValidUTF8 s)

theorem runeLen_ascii (a : Char) (rest : List Char) (h : a.toNat < 0x80) :
    runeLen (a :: rest) = 1 := by
  simp only [runeLen, h, if_true]

theorem utf8Valid_go_ascii (s : List Char) (h : ∀ c ∈ s, c.toNat < 0x80) :
    ∀ fuel, s.length ≤ fuel → utf8Valid.go fuel s = true := by
  induction s with
  | nil =>
    intro fuel _
    cases fuel <;> rfl
  | cons a rest ih =>
    intro fuel hf
    cases fuel with
    | zero => simp at hf
    | succ f =>
      rw [utf8Valid_go_step f 0 a rest (runeLen_ascii a rest (h a (List.mem_cons_self _ _)))]
      simp only [List.length_cons, Nat.add_le_add_iff_right] at hf
      exact ih (fun c hc => h c (List.mem_cons_of_mem _ hc)) f hf

theorem utf8Valid_of_ascii {s : String} (h : ∀ c ∈ s.data, c.toNat < 0x80) :
    utf8Valid s = true :=
  utf8Valid_go_ascii s.data h _ (Nat.le_refl _)

/-! ## World state lemmas -/

theorem WorldState.get_put_same (w : WorldState) (key : String) (value : Bytes) :
    (w.put key value).get key = some value := by
  induction w with
  | nil => simp [WorldState.put, WorldState.get]
  | cons kv rest ih =>
    obtain ⟨k, v⟩ := kv
    unfold WorldState.put
    by_cases h1 : k = key
    · simp [h1, WorldState.get]
    · by_cases h2 : keyLt key.data k.data = true
      · simp [h1, h2, WorldState.get]
      · simp [h1, h2, WorldState.get, ih]

theorem WorldState.get_put_other (w : WorldState) (key key2 : String) (value : Bytes)
    (hne : key2 ≠ key) : (w.put key value).get key2 = w.get key2 := by
  induction w with
  | nil => simp [WorldState.put, WorldState.get, Ne.symm hne]
  | cons kv rest ih =>
    obtain ⟨k, v⟩ := kv
    unfold WorldState.put
    by_cases h1 : k = key
    · subst h1
      simp [WorldState.get, Ne.symm hne]
    · by_cases h2 : keyLt key.data k.data = true
      · simp [h1, h2, WorldState.get, Ne.symm hne]
      · simp only [h1, h2, if_false, WorldState.get, ih]

/-! ## JSON lemmas -/

theorem Time.zoneSeconds_of_plain {t : Time} (h : t.Plain) : t.zoneSeconds = t.offset := by
  obtain ⟨_, _, hm, _⟩ := h
  unfold Time.zoneSeconds
  split <;> omega

theorem Time.readBack_of_plain {t : Time} (h : t.Plain) : t.readBack = t := by
  unfold Time.readBack
  rw [Time.zoneSeconds_of_plain h]
  cases t
  simp

theorem Time.MarshalJSON_of_plain {t : Time} (h : t.Plain) : t.MarshalJSON = .ok (.time t) := by
  have hy : ¬ (t.Year < 0 ∨ 9999 < t.Year) := by
    obtain ⟨h1, h2, _, _⟩ := h
    omega
  have hz : ¬ 24 ≤ t.offset.natAbs / 60 / 60 := by
    obtain ⟨_, _, _, h4⟩ := h
    omega
  simp only [Time.MarshalJSON, hy, hz, if_false, Time.readBack_of_plain h]

theorem jsonMarshalEvidence_of_plain (e : Evidence) (h : e.Timestamp.Plain) :
    jsonMarshalEvidence e = .ok (.object [
      ("id", .string (toValidUTF8 e.ID)), ("caseId", .string (toValidUTF8 e.CaseID)),
      ("filename", .string (toValidUTF8 e.Filename)),
      ("ipfsCid", .string (toValidUTF8 e.IPFSCid)),
      ("fileHash", .string (toValidUTF8 e.FileHash)),
      ("blockchainHash", .string (toValidUTF8 e.BlockchainHash)),
      ("custodyOfficer", .string (toValidUTF8 e.CustodyOfficer)),
      ("timestamp", .time e.Timestamp),
      ("status", .string (toValidUTF8 e.Status)),
      ("accessLevel", .string (toValidUTF8 e.AccessLevel))]) := by
  unfold jsonMarshalEvidence
  rw [Time.MarshalJSON_of_plain h]

theorem jsonMarshalTransfer_of_plain (t : CustodyTransfer) (h : t.Timestamp.Plain) :
    jsonMarshalTransfer t = .ok (.object [
      ("evidenceId", .string (toValidUTF8 t.EvidenceID)),
      ("fromOfficer", .string (toValidUTF8 t.FromOfficer)),
      ("toOfficer", .string (toValidUTF8 t.ToOfficer)), ("timestamp", .time t.Timestamp),
      ("reason", .string (toValidUTF8 t.Reason)),
      ("transactionId", .string (toValidUTF8 t.TransactionID))]) := by
  unfold jsonMarshalTransfer
  rw [Time.MarshalJSON_of_plain h]

/-- What is read back from a stored record is the record with its strings coerced
to valid UTF-8. -/
theorem jsonUnmarshalEvidence_marshal (e : Evidence) (b : Bytes) (hp : e.Timestamp.Plain)
    (h : jsonMarshalEvidence e = .ok b) : jsonUnmarshalEvidence b = .ok e.toValidUTF8 := by
  rw [jsonMarshalEvidence_of_plain e hp] at h
  simp only [Except.ok.injEq] at h
  subst h
  have h1 : jsonUnmarshalEvidence (.object [
      ("id", .string (toValidUTF8 e.ID)), ("caseId", .string (toValidUTF8 e.CaseID)),
      ("filename", .string (toValidUTF8 e.Filename)),
      ("ipfsCid", .string (toValidUTF8 e.IPFSCid)),
      ("fileHash", .string (toValidUTF8 e.FileHash)),
      ("blockchainHash", .string (toValidUTF8 e.BlockchainHash)),
      ("custodyOfficer", .string (toValidUTF8 e.CustodyOfficer)),
      ("timestamp", .time e.Timestamp),
      ("status", .string (toValidUTF8 e.Status)),
      ("accessLevel", .string (toValidUTF8 e.AccessLevel))]) =
      .ok { ID := toValidUTF8 (toValidUTF8 e.ID),
            CaseID := toValidUTF8 (toValidUTF8 e.CaseID),
            Filename := toValidUTF8 (toValidUTF8 e.Filename),
            IPFSCid := toValidUTF8 (toValidUTF8 e.IPFSCid),
            FileHash := toValidUTF8 (toValidUTF8 e.FileHash),
            BlockchainHash := toValidUTF8 (toValidUTF8 e.BlockchainHash),
            CustodyOfficer := toValidUTF8 (toValidUTF8 e.CustodyOfficer),
            Timestamp := e.Timestamp,
            Status := toValidUTF8 (toValidUTF8 e.Status),
            AccessLevel := toValidUTF8 (toValidUTF8 e.AccessLevel) } := rfl
  rw [h1]
  simp only [toValidUTF8_idem]
  rfl

theorem jsonUnmarshalTransfer_marshal (t : CustodyTransfer) (b : Bytes) (hp : t.Timestamp.Plain)
    (h : jsonMarshalTransfer t = .ok b) : jsonUnmarshalTransfer b = .ok t.toValidUTF8 := by
  rw [jsonMarshalTransfer_of_plain t hp] at h
  simp only [Except.ok.injEq] at h
  subst h
  have h1 : jsonUnmarshalTransfer (.object [
      ("evidenceId", .string (toValidUTF8 t.EvidenceID)),
      ("fromOfficer", .string (toValidUTF8 t.FromOfficer)),
      ("toOfficer", .string (toValidUTF8 t.ToOfficer)), ("timestamp", .time t.Timestamp),
      ("reason", .string (toValidUTF8 t.Reason)),
      ("transactionId", .string (toValidUTF8 t.TransactionID))]) =
      .ok { EvidenceID := toValidUTF8 (toValidUTF8 t.EvidenceID),
            FromOfficer := toValidUTF8 (toValidUTF8 t.FromOfficer),
            ToOfficer := toValidUTF8 (toValidUTF8 t.ToOfficer),
            Timestamp := t.Timestamp,
            Reason := toValidUTF8 (toValidUTF8 t.Reason),
            TransactionID := toValidUTF8 (toValidUTF8 t.TransactionID) } := rfl
  rw [h1]
  simp only [toValidUTF8_idem]
  rfl

theorem Evidence.coerced_of_valid {e : Evidence} (h : e.utf8Valid) : e.toValidUTF8 = e := by
  obtain ⟨h1, h2, h3, h4, h5, h6, h7, h8, h9⟩ := h
  cases e
  simp only [Evidence.toValidUTF8, EvidenceContract.toValidUTF8_of_valid h1,
    EvidenceContract.toValidUTF8_of_valid h2, EvidenceContract.toValidUTF8_of_valid h3,
    EvidenceContract.toValidUTF8_of_valid h4, EvidenceContract.toValidUTF8_of_valid h5,
    EvidenceContract.toValidUTF8_of_valid h6, EvidenceContract.toValidUTF8_of_valid h7,
    EvidenceContract.toValidUTF8_of_valid h8, EvidenceContract.toValidUTF8_of_valid h9]

theorem Evidence.coerced_utf8Valid (e : Evidence) : e.toValidUTF8.utf8Valid :=
  ⟨EvidenceContract.utf8Valid_toValidUTF8 _, EvidenceContract.utf8Valid_toValidUTF8 _,
    EvidenceContract.utf8Valid_toValidUTF8 _, EvidenceContract.utf8Valid_toValidUTF8 _,
    EvidenceContract.utf8Valid_toValidUTF8 _, EvidenceContract.utf8Valid_toValidUTF8 _,
    EvidenceContract.utf8Valid_toValidUTF8 _, EvidenceContract.utf8Valid_toValidUTF8 _,
    EvidenceContract.utf8Valid_toValidUTF8 _⟩

theorem Evidence.digestValid_of_utf8Valid {e : Evidence} (h : e.utf8Valid) : e.digestValid :=
  ⟨h.1, h.2.1, h.2.2.2.1, h.2.2.2.2.1, h.2.2.2.2.2.2.1⟩

/-- A record decoded from stored bytes has valid UTF-8 in all its strings, when the
bytes were written by `json.Marshal`. -/
theorem utf8Valid_of_unmarshal_marshal {e e1 : Evidence} {b : Bytes} (hp : e.Timestamp.Plain)
    (hm : jsonMarshalEvidence e = .ok b) (hu : jsonUnmarshalEvidence b = .ok e1) :
    e1 = e.toValidUTF8 ∧ e1.utf8Valid := by
  rw [jsonUnmarshalEvidence_marshal e b hp hm] at hu
  simp only [Except.ok.injEq] at hu
  subst hu
  exact ⟨rfl, Evidence.coerced_utf8Valid e⟩

/-! ## Hash lemmas -/

theorem calculateBlockchainHash_congr {a b : Evidence} (hid : a.ID = b.ID)
    (hcase : a.CaseID = b.CaseID) (hcid : a.IPFSCid = b.IPFSCid)
    (hfile : a.FileHash = b.FileHash) (hoff : a.CustodyOfficer = b.CustodyOfficer)
    (hts : a.Timestamp.formatRFC3339 = b.Timestamp.formatRFC3339) :
    calculateBlockchainHash a = calculateBlockchainHash b := by
  simp only [calculateBlockchainHash, digestInput, hid, hcase, hcid, hfile, hoff, hts]

theorem calculateBlockchainHash_toValidUTF8 {e : Evidence} (h : e.digestValid) :
    calculateBlockchainHash e.toValidUTF8 = calculateBlockchainHash e := by
  obtain ⟨h1, h2, h3, h4, h5⟩ := h
  apply calculateBlockchainHash_congr
  · exact toValidUTF8_of_valid h1
  · exact toValidUTF8_of_valid h2
  · exact toValidUTF8_of_valid h3
  · exact toValidUTF8_of_valid h4
  · exact toValidUTF8_of_valid h5
  · rfl

/-! ## Stub lemmas -/

theorem GetState_snd (ctx : TransactionContext) (stub : Stub) (key : String) :
    (GetState ctx stub key).2 = stub := by
  unfold GetState
  split <;> rfl

theorem GetState_of_quiet {ctx : TransactionContext} (stub : Stub) {key : String}
    (h : ctx.getStateErr key = none) :
    GetState ctx stub key = (.ok (stub.ledger.world.get key), stub) := by
  simp [GetState, h]

theorem GetState_of_error {ctx : TransactionContext} (stub : Stub) {key : String} {err : Error}
    (h : ctx.getStateErr key = some err) : GetState ctx stub key = (.error err, stub) := by
  simp [GetState, h]

theorem PutState_of_quiet {ctx : TransactionContext} (stub : Stub) {key : String} (value : Bytes)
    (hk : key ≠ "") (h : ctx.putStateErr key = none) :
    PutState ctx stub key value =
      (.ok (), stub.put key value) := by
  simp [PutState, hk, h]

theorem PutState_cases (ctx : TransactionContext) (stub : Stub) (key : String) (value : Bytes) :
    (∃ err, PutState ctx stub key value = (.error err, stub)) ∨
    (key ≠ "" ∧ ctx.putStateErr key = none ∧
      PutState ctx stub key value =
        (.ok (), stub.put key value)) := by
  by_cases hk : key = ""
  · left
    exact ⟨"key must not be an empty string", by simp [PutState, hk]⟩
  · cases hp : ctx.putStateErr key with
    | some err =>
      left
      exact ⟨err, by simp [PutState, hk, hp]⟩
    | none =>
      right
      exact ⟨hk, rfl, PutState_of_quiet stub value hk hp⟩

theorem PutState_ledger (ctx : TransactionContext) (stub : Stub) (key : String) (value : Bytes) :
    (PutState ctx stub key value).2.ledger = stub.ledger := by
  rcases PutState_cases ctx stub key value with ⟨err, h⟩ | ⟨_, _, h⟩
  · rw [h]
  · rw [h]
    rfl

theorem ReadEvidence_eq (ctx : TransactionContext) (stub : Stub) (id : String) :
    ReadEvidence ctx stub id =
      (match ctx.getStateErr id with
        | some err => .error ("failed to read from world state: " ++ err)
        | none =>
          match stub.ledger.world.get id with
          | none => .error ("evidence " ++ id ++ " does not exist")
          | some evidenceJSON => jsonUnmarshalEvidence evidenceJSON, stub) := by
  unfold ReadEvidence GetState
  cases ctx.getStateErr id with
  | some err => rfl
  | none =>
    cases stub.ledger.world.get id with
    | none => rfl
    | some b =>
      simp only
      cases jsonUnmarshalEvidence b <;> rfl

theorem ReadEvidence_snd (ctx : TransactionContext) (stub : Stub) (id : String) :
    (ReadEvidence ctx stub id).2 = stub := by
  rw [ReadEvidence_eq]

theorem ReadEvidence_ok {ctx : TransactionContext} {stub : Stub} {id : String} {e : Evidence}
    (h : (ReadEvidence ctx stub id).1 = .ok e) :
    ctx.getStateErr id = none ∧
      ∃ b, stub.ledger.world.get id = some b ∧ jsonUnmarshalEvidence b = .ok e := by
  rw [ReadEvidence_eq] at h
  simp only at h
  split at h
  · cases h
  · rename_i hq
    split at h
    · cases h
    · rename_i b hb
      exact ⟨hq, b, hb, h⟩

theorem ReadEvidence_of_get {ctx : TransactionContext} {stub : Stub} {id : String} {b : Bytes}
    {e : Evidence} (hq : ctx.getStateErr id = none) (hg : stub.ledger.world.get id = some b)
    (hu : jsonUnmarshalEvidence b = .ok e) : ReadEvidence ctx stub id = (.ok e, stub) := by
  rw [ReadEvidence_eq, hq, hg]
  simp only [hu]

theorem ReadEvidence_pair {ctx : TransactionContext} {stub : Stub} {id : String}
    {r : Except Error Evidence} (h : (ReadEvidence ctx stub id).1 = r) :
    ReadEvidence ctx stub id = (r, stub) := by
  have h2 := ReadEvidence_snd ctx stub id
  exact Prod.ext h h2

/-- What `ReadEvidence` returns depends on the committed world state only. -/
theorem ReadEvidence_world (ctx : TransactionContext) (s1 s2 : Stub) (id : String)
    (h : s1.ledger.world.get id = s2.ledger.world.get id) :
    (ReadEvidence ctx s1 id).1 = (ReadEvidence ctx s2 id).1 := by
  rw [ReadEvidence_eq, ReadEvidence_eq, h]

/-! ## Commit lemmas -/

theorem Ledger.commit_nil (l : Ledger) (txID : String) : l.commit txID [] = l := rfl

theorem Ledger.commit_one (l : Ledger) (txID key : String) (value : Bytes) :
    l.commit txID [(key, value)] = l.put txID key value := rfl

theorem Ledger.commit_two (l : Ledger) (txID k1 k2 : String) (v1 v2 : Bytes) :
    l.commit txID [(k1, v1), (k2, v2)] = (l.put txID k1 v1).put txID k2 v2 := rfl

theorem invoke_error {α : Type} (ctx : TransactionContext) (l : Ledger)
    (f : TransactionContext → Stub → Except Error α × Stub) {err : Error}
    (h : (f ctx l.stub).1 = .error err) : invoke ctx l f = (.error err, l) := by
  unfold invoke
  split
  · rename_i a stub heq
    rw [heq] at h
    cases h
  · rename_i err2 stub heq
    rw [heq] at h
    simp only [Except.error.injEq] at h
    rw [h]

theorem invoke_ok {α : Type} (ctx : TransactionContext) (l : Ledger)
    (f : TransactionContext → Stub → Except Error α × Stub) {a : α} {stub : Stub}
    (h : f ctx l.stub = (.ok a, stub)) :
    invoke ctx l f = (.ok a, l.commit ctx.txID stub.writes) := by
  unfold invoke
  rw [h]

/-- An invocation of a function that leaves the stub as it was leaves the ledger as
it was and returns what the function returns. -/
theorem invoke_readOnly {α : Type} {ctx : TransactionContext} {l : Ledger}
    {f : TransactionContext → Stub → Except Error α × Stub}
    (h : (f ctx l.stub).2 = l.stub) : invoke ctx l f = ((f ctx l.stub).1, l) := by
  unfold invoke
  split
  · rename_i a stub heq
    rw [heq] at h
    simp only at h
    subst h
    rw [heq]
    rfl
  · rename_i err stub heq
    rw [heq]

/-! ## Key order -/

theorem keyLt_irrefl (a : List Char) : keyLt a a = false := by
  induction a with
  | nil => rfl
  | cons c rest ih => simp [keyLt, ih]

theorem keyLt_trans {a b c : List Char} (hab : keyLt a b = true) (hbc : keyLt b c = true) :
    keyLt a c = true := by
  induction a generalizing b c with
  | nil =>
    cases b with
    | nil => simp [keyLt] at hab
    | cons y ys =>
      cases c with
      | nil => simp [keyLt] at hbc
      | cons z zs => simp [keyLt]
  | cons x xs ih =>
    cases b with
    | nil => simp [keyLt] at hab
    | cons y ys =>
      cases c with
      | nil => simp [keyLt] at hbc
      | cons z zs =>
        simp only [keyLt] at hab hbc ⊢
        by_cases h1 : x.toNat < y.toNat
        · by_cases h2 : y.toNat < z.toNat
          · have : x.toNat < z.toNat := by omega
            simp [this]
          · simp only [h2, if_false] at hbc
            by_cases h3 : z.toNat < y.toNat
            · simp [h3] at hbc
            · have : x.toNat < z.toNat := by omega
              simp [this]
        · simp only [h1, if_false] at hab
          by_cases h1' : y.toNat < x.toNat
          · simp [h1'] at hab
          · simp only [h1', if_false] at hab
            by_cases h2 : y.toNat < z.toNat
            · have : x.toNat < z.toNat := by omega
              simp [this]
            · simp only [h2, if_false] at hbc
              by_cases h3 : z.toNat < y.toNat
              · simp [h3] at hbc
              · simp only [h3, if_false] at hbc
                have e1 : ¬ x.toNat < z.toNat := by omega
                have e2 : ¬ z.toNat < x.toNat := by omega
                simp only [e1, e2, if_false]
                exact ih hab hbc

theorem keyLt_asymm {a b : List Char} (hab : keyLt a b = true) : keyLt b a = false := by
  cases h : keyLt b a with
  | false => rfl
  | true =>
    have := keyLt_trans hab h
    rw [keyLt_irrefl] at this
    cases this

theorem keyLt_total {a b : List Char} (h1 : keyLt a b = false) (h2 : a ≠ b) :
    keyLt b a = true := by
  induction a generalizing b with
  | nil =>
    cases b with
    | nil => exact absurd rfl h2
    | cons y ys => simp [keyLt] at h1
  | cons x xs ih =>
    cases b with
    | nil => rfl
    | cons y ys =>
      simp only [keyLt] at h1 ⊢
      by_cases hxy : x.toNat < y.toNat
      · simp [hxy] at h1
      · simp only [hxy, if_false] at h1
        by_cases hyx : y.toNat < x.toNat
        · simp [hyx]
        · simp only [hyx, if_false] at h1 ⊢
          have heq : x = y := by
            apply Char.ext
            apply UInt32.ext
            have : x.toNat = y.toNat := by omega
            exact this
          subst heq
          simp only [Nat.lt_irrefl, if_false]
          exact ih h1 (fun h => h2 (by rw [h]))

theorem keyLt_append_left (p a b : List Char) : keyLt (p ++ a) (p ++ b) = keyLt a b := by
  induction p with
  | nil => rfl
  | cons c rest ih => simp [keyLt, ih]

/-! ## Decimal text -/

theorem digitChar_toNat (d : Nat) (h : d < 10) : (digitChar d).toNat = 48 + d := by
  have hcases : d = 0 ∨ d = 1 ∨ d = 2 ∨ d = 3 ∨ d = 4 ∨ d = 5 ∨ d = 6 ∨ d = 7 ∨ d = 8 ∨ d = 9 := by
    omega
  rcases hcases with h | h | h | h | h | h | h | h | h | h <;> subst h <;> rfl

theorem toDigitsFuel_eq (w : Nat) : ∀ (fuel n : Nat) (acc : List Char),
    10 ^ w ≤ n → n < 10 ^ (w + 1) → w + 1 ≤ fuel →
    toDigitsFuel fuel n acc = fixedDigits (w + 1) n ++ acc := by
  induction w with
  | zero =>
    intro fuel n acc h1 h2 hf
    obtain ⟨f, rfl⟩ : ∃ f, fuel = f + 1 := ⟨fuel - 1, by omega⟩
    have hn : n < 10 := by simpa using h2
    simp [toDigitsFuel, hn, fixedDigits, Nat.mod_eq_of_lt hn]
  | succ w ih =>
    intro fuel n acc h1 h2 hf
    obtain ⟨f, rfl⟩ : ∃ f, fuel = f + 1 := ⟨fuel - 1, by omega⟩
    have hpos : 0 < 10 ^ w := Nat.pow_pos (by decide)
    have h10 : 10 ^ (w + 1) = 10 * 10 ^ w := by rw [Nat.pow_succ, Nat.mul_comm]
    have h100 : 10 ^ (w + 1 + 1) = 10 * 10 ^ (w + 1) := by rw [Nat.pow_succ, Nat.mul_comm]
    have hn : ¬ n < 10 := by omega
    have hlo : 10 ^ w ≤ n / 10 := by
      rw [Nat.le_div_iff_mul_le (by decide)]
      omega
    have hhi : n / 10 < 10 ^ (w + 1) := by
      rw [Nat.div_lt_iff_lt_mul (by decide)]
      omega
    simp only [toDigitsFuel, hn, if_false]
    rw [ih f (n / 10) _ hlo hhi (by omega)]
    simp [fixedDigits]

theorem decimal_eq (w n : Nat) (h1 : 10 ^ w ≤ n) (h2 : n < 10 ^ (w + 1)) :
    decimal n = fixedDigits (w + 1) n := by
  have hw : w < 10 ^ w := Nat.lt_pow_self (by decide) w
  have := toDigitsFuel_eq w (n + 1) n [] h1 h2 (by omega)
  simpa [decimal] using this

theorem fixedDigits_lt (w : Nat) : ∀ (n m : Nat) (s t : List Char),
    n < m → m < 10 ^ w → keyLt (fixedDigits w n ++ s) (fixedDigits w m ++ t) = true := by
  induction w with
  | zero =>
    intro n m s t h1 h2
    simp at h2
    omega
  | succ w ih =>
    intro n m s t h1 h2
    have h10 : 10 ^ (w + 1) = 10 * 10 ^ w := by rw [Nat.pow_succ, Nat.mul_comm]
    simp only [fixedDigits, List.append_assoc]
    by_cases hq : n / 10 < m / 10
    · apply ih _ _ _ _ hq
      rw [Nat.div_lt_iff_lt_mul (by decide)]
      omega
    · have hqe : n / 10 = m / 10 := by omega
      have hr : n % 10 < m % 10 := by omega
      rw [hqe, keyLt_append_left]
      have hn := digitChar_toNat (n % 10) (Nat.mod_lt _ (by decide))
      have hm := digitChar_toNat (m % 10) (Nat.mod_lt _ (by decide))
      have : (digitChar (n % 10)).toNat < (digitChar (m % 10)).toNat := by omega
      simp [keyLt, this]

/-- Among Unix seconds with the same number of decimal digits, the decimal texts
followed by anything are ordered as the numbers. -/
theorem formatInt_lt (w : Nat) (a b : Int) (s t : List Char) (ha : (10 : Int) ^ w ≤ a)
    (hab : a < b) (hb : b < (10 : Int) ^ (w + 1)) :
    keyLt ((formatInt a).data ++ s) ((formatInt b).data ++ t) = true := by
  have hpos : (0 : Int) < 10 ^ w := by positivity
  have ha0 : ¬ a < 0 := by omega
  have hb0 : ¬ b < 0 := by omega
  obtain ⟨n, rfl⟩ : ∃ n : Nat, a = n := ⟨a.toNat, by omega⟩
  obtain ⟨m, rfl⟩ : ∃ m : Nat, b = m := ⟨b.toNat, by omega⟩
  have hn1 : 10 ^ w ≤ n := by exact_mod_cast ha
  have hm2 : m < 10 ^ (w + 1) := by exact_mod_cast hb
  have hnm : n < m := by exact_mod_cast hab
  simp only [formatInt, ha0, hb0, if_false, Int.natAbs_ofNat]
  rw [decimal_eq w n hn1 (by omega), decimal_eq w m (by omega) hm2]
  exact fixedDigits_lt (w + 1) n m s t hnm hm2

/-! ## Decimal text is ASCII -/

theorem toDigitsFuel_digits (fuel : Nat) : ∀ (n : Nat) (acc : List Char),
    (∀ c ∈ acc, 48 ≤ c.toNat ∧ c.toNat ≤ 57) →
    ∀ c ∈ toDigitsFuel fuel n acc, 48 ≤ c.toNat ∧ c.toNat ≤ 57 := by
  induction fuel with
  | zero =>
    intro n acc hacc c hc
    exact hacc c hc
  | succ f ih =>
    intro n acc hacc c hc
    simp only [toDigitsFuel] at hc
    split at hc
    · rename_i hn
      rcases List.mem_cons.mp hc with h | h
      · rw [h, digitChar_toNat n hn]
        omega
      · exact hacc c h
    · apply ih (n / 10) (digitChar (n % 10) :: acc) _ c hc
      intro d hd
      rcases List.mem_cons.mp hd with h | h
      · rw [h, digitChar_toNat (n % 10) (Nat.mod_lt _ (by decide))]
        have := Nat.mod_lt n (show 0 < 10 by decide)
        omega
      · exact hacc d h

theorem toDigitsFuel_ne_nil (fuel : Nat) : ∀ (n : Nat) (acc : List Char),
    acc ≠ [] ∨ 0 < fuel → toDigitsFuel fuel n acc ≠ [] := by
  induction fuel with
  | zero =>
    intro n acc h
    rcases h with h | h
    · exact h
    · omega
  | succ f ih =>
    intro n acc _
    simp only [toDigitsFuel]
    split
    · simp
    · exact ih _ _ (Or.inl (by simp))

theorem decimal_digits (n : Nat) : ∀ c ∈ decimal n, 48 ≤ c.toNat ∧ c.toNat ≤ 57 :=
  toDigitsFuel_digits _ _ _ (fun _ h => by cases h)

theorem decimal_ne_nil (n : Nat) : decimal n ≠ [] :=
  toDigitsFuel_ne_nil _ _ _ (Or.inr (Nat.succ_pos n))

/-- The text of `strconv.FormatInt` consists of the minus sign and digits. -/
theorem formatInt_chars (i : Int) : ∀ c ∈ (formatInt i).data, 45 ≤ c.toNat ∧ c.toNat ≤ 57 := by
  intro c hc
  unfold formatInt at hc
  split at hc
  · rcases List.mem_cons.mp hc with h | h
    · rw [h]
      decide
    · have := decimal_digits _ c h
      omega
  · have := decimal_digits _ c hc
    omega

theorem formatInt_ne_nil (i : Int) : (formatInt i).data ≠ [] := by
  unfold formatInt
  split
  · simp
  · exact decimal_ne_nil _

/-! ## Composite keys -/

/-- The separator U+0000 as a string. -/
theorem nul_data : (String.mk [Char.ofNat 0]).data = [Char.ofNat 0] := rfl

theorem CreateCompositeKey_one {objectType a key : String}
    (h : CreateCompositeKey objectType [a] = .ok key) :
    key.data = Char.ofNat 0 :: (objectType.data ++ Char.ofNat 0 :: (a.data ++ [Char.ofNat 0])) := by
  unfold CreateCompositeKey at h
  split at h
  · cases h
  · simp only [appendAttributes] at h
    split at h
    · cases h
    · simp only [Except.ok.injEq] at h
      rw [← h]
      simp [String.data_append]

theorem CreateCompositeKey_two {objectType a b key : String}
    (h : CreateCompositeKey objectType [a, b] = .ok key) :
    ∃ startKey, CreateCompositeKey objectType [a] = .ok startKey ∧
      key.data = startKey.data ++ (b.data ++ [Char.ofNat 0]) := by
  unfold CreateCompositeKey at h ⊢
  split at h
  · cases h
  · rename_i hv
    simp only [appendAttributes] at h ⊢
    split at h
    · cases h
    · rename_i hva
      split at h
      · cases h
      · simp only [Except.ok.injEq] at h
        refine ⟨_, rfl, ?_⟩
        rw [← h]
        simp [String.data_append]

/-- Keys in the range that a partial composite key opens begin with that key. -/
theorem inKeyRange_extends : ∀ (s k : List Char),
    keyLt k s = false → keyLt k (s ++ maxUnicodeRune) = true → s <+: k := by
  intro s
  induction s with
  | nil =>
    intro k _ _
    exact List.nil_prefix
  | cons a as ih =>
    intro k h1 h2
    cases k with
    | nil => simp [keyLt] at h1
    | cons b bs =>
      simp only [keyLt, List.cons_append] at h1 h2
      by_cases hba : b.toNat < a.toNat
      · simp [hba] at h1
      · simp only [hba, if_false] at h1 h2
        by_cases hab : a.toNat < b.toNat
        · simp [hab] at h2
        · simp only [hab, if_false] at h1 h2
          have heq : a = b := by
            apply Char.ext
            apply UInt32.ext
            have : a.toNat = b.toNat := by omega
            exact this
          subst heq
          exact (List.prefix_cons_inj a).mpr (ih bs h1 h2)

theorem inKeyRange_startsWith {startKey key : String} (h : inKeyRange startKey key = true) :
    startKey.data <+: key.data := by
  unfold inKeyRange at h
  simp only [Bool.and_eq_true, Bool.not_eq_true'] at h
  exact inKeyRange_extends _ _ h.1 h.2

theorem keyLt_extends (s x : List Char) : keyLt (s ++ x) s = false := by
  induction s with
  | nil => cases x <;> rfl
  | cons a as ih => simp [keyLt, ih]

/-- A key that continues the partial key with a byte below F4 lies in its range. -/
theorem inKeyRange_of_extends {startKey key : String} (c : Char) (x : List Char)
    (hk : key.data = startKey.data ++ c :: x) (hc : c.toNat < 0xF4) :
    inKeyRange startKey key = true := by
  unfold inKeyRange
  rw [hk, keyLt_extends, keyLt_append_left]
  have h244 : (Char.ofNat 0xF4).toNat = 0xF4 := by decide
  simp only [maxUnicodeRune, keyLt, h244]
  rw [if_pos hc]
  rfl

/-- An id lies outside the range of the partial composite key built on it. -/
theorem startKey_not_within_id {objectType id startKey : String}
    (h : CreateCompositeKey objectType [id] = .ok startKey) :
    inKeyRange startKey id = false := by
  have hd := CreateCompositeKey_one h
  cases hp : inKeyRange startKey id with
  | false => rfl
  | true =>
    have hlen := (inKeyRange_startsWith hp).length_le
    rw [hd] at hlen
    simp at hlen
    omega

/-- The key of a transfer lies in the range of the partial composite key of its
evidence id. -/
theorem transferKey_extends_startKey {objectType id key startKey : String} (i : Int)
    (h : CreateCompositeKey objectType [id, formatInt i] = .ok key)
    (hs : CreateCompositeKey objectType [id] = .ok startKey) :
    inKeyRange startKey key = true := by
  obtain ⟨s, hs2, hk⟩ := CreateCompositeKey_two h
  rw [hs] at hs2
  cases hs2
  cases hf : (formatInt i).data with
  | nil => exact absurd hf (formatInt_ne_nil i)
  | cons c x =>
    rw [hf] at hk
    apply inKeyRange_of_extends c (x ++ [Char.ofNat 0]) hk
    have := formatInt_chars i c (by rw [hf]; exact List.mem_cons_self _ _)
    omega

theorem transferKey_ne_id {objectType id b key : String}
    (h : CreateCompositeKey objectType [id, b] = .ok key) : key ≠ id := by
  obtain ⟨s, hs, hk⟩ := CreateCompositeKey_two h
  have hd := CreateCompositeKey_one hs
  intro heq
  have hlen := congrArg List.length (congrArg String.data heq)
  rw [hk, hd] at hlen
  simp at hlen
  omega

theorem transferKey_head {objectType id b key : String}
    (h : CreateCompositeKey objectType [id, b] = .ok key) :
    key.data.head? = some (Char.ofNat 0) := by
  obtain ⟨s, hs, hk⟩ := CreateCompositeKey_two h
  rw [hk, CreateCompositeKey_one hs]
  rfl

/-! ## Range scans after a write -/

theorem filter_put_of_not (p : String → Bool) (w : WorldState) (key : String) (value : Bytes)
    (hk : p key = false) :
    (w.put key value).filter (fun kv => p kv.1) = w.filter (fun kv => p kv.1) := by
  induction w with
  | nil => simp [WorldState.put, hk]
  | cons kv rest ih =>
    obtain ⟨k, v⟩ := kv
    unfold WorldState.put
    by_cases h1 : k = key
    · subst h1
      simp [List.filter_cons, hk]
    · by_cases h2 : keyLt key.data k.data = true
      · simp [h1, h2, List.filter_cons, hk]
      · have h2f : keyLt key.data k.data = false := by simpa using h2
        simp [h1, h2f, List.filter_cons, ih]

theorem filter_put_of_empty (p : String → Bool) (w : WorldState) (key : String) (value : Bytes)
    (hk : p key = true) (hempty : w.filter (fun kv => p kv.1) = []) :
    (w.put key value).filter (fun kv => p kv.1) = [(key, value)] := by
  induction w with
  | nil => simp [WorldState.put, hk]
  | cons kv rest ih =>
    obtain ⟨k, v⟩ := kv
    have hkf : p k = false := by
      cases hpk : p k with
      | false => rfl
      | true => simp [List.filter_cons, hpk] at hempty
    have hrest : rest.filter (fun kv => p kv.1) = [] := by
      simpa [List.filter_cons, hkf] using hempty
    unfold WorldState.put
    by_cases h1 : k = key
    · subst h1
      rw [hk] at hkf
      cases hkf
    · by_cases h2 : keyLt key.data k.data = true
      · simp [h1, h2, List.filter_cons, hk, hkf, hrest]
      · have h2f : keyLt key.data k.data = false := by simpa using h2
        simp [h1, h2f, List.filter_cons, hkf, ih hrest]

/-! ## Iterators and the custody chain loop -/

theorem iteratorFrom_length (ctx : TransactionContext) (i : Nat) (results : List (String × Bytes)) :
    (iteratorFrom ctx i results).length = results.length := by
  induction results generalizing i with
  | nil => rfl
  | cons kv rest ih => simp [iteratorFrom, ih]

theorem iteratorFrom_quiet (ctx : TransactionContext) (i : Nat) (results : List (String × Bytes))
    (h : ∀ j, j < results.length → ctx.nextErr (i + j) = none) :
    iteratorFrom ctx i results = results.map Except.ok := by
  induction results generalizing i with
  | nil => rfl
  | cons kv rest ih =>
    have h0 := h 0 (by simp)
    simp only [Nat.add_zero] at h0
    simp only [iteratorFrom, h0, List.map_cons]
    congr 1
    apply ih
    intro j hj
    have := h (j + 1) (by simp; omega)
    rw [show i + 1 + j = i + (j + 1) by omega]
    exact this

theorem custodyLoop_length {it : List (Except Error (String × Bytes))}
    {acc res : List CustodyTransfer} (h : GetCustodyChain.loop it acc = .ok res) :
    res.length = acc.length + it.length := by
  induction it generalizing acc with
  | nil =>
    simp only [GetCustodyChain.loop, Except.ok.injEq] at h
    simp [h]
  | cons r rest ih =>
    cases r with
    | error err => simp [GetCustodyChain.loop] at h
    | ok response =>
      simp only [GetCustodyChain.loop] at h
      split at h
      · cases h
      · have := ih h
        simp at this ⊢
        omega

theorem custodyLoop_ok (kvs : List (String × Bytes)) (ts acc : List CustodyTransfer)
    (h : List.Forall₂ (fun kv t => jsonUnmarshalTransfer kv.2 = .ok t) kvs ts) :
    GetCustodyChain.loop (kvs.map Except.ok) acc = .ok (acc ++ ts) := by
  induction h generalizing acc with
  | nil => simp [GetCustodyChain.loop]
  | cons hkv _ ih =>
    simp only [List.map_cons, GetCustodyChain.loop, hkv]
    rw [ih]
    simp

/-- What `GetCustodyChain` scans: the committed pairs whose key lies in the range
of the partial composite key of the evidence id. -/
theorem GetCustodyChain_ok_scan {q : TransactionContext} {stub : Stub} {id : String}
    {res : List CustodyTransfer} (h : (GetCustodyChain q stub id).1 = .ok res) :
    ∃ startKey, CreateCompositeKey "custody_transfer" [id] = .ok startKey ∧
      q.iteratorErr = none ∧
      (stub.ledger.world.filter (fun kv => inKeyRange startKey kv.1)).length = res.length := by
  unfold GetCustodyChain GetStateByPartialCompositeKey at h
  cases hk : CreateCompositeKey "custody_transfer" [id] with
  | error err => simp [hk] at h
  | ok startKey =>
    cases hi : q.iteratorErr with
    | some err => simp [hk, hi] at h
    | none =>
      simp only [hk, hi] at h
      have := custodyLoop_length h
      simp [iteratorFrom_length] at this
      exact ⟨startKey, rfl, rfl, this.symm⟩

theorem GetCustodyChain_of_scan {q : TransactionContext} {stub : Stub} {id startKey : String}
    {ts : List CustodyTransfer}
    (hk : CreateCompositeKey "custody_transfer" [id] = .ok startKey)
    (hi : q.iteratorErr = none) (hn : ∀ j, j < ts.length → q.nextErr j = none)
    (h : List.Forall₂ (fun kv t => jsonUnmarshalTransfer kv.2 = .ok t)
      (stub.ledger.world.filter (fun kv => inKeyRange startKey kv.1)) ts) :
    GetCustodyChain q stub id = (.ok ts, stub) := by
  unfold GetCustodyChain GetStateByPartialCompositeKey
  simp only [hk, hi]
  rw [iteratorFrom_quiet]
  · rw [custodyLoop_ok _ ts [] h]
    simp
  · intro j hj
    rw [h.length_eq] at hj
    simpa using hn j hj

theorem GetCustodyChain_snd (q : TransactionContext) (stub : Stub) (id : String) :
    (GetCustodyChain q stub id).2 = stub := by
  unfold GetCustodyChain GetStateByPartialCompositeKey
  cases CreateCompositeKey "custody_transfer" [id] with
  | error err => rfl
  | ok startKey =>
    cases q.iteratorErr with
    | some err => rfl
    | none => rfl

/-! ## Validation of composite key attributes -/

theorem hasMaxUnicodeRune_of_ascii : ∀ (s : List Char), (∀ c ∈ s, c.toNat < 0x80) →
    hasMaxUnicodeRune s = false
  | [], _ => rfl
  | [_], _ => rfl
  | [_, _], _ => rfl
  | [_, _, _], _ => rfl
  | a :: b :: c :: d :: rest, h => by
    have ha := h a (List.mem_cons_self _ _)
    have ih := hasMaxUnicodeRune_of_ascii (b :: c :: d :: rest)
      (fun x hx => h x (List.mem_cons_of_mem _ hx))
    have hne : (a.toNat == 0xF4) = false := by
      simp only [beq_eq_false_iff_ne, ne_eq]
      omega
    simp only [hasMaxUnicodeRune, hne, Bool.false_and, Bool.false_or, ih]

theorem validateCompositeKeyAttribute_ok {str : String}
    (h : validateCompositeKeyAttribute str = .ok ()) :
    utf8Valid str = true ∧ ∀ c ∈ str.data, c.toNat ≠ 0 := by
  unfold validateCompositeKeyAttribute at h
  split at h
  · cases h
  · rename_i hv
    split at h
    · cases h
    · rename_i hn
      refine ⟨by simpa using hv, ?_⟩
      intro c hc h0
      apply hn
      left
      simp only [List.any_eq_true, decide_eq_true_eq]
      exact ⟨c, hc, h0⟩

theorem validateCompositeKeyAttribute_of_ascii {str : String}
    (h : ∀ c ∈ str.data, 0 < c.toNat ∧ c.toNat < 0x80) :
    validateCompositeKeyAttribute str = .ok () := by
  have hv : utf8Valid str = true := utf8Valid_of_ascii (fun c hc => (h c hc).2)
  have hm := hasMaxUnicodeRune_of_ascii str.data (fun c hc => (h c hc).2)
  have hn : ¬ (str.data.any (fun c => decide (c.toNat = 0)) = true) := by
    simp only [List.any_eq_true, decide_eq_true_eq, not_exists, not_and]
    intro c hc h0
    have := (h c hc).1
    omega
  unfold validateCompositeKeyAttribute
  simp [hv, hm, hn]

theorem validateCompositeKeyAttribute_formatInt (i : Int) :
    validateCompositeKeyAttribute (formatInt i) = .ok () := by
  apply validateCompositeKeyAttribute_of_ascii
  intro c hc
  have := formatInt_chars i c hc
  omega

/-- The key of a transfer can be built exactly when the evidence id passes the
check of composite key attributes. -/
theorem CreateCompositeKey_transfer (id : String) (i : Int) :
    (validateCompositeKeyAttribute id = .ok () →
      ∃ key, CreateCompositeKey "custody_transfer" [id, formatInt i] = .ok key) ∧
    (∀ key, CreateCompositeKey "custody_transfer" [id, formatInt i] = .ok key →
      validateCompositeKeyAttribute id = .ok ()) := by
  have ht : validateCompositeKeyAttribute "custody_transfer" = .ok () := by decide
  constructor
  · intro h
    simp only [CreateCompositeKey, ht, appendAttributes, h,
      validateCompositeKeyAttribute_formatInt i]
    exact ⟨_, rfl⟩
  · intro key h
    simp only [CreateCompositeKey, ht, appendAttributes] at h
    split at h
    · cases h
    · rename_i u hu
      cases u
      exact hu

theorem CreateCompositeKey_start_of_transfer {id key : String} {i : Int}
    (h : CreateCompositeKey "custody_transfer" [id, formatInt i] = .ok key) :
    ∃ startKey, CreateCompositeKey "custody_transfer" [id] = .ok startKey :=
  (CreateCompositeKey_two h).imp (fun _ hs => hs.1)

/-! ## The records the calls write -/

theorem initialEvidence_plain (ctx : TransactionContext) : (initialEvidence ctx).Timestamp.Plain :=
  ctx.nowPlain 0

theorem createdEvidence_plain (ctx : TransactionContext) (id caseId filename ipfsCid fileHash
    custodyOfficer accessLevel : String) :
    (createdEvidence ctx id caseId filename ipfsCid fileHash custodyOfficer
      accessLevel).Timestamp.Plain :=
  ctx.nowPlain 0

theorem updatedEvidence_plain (ctx : TransactionContext) (evidence : Evidence)
    (newStatus : String) : (updatedEvidence ctx evidence newStatus).Timestamp.Plain :=
  ctx.nowPlain 0

theorem transferRecord_plain (ctx : TransactionContext) (evidence : Evidence)
    (evidenceId newOfficer reason : String) :
    (transferRecord ctx evidence evidenceId newOfficer reason).Timestamp.Plain :=
  ctx.nowPlain 0

theorem transferredEvidence_plain (ctx : TransactionContext) (evidence : Evidence)
    (newOfficer : String) : (transferredEvidence ctx evidence newOfficer).Timestamp.Plain :=
  ctx.nowPlain 2

theorem jsonMarshalEvidence_ok (e : Evidence) (h : e.Timestamp.Plain) :
    ∃ b, jsonMarshalEvidence e = .ok b :=
  ⟨_, jsonMarshalEvidence_of_plain e h⟩

theorem jsonMarshalTransfer_ok (t : CustodyTransfer) (h : t.Timestamp.Plain) :
    ∃ b, jsonMarshalTransfer t = .ok b :=
  ⟨_, jsonMarshalTransfer_of_plain t h⟩

/-! ## The contract functions step by step -/

theorem InitLedger_eq (ctx : TransactionContext) (stub : Stub) :
    InitLedger ctx stub =
      match jsonMarshalEvidence (initialEvidence ctx) with
      | .error err => (.error err, stub)
      | .ok b =>
        match PutState ctx stub "evidence1" b with
        | (.error err, stub) => (.error ("failed to put evidence to world state: " ++ err), stub)
        | (.ok _, stub) => (.ok (), stub) :=
  rfl

theorem CreateEvidence_eq (ctx : TransactionContext) (stub : Stub)
    (id caseId filename ipfsCid fileHash custodyOfficer accessLevel : String) :
    CreateEvidence ctx stub id caseId filename ipfsCid fileHash custodyOfficer accessLevel =
      match EvidenceExists ctx stub id with
      | (.error err, stub) => (.error err, stub)
      | (.ok isPresent, stub) =>
        if isPresent then (.error ("evidence " ++ id ++ " already exists"), stub)
        else
          match jsonMarshalEvidence (createdEvidence ctx id caseId filename ipfsCid fileHash
            custodyOfficer accessLevel) with
          | .error err => (.error err, stub)
          | .ok evidenceJSON => PutState ctx stub id evidenceJSON :=
  rfl

theorem UpdateEvidenceStatus_eq (ctx : TransactionContext) (stub : Stub) (id newStatus : String) :
    UpdateEvidenceStatus ctx stub id newStatus =
      match ReadEvidence ctx stub id with
      | (.error err, stub) => (.error err, stub)
      | (.ok evidence, stub) =>
        match jsonMarshalEvidence (updatedEvidence ctx evidence newStatus) with
        | .error err => (.error err, stub)
        | .ok evidenceJSON => PutState ctx stub id evidenceJSON :=
  rfl

theorem TransferCustody_eq (ctx : TransactionContext) (stub : Stub)
    (evidenceId newOfficer reason : String) :
    TransferCustody ctx stub evidenceId newOfficer reason =
      match ReadEvidence ctx stub evidenceId with
      | (.error err, stub) => (.error err, stub)
      | (.ok evidence, stub) =>
        match CreateCompositeKey "custody_transfer"
          [evidenceId, formatInt (ctx.now 1).Unix] with
        | .error err => (.error err, stub)
        | .ok transferKey =>
          match jsonMarshalTransfer
            (transferRecord ctx evidence evidenceId newOfficer reason) with
          | .error err => (.error err, stub)
          | .ok transferJSON =>
            match PutState ctx stub transferKey transferJSON with
            | (.error err, stub) => (.error err, stub)
            | (.ok _, stub) =>
              match jsonMarshalEvidence (transferredEvidence ctx evidence newOfficer) with
              | .error err => (.error err, stub)
              | .ok evidenceJSON => PutState ctx stub evidenceId evidenceJSON :=
  rfl

theorem EvidenceExists_eq (ctx : TransactionContext) (stub : Stub) (id : String) :
    EvidenceExists ctx stub id =
      (match ctx.getStateErr id with
        | some err => .error ("failed to read from world state: " ++ err)
        | none => .ok (stub.ledger.world.get id).isSome, stub) := by
  unfold EvidenceExists GetState
  cases ctx.getStateErr id <;> rfl

theorem InitLedger_cases (ctx : TransactionContext) (stub : Stub) :
    (∃ err, InitLedger ctx stub = (.error err, stub)) ∨
    ∃ b, jsonMarshalEvidence (initialEvidence ctx) = .ok b ∧
      ctx.putStateErr "evidence1" = none ∧
      InitLedger ctx stub = (.ok (), stub.put "evidence1" b) := by
  rw [InitLedger_eq]
  obtain ⟨b, hb⟩ := jsonMarshalEvidence_ok _ (initialEvidence_plain ctx)
  rw [hb]
  simp only
  rcases PutState_cases ctx stub "evidence1" b with ⟨err, h⟩ | ⟨_, hp, h⟩
  · rw [h]
    exact Or.inl ⟨_, rfl⟩
  · rw [h]
    exact Or.inr ⟨b, rfl, hp, rfl⟩

theorem CreateEvidence_cases (ctx : TransactionContext) (stub : Stub)
    (id caseId filename ipfsCid fileHash custodyOfficer accessLevel : String) :
    (∃ err, CreateEvidence ctx stub id caseId filename ipfsCid fileHash custodyOfficer
      accessLevel = (.error err, stub)) ∨
    ∃ b, ctx.getStateErr id = none ∧ stub.ledger.world.get id = none ∧ id ≠ "" ∧
      ctx.putStateErr id = none ∧
      jsonMarshalEvidence (createdEvidence ctx id caseId filename ipfsCid fileHash custodyOfficer
        accessLevel) = .ok b ∧
      CreateEvidence ctx stub id caseId filename ipfsCid fileHash custodyOfficer accessLevel =
        (.ok (), stub.put id b) := by
  rw [CreateEvidence_eq, EvidenceExists_eq]
  cases hq : ctx.getStateErr id with
  | some err => exact Or.inl ⟨_, rfl⟩
  | none =>
    cases hg : stub.ledger.world.get id with
    | some v => exact Or.inl ⟨_, rfl⟩
    | none =>
      simp only [Option.isSome_none, Bool.false_eq_true, if_false]
      obtain ⟨b, hb⟩ := jsonMarshalEvidence_ok _ (createdEvidence_plain ctx id caseId filename
        ipfsCid fileHash custodyOfficer accessLevel)
      rw [hb]
      simp only
      rcases PutState_cases ctx stub id b with ⟨err, h⟩ | ⟨hid, hp, h⟩
      · rw [h]
        exact Or.inl ⟨_, rfl⟩
      · rw [h]
        exact Or.inr ⟨b, trivial, trivial, hid, hp, rfl, rfl⟩

theorem UpdateEvidenceStatus_cases (ctx : TransactionContext) (stub : Stub)
    (id newStatus : String) :
    (∃ err, UpdateEvidenceStatus ctx stub id newStatus = (.error err, stub)) ∨
    ∃ e b, (ReadEvidence ctx stub id).1 = .ok e ∧ id ≠ "" ∧ ctx.putStateErr id = none ∧
      jsonMarshalEvidence (updatedEvidence ctx e newStatus) = .ok b ∧
      UpdateEvidenceStatus ctx stub id newStatus = (.ok (), stub.put id b) := by
  rw [UpdateEvidenceStatus_eq]
  cases hr : (ReadEvidence ctx stub id).1 with
  | error err =>
    rw [ReadEvidence_pair hr]
    exact Or.inl ⟨_, rfl⟩
  | ok e =>
    rw [ReadEvidence_pair hr]
    simp only
    obtain ⟨b, hb⟩ := jsonMarshalEvidence_ok _ (updatedEvidence_plain ctx e newStatus)
    rw [hb]
    simp only
    rcases PutState_cases ctx stub id b with ⟨err, h⟩ | ⟨hid, hp, h⟩
    · rw [h]
      exact Or.inl ⟨_, rfl⟩
    · rw [h]
      exact Or.inr ⟨e, b, rfl, hid, hp, hb, rfl⟩

/-- The three ways `TransferCustody` ends: with an error and the stub as it was;
with an error in the put of the evidence record, the transfer record being in the
write set; without error, both records being in the write set. -/
theorem TransferCustody_cases (ctx : TransactionContext) (stub : Stub)
    (evidenceId newOfficer reason : String) :
    (∃ err, TransferCustody ctx stub evidenceId newOfficer reason = (.error err, stub)) ∨
    (∃ err e key tj, (ReadEvidence ctx stub evidenceId).1 = .ok e ∧
      CreateCompositeKey "custody_transfer" [evidenceId, formatInt (ctx.now 1).Unix] = .ok key ∧
      jsonMarshalTransfer (transferRecord ctx e evidenceId newOfficer reason) = .ok tj ∧
      ctx.putStateErr key = none ∧
      (evidenceId = "" ∨ ctx.putStateErr evidenceId = some err) ∧
      TransferCustody ctx stub evidenceId newOfficer reason =
        (.error err, stub.put key tj)) ∨
    ∃ e key tj ej, (ReadEvidence ctx stub evidenceId).1 = .ok e ∧
      CreateCompositeKey "custody_transfer" [evidenceId, formatInt (ctx.now 1).Unix] = .ok key ∧
      jsonMarshalTransfer (transferRecord ctx e evidenceId newOfficer reason) = .ok tj ∧
      jsonMarshalEvidence (transferredEvidence ctx e newOfficer) = .ok ej ∧
      ctx.putStateErr key = none ∧ evidenceId ≠ "" ∧ ctx.putStateErr evidenceId = none ∧
      TransferCustody ctx stub evidenceId newOfficer reason =
        (.ok (), (stub.put key tj).put evidenceId ej) := by
  rw [TransferCustody_eq]
  cases hr : (ReadEvidence ctx stub evidenceId).1 with
  | error err =>
    rw [ReadEvidence_pair hr]
    exact Or.inl ⟨_, rfl⟩
  | ok e =>
    rw [ReadEvidence_pair hr]
    simp only
    cases hk : CreateCompositeKey "custody_transfer"
        [evidenceId, formatInt (ctx.now 1).Unix] with
    | error err => exact Or.inl ⟨_, rfl⟩
    | ok key =>
      simp only
      obtain ⟨tj, htj⟩ := jsonMarshalTransfer_ok _
        (transferRecord_plain ctx e evidenceId newOfficer reason)
      obtain ⟨ej, hej⟩ := jsonMarshalEvidence_ok _ (transferredEvidence_plain ctx e newOfficer)
      rw [htj]
      simp only
      rcases PutState_cases ctx stub key tj with ⟨err, h⟩ | ⟨_, hp, h⟩
      · rw [h]
        exact Or.inl ⟨_, rfl⟩
      · rw [h]
        simp only
        rw [hej]
        simp only
        by_cases hid : evidenceId = ""
        · right; left
          refine ⟨"key must not be an empty string", e, key, tj, rfl, rfl, htj, hp, Or.inl hid, ?_⟩
          simp [PutState, hid, Stub.put]
        · cases hp2 : ctx.putStateErr evidenceId with
          | some err =>
            right; left
            refine ⟨err, e, key, tj, rfl, rfl, htj, hp, Or.inr rfl, ?_⟩
            simp [PutState, hid, hp2, Stub.put]
          | none =>
            right; right
            refine ⟨e, key, tj, ej, rfl, rfl, htj, hej, hp, hid, rfl, ?_⟩
            simp [PutState, hid, hp2, Stub.put]

/-! ## Invocations -/

theorem Ledger.stub_put_writes (l : Ledger) (key : String) (value : Bytes) :
    (l.stub.put key value).writes = [(key, value)] := rfl

theorem Ledger.stub_put_put_writes (l : Ledger) {k1 k2 : String} (v1 v2 : Bytes)
    (h : k1 ≠ k2) : ((l.stub.put k1 v1).put k2 v2).writes = [(k1, v1), (k2, v2)] := by
  simp [Stub.put, Ledger.stub, h]

/-- The ledger after an invocation of a call: the ledger as it was when the call
fails, and otherwise the ledger with the writes of the call committed. -/
theorem Call.run_cases (ctx : TransactionContext) (l : Ledger) (c : Call) :
    (∃ err, c.run ctx l = (.error err, l)) ∨
    (∃ key b, Write ctx l c key b ∧ c.run ctx l = (.ok (), l.put ctx.txID key b)) ∨
    ∃ k1 b1 k2 b2, Write ctx l c k1 b1 ∧ Write ctx (l.put ctx.txID k1 b1) c k2 b2 ∧
      c.run ctx l = (.ok (), (l.put ctx.txID k1 b1).put ctx.txID k2 b2) := by
  cases c with
  | initLedger =>
    rcases InitLedger_cases ctx l.stub with ⟨err, h⟩ | ⟨b, hm, _, h⟩
    · exact Or.inl ⟨err, invoke_error _ _ _ (by simp only [Call.apply, h])⟩
    · right; left
      refine ⟨"evidence1", b, Write.initial b hm, ?_⟩
      have := invoke_ok ctx l (Call.apply .initLedger) h
      rw [Call.run, this]
      rfl
  | createEvidence id caseId filename ipfsCid fileHash custodyOfficer accessLevel =>
    rcases CreateEvidence_cases ctx l.stub id caseId filename ipfsCid fileHash custodyOfficer
      accessLevel with ⟨err, h⟩ | ⟨b, _, hg, _, _, hm, h⟩
    · exact Or.inl ⟨err, invoke_error _ _ _ (by simp only [Call.apply, h])⟩
    · right; left
      refine ⟨id, b, Write.created id caseId filename ipfsCid fileHash custodyOfficer
        accessLevel b hg hm, ?_⟩
      have := invoke_ok ctx l
        (Call.apply (.createEvidence id caseId filename ipfsCid fileHash custodyOfficer
          accessLevel)) h
      rw [Call.run, this]
      rfl
  | updateEvidenceStatus id newStatus =>
    rcases UpdateEvidenceStatus_cases ctx l.stub id newStatus with ⟨err, h⟩ | ⟨e, b, hr, _, _, hm, h⟩
    · exact Or.inl ⟨err, invoke_error _ _ _ (by simp only [Call.apply, h])⟩
    · right; left
      refine ⟨id, b, Write.updated id newStatus e b hr hm, ?_⟩
      have := invoke_ok ctx l (Call.apply (.updateEvidenceStatus id newStatus)) h
      rw [Call.run, this]
      rfl
  | transferCustody evidenceId newOfficer reason =>
    rcases TransferCustody_cases ctx l.stub evidenceId newOfficer reason with
      ⟨err, h⟩ | ⟨err, _, _, _, _, _, _, _, _, h⟩ | ⟨e, key, tj, ej, hr, hk, hmt, hme, _, _, _, h⟩
    · exact Or.inl ⟨err, invoke_error _ _ _ (by simp only [Call.apply, h])⟩
    · exact Or.inl ⟨err, invoke_error _ _ _ (by simp only [Call.apply, h])⟩
    · right; right
      have hne : key ≠ evidenceId := transferKey_ne_id hk
      refine ⟨key, tj, evidenceId, ej,
        Write.transfer evidenceId newOfficer reason e key tj hr hk hmt,
        Write.transferred evidenceId newOfficer reason e ej ?_ hme, ?_⟩
      · rw [← hr]
        apply ReadEvidence_world
        exact WorldState.get_put_other _ _ _ _ (Ne.symm hne)
      · have := invoke_ok ctx l
          (Call.apply (.transferCustody evidenceId newOfficer reason)) h
        rw [Call.run, this, Ledger.stub_put_put_writes l tj ej hne]
        rfl

/-- Every invocation leaves a ledger that its committed writes lead to. -/
theorem Call.run_writes {P : Call → Prop} (ctx : TransactionContext) (c : Call) (l : Ledger)
    (hc : P c) : WritesBy P l (c.run ctx l).2 := by
  rcases Call.run_cases ctx l c with ⟨err, h⟩ | ⟨key, b, hw, h⟩ | ⟨k1, b1, k2, b2, hw1, hw2, h⟩
  · rw [h]
    exact WritesBy.refl l
  · rw [h]
    exact WritesBy.put ctx c key b (WritesBy.refl l) hc hw
  · rw [h]
    exact WritesBy.put ctx c k2 b2 (WritesBy.put ctx c k1 b1 (WritesBy.refl l) hc hw1) hc hw2

/-- An invocation that returns an error leaves the ledger as it was. -/
theorem invoke_error_ledger {α : Type} {ctx : TransactionContext} {l l1 : Ledger}
    {f : TransactionContext → Stub → Except Error α × Stub} {err : Error}
    (h : invoke ctx l f = (.error err, l1)) : l1 = l ∧ (f ctx l.stub).1 = .error err := by
  unfold invoke at h
  split at h
  · simp only [Prod.mk.injEq] at h
    cases h.1
  · rename_i err2 stub heq
    simp only [Prod.mk.injEq, Except.error.injEq] at h
    rw [heq]
    exact ⟨h.2.symm, by rw [h.1]⟩

theorem invoke_ok_stub {α : Type} {ctx : TransactionContext} {l l1 : Ledger}
    {f : TransactionContext → Stub → Except Error α × Stub} {a : α}
    (h : invoke ctx l f = (.ok a, l1)) :
    ∃ stub, f ctx l.stub = (.ok a, stub) ∧ l1 = l.commit ctx.txID stub.writes := by
  unfold invoke at h
  split at h
  · rename_i a2 stub heq
    simp only [Prod.mk.injEq, Except.ok.injEq] at h
    exact ⟨stub, by rw [heq, h.1], h.2.symm⟩
  · simp only [Prod.mk.injEq] at h
    cases h.1

/-- A successful invocation of `TransferCustody` has read the evidence, built the
key and committed the transfer record and then the updated evidence record. -/
theorem TransferCustody_run_ok {ctx : TransactionContext} {l l2 : Ledger}
    {evidenceId newOfficer reason : String}
    (h : Call.run ctx l (.transferCustody evidenceId newOfficer reason) = (.ok (), l2)) :
    ∃ e key tj ej, (ReadEvidence ctx l.stub evidenceId).1 = .ok e ∧
      CreateCompositeKey "custody_transfer" [evidenceId, formatInt (ctx.now 1).Unix] = .ok key ∧
      jsonMarshalTransfer (transferRecord ctx e evidenceId newOfficer reason) = .ok tj ∧
      jsonMarshalEvidence (transferredEvidence ctx e newOfficer) = .ok ej ∧
      l2 = (l.put ctx.txID key tj).put ctx.txID evidenceId ej := by
  obtain ⟨stub, hf, hl2⟩ := invoke_ok_stub h
  simp only [Call.apply] at hf
  rcases TransferCustody_cases ctx l.stub evidenceId newOfficer reason with
    ⟨err, h1⟩ | ⟨err, _, _, _, _, _, _, _, _, h1⟩ | ⟨e, key, tj, ej, hr, hk, hmt, hme, _, _, _, h1⟩
  · rw [h1] at hf
    simp only [Prod.mk.injEq] at hf
    cases hf.1
  · rw [h1] at hf
    simp only [Prod.mk.injEq] at hf
    cases hf.1
  · rw [h1] at hf
    simp only [Prod.mk.injEq, true_and] at hf
    refine ⟨e, key, tj, ej, hr, hk, hmt, hme, ?_⟩
    rw [hl2, ← hf, Ledger.stub_put_put_writes l tj ej (transferKey_ne_id hk)]
    rfl

theorem UpdateEvidenceStatus_run_ok {ctx : TransactionContext} {l l1 : Ledger}
    {id newStatus : String}
    (h : Call.run ctx l (.updateEvidenceStatus id newStatus) = (.ok (), l1)) :
    ∃ e b, (ReadEvidence ctx l.stub id).1 = .ok e ∧
      jsonMarshalEvidence (updatedEvidence ctx e newStatus) = .ok b ∧
      l1 = l.put ctx.txID id b := by
  obtain ⟨stub, hf, hl1⟩ := invoke_ok_stub h
  simp only [Call.apply] at hf
  rcases UpdateEvidenceStatus_cases ctx l.stub id newStatus with ⟨err, h1⟩ | ⟨e, b, hr, _, _, hm, h1⟩
  · rw [h1] at hf
    simp only [Prod.mk.injEq] at hf
    cases hf.1
  · rw [h1] at hf
    simp only [Prod.mk.injEq, true_and] at hf
    refine ⟨e, b, hr, hm, ?_⟩
    rw [hl1, ← hf]
    rfl

theorem CreateEvidence_run_ok {ctx : TransactionContext} {l l1 : Ledger}
    {id caseId filename ipfsCid fileHash custodyOfficer accessLevel : String}
    (h : Call.run ctx l
      (.createEvidence id caseId filename ipfsCid fileHash custodyOfficer accessLevel) =
      (.ok (), l1)) :
    ∃ b, l.world.get id = none ∧
      jsonMarshalEvidence (createdEvidence ctx id caseId filename ipfsCid fileHash custodyOfficer
        accessLevel) = .ok b ∧
      l1 = l.put ctx.txID id b := by
  obtain ⟨stub, hf, hl1⟩ := invoke_ok_stub h
  simp only [Call.apply] at hf
  rcases CreateEvidence_cases ctx l.stub id caseId filename ipfsCid fileHash custodyOfficer
    accessLevel with ⟨err, h1⟩ | ⟨b, _, hg, _, _, hm, h1⟩
  · rw [h1] at hf
    simp only [Prod.mk.injEq] at hf
    cases hf.1
  · rw [h1] at hf
    simp only [Prod.mk.injEq, true_and] at hf
    refine ⟨b, hg, hm, ?_⟩
    rw [hl1, ← hf]
    rfl

theorem WritesBy.trans {P : Call → Prop} {a b c : Ledger} (h1 : WritesBy P a b)
    (h2 : WritesBy P b c) : WritesBy P a c := by
  induction h2 with
  | refl => exact h1
  | put ctx call key v _ hc hw ih => exact WritesBy.put ctx call key v ih hc hw

theorem writes_of_reachable {P : Call → Prop} {l : Ledger} (h : ReachableBy P l) :
    WritesBy P Ledger.empty l := by
  induction h with
  | empty => exact WritesBy.refl _
  | step ctx c hc _ ih => exact ih.trans (Call.run_writes ctx c _ hc)

theorem ReachableBy.mono {P Q : Call → Prop} (hPQ : ∀ c, P c → Q c) {l : Ledger}
    (h : ReachableBy P l) : ReachableBy Q l := by
  induction h with
  | empty => exact ReachableBy.empty
  | step ctx c hc _ ih => exact ReachableBy.step ctx c (hPQ c hc) ih

/-! ## Length of the hash -/

theorem SHA256.round_length (v : List Nat) (kw : Nat × Nat) : (SHA256.round v kw).length = 8 := by
  simp [SHA256.round]

theorem SHA256.foldl_round_length (xs : List (Nat × Nat)) (st : List Nat) (h : st.length = 8) :
    (xs.foldl SHA256.round st).length = 8 := by
  induction xs generalizing st with
  | nil => simpa using h
  | cons x rest ih => exact ih _ (SHA256.round_length st x)

theorem SHA256.compress_length (st block : List Nat) (h : st.length = 8) :
    (SHA256.compress st block).length = 8 := by
  simp [SHA256.compress, List.length_zipWith, h, SHA256.foldl_round_length _ _ h]

theorem SHA256.blocks_length (n : Nat) (st bs : List Nat) (h : st.length = 8) :
    (SHA256.blocks n st bs).length = 8 := by
  induction n generalizing st bs with
  | zero => simpa [SHA256.blocks] using h
  | succ n ih => exact ih _ _ (SHA256.compress_length _ _ h)

theorem SHA256.beBytes_length (n x : Nat) : (SHA256.beBytes n x).length = n := by
  induction n generalizing x with
  | zero => rfl
  | succ n ih => simp [SHA256.beBytes, ih]

theorem flatMap_length_const {α β : Type} (f : α → List β) (c : Nat) (xs : List α)
    (h : ∀ x, (f x).length = c) : (xs.flatMap f).length = c * xs.length := by
  induction xs with
  | nil => simp
  | cons x rest ih =>
    simp only [List.flatMap_cons, List.length_append, h, ih, List.length_cons]
    rw [Nat.mul_succ, Nat.add_comm]

theorem SHA256.Sum256_length (msg : List Nat) : (SHA256.Sum256 msg).length = 32 := by
  unfold SHA256.Sum256
  simp only
  have h0 : SHA256.H0.length = 8 := rfl
  rw [flatMap_length_const _ 4 _ (SHA256.beBytes_length 4), SHA256.blocks_length _ _ _ h0]

/-- The hash text has 64 characters, two per byte of the SHA-256 sum. -/
theorem calculateBlockchainHash_length (e : Evidence) :
    (calculateBlockchainHash e).length = 64 := by
  unfold calculateBlockchainHash hexString
  simp only [String.length]
  have h2 : ∀ b : Nat, [hexChar (b / 16 % 16), hexChar (b % 16)].length = 2 := fun _ => rfl
  rw [flatMap_length_const _ 2 _ h2, SHA256.Sum256_length]

theorem calculateBlockchainHash_ne_empty (e : Evidence) : calculateBlockchainHash e ≠ "" := by
  intro h
  have := calculateBlockchainHash_length e
  rw [h] at this
  cases this

/-! ## The hash text is ASCII -/

theorem hexChar_ascii : ∀ d, d < 16 → (hexChar d).toNat < 0x80 := by decide

theorem hexString_ascii (bytes : List Nat) : ∀ c ∈ (hexString bytes).data, c.toNat < 0x80 := by
  intro c hc
  simp only [hexString, List.mem_flatMap, List.mem_cons, List.mem_singleton, List.not_mem_nil,
    or_false] at hc
  obtain ⟨b, _, h | h⟩ := hc
  · rw [h]
    exact hexChar_ascii _ (Nat.mod_lt _ (by decide))
  · rw [h]
    exact hexChar_ascii _ (Nat.mod_lt _ (by decide))

theorem calculateBlockchainHash_utf8Valid (e : Evidence) :
    utf8Valid (calculateBlockchainHash e) = true :=
  utf8Valid_of_ascii (hexString_ascii _)

theorem toValidUTF8_calculateBlockchainHash (e : Evidence) :
    toValidUTF8 (calculateBlockchainHash e) = calculateBlockchainHash e :=
  toValidUTF8_of_valid (calculateBlockchainHash_utf8Valid e)

/-! ## The invariant behind C2 -/

theorem Ledger.put_world (l : Ledger) (txID key : String) (b : Bytes) :
    (l.put txID key b).world = l.world.put key b := rfl

theorem Ledger.put_history (l : Ledger) (txID key : String) (b : Bytes) :
    (l.put txID key b).history = l.history ++ [{ Key := key, TxId := txID, Value := b }] := rfl

theorem Ledger.stub_ledger (l : Ledger) : l.stub.ledger = l := rfl

theorem WellHashed.put_composite {l : Ledger} (hl : WellHashed l) (txID key : String) (b : Bytes)
    (hk : isCompositeKey key) : WellHashed (l.put txID key b) := by
  intro key2 b2 hg hnc
  have hne : key2 ≠ key := fun h => hnc (h ▸ hk)
  rw [Ledger.put_world, WorldState.get_put_other _ _ _ _ hne] at hg
  exact hl key2 b2 hg hnc

theorem WellHashed.put_evidence {l : Ledger} (hl : WellHashed l) (txID key : String) (b : Bytes)
    (e : Evidence) (hm : jsonMarshalEvidence e = .ok b) (hp : e.Timestamp.Plain)
    (hid : ¬ isCompositeKey key → e.ID = key ∧ e.digestValid)
    (hh : e.BlockchainHash = calculateBlockchainHash e) :
    WellHashed (l.put txID key b) := by
  intro key2 b2 hg hnc
  by_cases hne : key2 = key
  · subst hne
    rw [Ledger.put_world, WorldState.get_put_same] at hg
    cases hg
    exact ⟨e, hm, hp, (hid hnc).1, (hid hnc).2, hh⟩
  · rw [Ledger.put_world, WorldState.get_put_other _ _ _ _ hne] at hg
    exact hl key2 b2 hg hnc

/-- A record read under a key outside the composite-key namespace carries the key
as its id, valid UTF-8 in its strings, and the hash of itself. -/
theorem WellHashed.read {ctx : TransactionContext} {stub : Stub} (hl : WellHashed stub.ledger)
    {id : String} {e : Evidence} (hr : (ReadEvidence ctx stub id).1 = .ok e)
    (hnc : ¬ isCompositeKey id) :
    e.ID = id ∧ e.utf8Valid ∧ e.BlockchainHash = calculateBlockchainHash e := by
  obtain ⟨_, b, hg, hu⟩ := ReadEvidence_ok hr
  obtain ⟨e0, hm, hp, hid, hv, hh⟩ := hl id b hg hnc
  obtain ⟨he, hvalid⟩ := utf8Valid_of_unmarshal_marshal hp hm hu
  subst he
  refine ⟨?_, hvalid, ?_⟩
  · show toValidUTF8 e0.ID = id
    rw [toValidUTF8_of_valid hv.1, hid]
  · rw [calculateBlockchainHash_toValidUTF8 hv]
    show toValidUTF8 e0.BlockchainHash = _
    rw [hh, toValidUTF8_calculateBlockchainHash]

theorem WellHashed.empty : WellHashed Ledger.empty := by
  intro key b hg
  simp [Ledger.empty, WorldState.get] at hg

theorem WellHashed.write {ctx : TransactionContext} {l : Ledger} {c : Call} {key : String}
    {b : Bytes} (hl : WellHashed l) (hc : c.digestArgsValid) (hw : Write ctx l c key b) :
    WellHashed (l.put ctx.txID key b) := by
  cases hw with
  | initial b hm =>
    exact hl.put_evidence _ _ b (initialEvidence ctx) hm (ctx.nowPlain 0)
      (fun _ => ⟨rfl, rfl, rfl, rfl, rfl, rfl⟩)
      (calculateBlockchainHash_congr rfl rfl rfl rfl rfl rfl)
  | created id caseId filename ipfsCid fileHash custodyOfficer accessLevel b hg hm =>
    exact hl.put_evidence _ _ b _ hm (ctx.nowPlain 0) (fun _ => ⟨rfl, hc⟩)
      (calculateBlockchainHash_congr rfl rfl rfl rfl rfl rfl)
  | updated id newStatus e b hr hm =>
    refine hl.put_evidence _ _ b _ hm (ctx.nowPlain 0) (fun hnc => ?_)
      (calculateBlockchainHash_congr rfl rfl rfl rfl rfl rfl)
    obtain ⟨hid, hv, _⟩ := @WellHashed.read ctx l.stub hl _ _ hr hnc
    exact ⟨hid, hv.1, hv.2.1, hv.2.2.2.1, hv.2.2.2.2.1, hv.2.2.2.2.2.2.1⟩
  | transfer id newOfficer reason e key b hr hk hm =>
    exact hl.put_composite _ _ b (transferKey_head hk)
  | transferred id newOfficer reason e b hr hm =>
    refine hl.put_evidence _ _ b _ hm (transferredEvidence_plain ctx e newOfficer)
      (fun hnc => ?_) (calculateBlockchainHash_congr rfl rfl rfl rfl rfl rfl)
    obtain ⟨hid, hv, _⟩ := @WellHashed.read ctx l.stub hl _ _ hr hnc
    exact ⟨hid, hv.1, hv.2.1, hv.2.2.2.1, hv.2.2.2.2.1, hc⟩

theorem WellHashed.of_writes {l l1 : Ledger} (hl : WellHashed l)
    (h : WritesBy Call.digestArgsValid l l1) : WellHashed l1 := by
  induction h with
  | refl => exact hl
  | put ctx c key b _ hc hw ih => exact ih.write hc hw

theorem WellHashed.of_reachable {l : Ledger} (h : ReachableBy Call.digestArgsValid l) :
    WellHashed l :=
  WellHashed.empty.of_writes (writes_of_reachable h)

/-! ## Length of the timestamp text -/

theorem fixedDigits_length (w n : Nat) : (fixedDigits w n).length = w := by
  induction w generalizing n with
  | zero => rfl
  | succ w ih => simp [fixedDigits, ih]

theorem decimal_length_le (w n : Nat) (hw : 1 ≤ w) (h : n < 10 ^ w) :
    (decimal n).length ≤ w := by
  by_cases h0 : n = 0
  · subst h0
    exact hw
  · have hk1 : 10 ^ Nat.log 10 n ≤ n := Nat.pow_log_le_self 10 h0
    have hk2 : n < 10 ^ (Nat.log 10 n + 1) := Nat.lt_pow_succ_log_self (by decide) n
    rw [decimal_eq (Nat.log 10 n) n hk1 hk2, fixedDigits_length]
    have : 10 ^ Nat.log 10 n < 10 ^ w := Nat.lt_of_le_of_lt hk1 h
    have := (Nat.pow_lt_pow_iff_right (by decide : 1 < 10)).mp this
    omega

theorem appendInt_length (x : Int) (w : Nat) (hw : 1 ≤ w) (h0 : 0 ≤ x) (h1 : x < (10 : Int) ^ w) :
    (appendInt x w).length = w := by
  obtain ⟨n, rfl⟩ : ∃ n : Nat, x = n := ⟨x.toNat, by omega⟩
  have hn : n < 10 ^ w := by exact_mod_cast h1
  have hlen := decimal_length_le w n hw hn
  have hneg : ¬ ((n : Int) < 0) := by omega
  simp only [appendInt, Int.natAbs_ofNat, hneg, if_false, List.length_append,
    List.length_replicate]
  omega

theorem civil_month_day (days : Int) :
    1 ≤ (Time.civil days).2.1 ∧ (Time.civil days).2.1 ≤ 12 ∧
    1 ≤ (Time.civil days).2.2 ∧ (Time.civil days).2.2 ≤ 31 := by
  simp only [Time.civil]
  refine ⟨?_, ?_, ?_, ?_⟩
  · split <;> omega
  · split <;> omega
  · omega
  · omega

theorem dateClock_length (t : Time) (h0 : 0 ≤ t.Year) (h1 : t.Year ≤ 9999) :
    (Time.dateClock t).length = 19 := by
  obtain ⟨hm1, hm2, hd1, hd2⟩ := civil_month_day ((t.sec + t.offset) / 86400)
  have hy := appendInt_length (Time.civil ((t.sec + t.offset) / 86400)).1 4 (by decide) h0
    (by unfold Time.Year at h1; omega)
  have hmo := appendInt_length (Time.civil ((t.sec + t.offset) / 86400)).2.1 2 (by decide)
    (by omega) (by omega)
  have hda := appendInt_length (Time.civil ((t.sec + t.offset) / 86400)).2.2 2 (by decide)
    (by omega) (by omega)
  have hh := appendInt_length ((t.sec + t.offset) % 86400 / 3600) 2 (by decide) (by omega)
    (by omega)
  have hmi := appendInt_length ((t.sec + t.offset) % 86400 % 3600 / 60) 2 (by decide)
    (by omega) (by omega)
  have hs := appendInt_length ((t.sec + t.offset) % 86400 % 60) 2 (by decide) (by omega)
    (by omega)
  simp only [Time.dateClock, List.length_append, List.length_cons, hy, hmo, hda, hh, hmi, hs]

theorem zoneText_length_zero (t : Time) (h : t.offset = 0) : (Time.zoneText t).length = 1 := by
  simp only [Time.zoneText, h, if_true, List.length_cons, List.length_nil]

theorem zoneText_length_nonzero (t : Time) (h : t.offset ≠ 0) (hlt : t.offset.natAbs < 360000) :
    (Time.zoneText t).length = 6 := by
  have hh := appendInt_length ((t.offset.natAbs / 60 / 60 : Nat) : Int) 2 (by decide) (by omega)
    (by omega)
  have hm := appendInt_length ((t.offset.natAbs / 60 % 60 : Nat) : Int) 2 (by decide) (by omega)
    (by omega)
  simp only [Time.zoneText, h, if_false, List.length_cons, List.length_append]
  rw [show ((t.offset.natAbs / 60 : Nat) : Int) / 60 = ((t.offset.natAbs / 60 / 60 : Nat) : Int)
    from by omega,
    show ((t.offset.natAbs / 60 : Nat) : Int) % 60 = ((t.offset.natAbs / 60 % 60 : Nat) : Int)
    from by omega, hh, hm]

/-- Plain times with the same zone offset have timestamp texts of the same length. -/
theorem formatRFC3339_length_eq {t u : Time} (ht : t.Plain) (hu : u.Plain)
    (h : t.offset = u.offset) : t.formatRFC3339.length = u.formatRFC3339.length := by
  obtain ⟨t0, t1, _, t3⟩ := ht
  obtain ⟨u0, u1, _, u3⟩ := hu
  simp only [Time.formatRFC3339, String.length, List.length_append, dateClock_length t t0 t1,
    dateClock_length u u0 u1]
  by_cases hz : t.offset = 0
  · rw [zoneText_length_zero t hz, zoneText_length_zero u (h ▸ hz)]
  · rw [zoneText_length_nonzero t hz (by omega),
      zoneText_length_nonzero u (h ▸ hz) (by omega)]

/-! ## Decoded records hold valid UTF-8 -/

theorem appendInt_ascii (x : Int) (w : Nat) : ∀ c ∈ appendInt x w, c.toNat < 0x80 := by
  intro c hc
  have hd : ∀ d ∈ List.replicate (w - (decimal x.natAbs).length) '0' ++ decimal x.natAbs,
      d.toNat < 0x80 := by
    intro d hd
    rcases List.mem_append.mp hd with h | h
    · rw [(List.mem_replicate.mp h).2]
      decide
    · have := decimal_digits _ d h
      omega
  simp only [appendInt] at hc
  split at hc
  · rcases List.mem_cons.mp hc with h | h
    · rw [h]
      decide
    · exact hd c h
  · exact hd c hc

theorem ascii_append {a b : List Char} (ha : ∀ c ∈ a, c.toNat < 0x80)
    (hb : ∀ c ∈ b, c.toNat < 0x80) : ∀ c ∈ a ++ b, c.toNat < 0x80 := by
  intro c hc
  rcases List.mem_append.mp hc with h | h
  · exact ha c h
  · exact hb c h

theorem ascii_cons {a : Char} {b : List Char} (ha : a.toNat < 0x80)
    (hb : ∀ c ∈ b, c.toNat < 0x80) : ∀ c ∈ a :: b, c.toNat < 0x80 := by
  intro c hc
  rcases List.mem_cons.mp hc with h | h
  · rw [h]
    exact ha
  · exact hb c h

theorem dateClock_ascii (t : Time) : ∀ c ∈ Time.dateClock t, c.toNat < 0x80 := by
  unfold Time.dateClock
  exact ascii_append (ascii_append (ascii_append (ascii_append (ascii_append
    (appendInt_ascii _ _)
    (ascii_cons (by decide) (appendInt_ascii _ _)))
    (ascii_cons (by decide) (appendInt_ascii _ _)))
    (ascii_cons (by decide) (appendInt_ascii _ _)))
    (ascii_cons (by decide) (appendInt_ascii _ _)))
    (ascii_cons (by decide) (appendInt_ascii _ _))

theorem zoneText_ascii (t : Time) : ∀ c ∈ Time.zoneText t, c.toNat < 0x80 := by
  unfold Time.zoneText
  split
  · exact ascii_cons (by decide) (fun _ h => by cases h)
  · exact ascii_cons (by split <;> decide)
      (ascii_append (appendInt_ascii _ _) (ascii_cons (by decide) (appendInt_ascii _ _)))

theorem fracText_ascii (t : Time) : ∀ c ∈ Time.fracText t, c.toNat < 0x80 := by
  intro c hc
  simp only [Time.fracText] at hc
  split at hc
  · cases hc
  · rcases List.mem_cons.mp hc with h | h
    · rw [h]; decide
    · have h1 := List.mem_reverse.mp h
      have h2 := (List.dropWhile_sublist _).subset h1
      exact appendInt_ascii _ _ c (List.mem_reverse.mp h2)

theorem formatRFC3339Nano_utf8Valid (t : Time) : utf8Valid t.formatRFC3339Nano = true := by
  apply utf8Valid_of_ascii
  intro c hc
  simp only [Time.formatRFC3339Nano, List.mem_append] at hc
  rcases hc with (h | h) | h
  · exact dateClock_ascii t c h
  · exact fracText_ascii t c h
  · exact zoneText_ascii t c h

theorem decodeString_utf8Valid {v : JSONValue} {old s : String}
    (h : decodeString v old = .ok s) (hold : utf8Valid old = true) : utf8Valid s = true := by
  cases v with
  | string x =>
    simp only [decodeString, Except.ok.injEq] at h
    rw [← h]
    exact utf8Valid_toValidUTF8 x
  | time t =>
    simp only [decodeString, Except.ok.injEq] at h
    rw [← h]
    exact formatRFC3339Nano_utf8Valid t
  | null =>
    simp only [decodeString, Except.ok.injEq] at h
    rw [← h]
    exact hold
  | other text => simp [decodeString] at h

theorem map_ok_inv {α β : Type} {f : α → β} {x : Except Error α} {y : β}
    (h : x.map f = .ok y) : ∃ a, x = .ok a ∧ y = f a := by
  cases x with
  | error err => cases h
  | ok a =>
    refine ⟨a, rfl, ?_⟩
    have : Except.ok (f a) = (Except.ok y : Except Error β) := h
    injection this with h2
    exact h2.symm

/-- What the assignment of one member does to a record: nothing, a new timestamp,
or a decoded string in one of the nine string fields. -/
theorem Evidence.setMember_cases {e e1 : Evidence} {key : String} {v : JSONValue}
    (h : e.setMember key v = .ok e1) :
    e1 = e ∨ (∃ t, e1 = { e with Timestamp := t }) ∨
    ∃ s old, decodeString v old = .ok s ∧
      ((old = e.ID ∧ e1 = { e with ID := s }) ∨ (old = e.CaseID ∧ e1 = { e with CaseID := s }) ∨
       (old = e.Filename ∧ e1 = { e with Filename := s }) ∨
       (old = e.IPFSCid ∧ e1 = { e with IPFSCid := s }) ∨
       (old = e.FileHash ∧ e1 = { e with FileHash := s }) ∨
       (old = e.BlockchainHash ∧ e1 = { e with BlockchainHash := s }) ∨
       (old = e.CustodyOfficer ∧ e1 = { e with CustodyOfficer := s }) ∨
       (old = e.Status ∧ e1 = { e with Status := s }) ∨
       (old = e.AccessLevel ∧ e1 = { e with AccessLevel := s })) := by
  unfold Evidence.setMember at h
  split at h
  · obtain ⟨s, hs, he⟩ := map_ok_inv h
    exact Or.inr (Or.inr ⟨s, _, hs, Or.inl ⟨rfl, he⟩⟩)
  split at h
  · obtain ⟨s, hs, he⟩ := map_ok_inv h
    exact Or.inr (Or.inr ⟨s, _, hs, Or.inr (Or.inl ⟨rfl, he⟩)⟩)
  split at h
  · obtain ⟨s, hs, he⟩ := map_ok_inv h
    exact Or.inr (Or.inr ⟨s, _, hs, Or.inr (Or.inr (Or.inl ⟨rfl, he⟩))⟩)
  split at h
  · obtain ⟨s, hs, he⟩ := map_ok_inv h
    exact Or.inr (Or.inr ⟨s, _, hs, Or.inr (Or.inr (Or.inr (Or.inl ⟨rfl, he⟩)))⟩)
  split at h
  · obtain ⟨s, hs, he⟩ := map_ok_inv h
    exact Or.inr (Or.inr ⟨s, _, hs, Or.inr (Or.inr (Or.inr (Or.inr (Or.inl ⟨rfl, he⟩))))⟩)
  split at h
  · obtain ⟨s, hs, he⟩ := map_ok_inv h
    exact Or.inr (Or.inr ⟨s, _, hs,
      Or.inr (Or.inr (Or.inr (Or.inr (Or.inr (Or.inl ⟨rfl, he⟩)))))⟩)
  split at h
  · obtain ⟨s, hs, he⟩ := map_ok_inv h
    exact Or.inr (Or.inr ⟨s, _, hs,
      Or.inr (Or.inr (Or.inr (Or.inr (Or.inr (Or.inr (Or.inl ⟨rfl, he⟩))))))⟩)
  split at h
  · obtain ⟨t, _, he⟩ := map_ok_inv h
    exact Or.inr (Or.inl ⟨t, he⟩)
  split at h
  · obtain ⟨s, hs, he⟩ := map_ok_inv h
    exact Or.inr (Or.inr ⟨s, _, hs,
      Or.inr (Or.inr (Or.inr (Or.inr (Or.inr (Or.inr (Or.inr (Or.inl ⟨rfl, he⟩)))))))⟩)
  split at h
  · obtain ⟨s, hs, he⟩ := map_ok_inv h
    exact Or.inr (Or.inr ⟨s, _, hs,
      Or.inr (Or.inr (Or.inr (Or.inr (Or.inr (Or.inr (Or.inr (Or.inr ⟨rfl, he⟩)))))))⟩)
  · simp only [Except.ok.injEq] at h
    exact Or.inl h.symm

theorem Evidence.setMember_utf8Valid {e e1 : Evidence} {key : String} {v : JSONValue}
    (h : e.setMember key v = .ok e1) (he : e.utf8Valid) : e1.utf8Valid := by
  obtain ⟨h1, h2, h3, h4, h5, h6, h7, h8, h9⟩ := he
  rcases Evidence.setMember_cases h with h | ⟨t, h⟩ | ⟨s, old, hd, h⟩
  · rw [h]
    exact ⟨h1, h2, h3, h4, h5, h6, h7, h8, h9⟩
  · rw [h]
    exact ⟨h1, h2, h3, h4, h5, h6, h7, h8, h9⟩
  · rcases h with ⟨ho, h⟩ | ⟨ho, h⟩ | ⟨ho, h⟩ | ⟨ho, h⟩ | ⟨ho, h⟩ | ⟨ho, h⟩ | ⟨ho, h⟩ |
      ⟨ho, h⟩ | ⟨ho, h⟩ <;> subst ho <;> rw [h]
    · exact ⟨decodeString_utf8Valid hd h1, h2, h3, h4, h5, h6, h7, h8, h9⟩
    · exact ⟨h1, decodeString_utf8Valid hd h2, h3, h4, h5, h6, h7, h8, h9⟩
    · exact ⟨h1, h2, decodeString_utf8Valid hd h3, h4, h5, h6, h7, h8, h9⟩
    · exact ⟨h1, h2, h3, decodeString_utf8Valid hd h4, h5, h6, h7, h8, h9⟩
    · exact ⟨h1, h2, h3, h4, decodeString_utf8Valid hd h5, h6, h7, h8, h9⟩
    · exact ⟨h1, h2, h3, h4, h5, decodeString_utf8Valid hd h6, h7, h8, h9⟩
    · exact ⟨h1, h2, h3, h4, h5, h6, decodeString_utf8Valid hd h7, h8, h9⟩
    · exact ⟨h1, h2, h3, h4, h5, h6, h7, decodeString_utf8Valid hd h8, h9⟩
    · exact ⟨h1, h2, h3, h4, h5, h6, h7, h8, decodeString_utf8Valid hd h9⟩

theorem Evidence.setMembers_utf8Valid (members : List (String × JSONValue)) :
    ∀ {e e1 : Evidence}, Evidence.setMembers members e = .ok e1 → e.utf8Valid →
      e1.utf8Valid := by
  induction members with
  | nil =>
    intro e e1 h he
    simp only [Evidence.setMembers, Except.ok.injEq] at h
    rw [← h]
    exact he
  | cons m rest ih =>
    intro e e1 h he
    obtain ⟨key, v⟩ := m
    simp only [Evidence.setMembers] at h
    split at h
    · cases h
    · rename_i e2 h2
      exact ih h (Evidence.setMember_utf8Valid h2 he)

/-- Every record that `json.Unmarshal` returns holds valid UTF-8 in its strings. -/
theorem jsonUnmarshalEvidence_utf8Valid {b : Bytes} {e : Evidence}
    (h : jsonUnmarshalEvidence b = .ok e) : e.utf8Valid := by
  cases b with
  | raw text => simp [jsonUnmarshalEvidence] at h
  | object members =>
    exact Evidence.setMembers_utf8Valid members h (by decide)

theorem ReadEvidence_utf8Valid {ctx : TransactionContext} {stub : Stub} {id : String}
    {e : Evidence} (h : (ReadEvidence ctx stub id).1 = .ok e) : e.utf8Valid := by
  obtain ⟨_, b, _, hu⟩ := ReadEvidence_ok h
  exact jsonUnmarshalEvidence_utf8Valid hu

theorem toValidUTF8_ACTIVE : toValidUTF8 "ACTIVE" = "ACTIVE" := by decide

/-! ## C1: uniqueness of identifiers -/

/-- C1. When the committed world state already holds a value under `id`,
`CreateEvidence` with that id and any other six arguments fails and leaves the
stub as it was, with nothing added to the write set; the invocation returns the
same error and the ledger afterwards is the ledger before (world state and
history identical, so the existing value is untouched and no key is written); the
error is the already-exists error whenever the read of the key itself succeeds. -/
theorem createEvidence_existing_id (ctx : TransactionContext) (stub : Stub)
    (id caseId filename ipfsCid fileHash custodyOfficer accessLevel : String) (v : Bytes)
    (hv : stub.ledger.world.get id = some v) :
    (CreateEvidence ctx stub id caseId filename ipfsCid fileHash custodyOfficer accessLevel).2 =
      stub ∧
    (∃ err, (CreateEvidence ctx stub id caseId filename ipfsCid fileHash custodyOfficer
      accessLevel).1 = .error err) ∧
    (ctx.getStateErr id = none →
      (CreateEvidence ctx stub id caseId filename ipfsCid fileHash custodyOfficer accessLevel).1 =
        .error ("evidence " ++ id ++ " already exists")) ∧
    (Call.run ctx stub.ledger
      (.createEvidence id caseId filename ipfsCid fileHash custodyOfficer accessLevel)).2 =
      stub.ledger ∧
    (∃ err, (Call.run ctx stub.ledger
      (.createEvidence id caseId filename ipfsCid fileHash custodyOfficer accessLevel)).1 =
      .error err) := by
  have key : ∀ s : Stub, s.ledger.world.get id = some v →
      (CreateEvidence ctx s id caseId filename ipfsCid fileHash custodyOfficer accessLevel).2 =
        s ∧
      (∃ err, (CreateEvidence ctx s id caseId filename ipfsCid fileHash custodyOfficer
        accessLevel).1 = .error err) ∧
      (ctx.getStateErr id = none →
        (CreateEvidence ctx s id caseId filename ipfsCid fileHash custodyOfficer accessLevel).1 =
          .error ("evidence " ++ id ++ " already exists")) := by
    intro s hs
    rw [CreateEvidence_eq, EvidenceExists_eq]
    cases hq : ctx.getStateErr id with
    | some err => exact ⟨rfl, ⟨_, rfl⟩, fun h => by cases h⟩
    | none =>
      rw [hs]
      exact ⟨rfl, ⟨_, rfl⟩, fun _ => rfl⟩
  obtain ⟨h1, h2, h3⟩ := key stub hv
  obtain ⟨_, ⟨err, he⟩, _⟩ := key stub.ledger.stub hv
  have hrun := invoke_error ctx stub.ledger
    (Call.apply (.createEvidence id caseId filename ipfsCid fileHash custodyOfficer
      accessLevel)) he
  refine ⟨h1, h2, h3, ?_, err, ?_⟩
  · rw [Call.run, hrun]
  · rw [Call.run, hrun]

/-- C1 at a concrete input: creating `E1` a second time, with other details. -/
theorem createEvidence_existing_id_witness :
    ledgerE1.world.get "E1" ≠ none ∧
    (CreateEvidence (quietCtx "tx9" 1700000100 0) ledgerE1.stub "E1" "case2" "other.pdf"
      "QmOther" "fff000" "mallory" "PUBLIC").2 = ledgerE1.stub ∧
    (CreateEvidence (quietCtx "tx9" 1700000100 0) ledgerE1.stub "E1" "case2" "other.pdf"
      "QmOther" "fff000" "mallory" "PUBLIC").1 = .error "evidence E1 already exists" ∧
    (Call.run (quietCtx "tx9" 1700000100 0) ledgerE1
      (.createEvidence "E1" "case2" "other.pdf" "QmOther" "fff000" "mallory" "PUBLIC")).2 =
      ledgerE1 := by
  have hv : ledgerE1.stub.ledger.world.get "E1" =
      some (.object [("id", .string "E1"), ("caseId", .string "case1"),
        ("filename", .string "photo.jpg"), ("ipfsCid", .string "QmCid"),
        ("fileHash", .string "abc123"),
        ("blockchainHash", .string (toValidUTF8 (calculateBlockchainHash
          { ID := "E1", CaseID := "case1", Filename := "photo.jpg", IPFSCid := "QmCid",
            FileHash := "abc123", BlockchainHash := "", CustodyOfficer := "alice",
            Timestamp := { sec := 1700000000, nsec := 0, offset := 0 }, Status := "ACTIVE",
            AccessLevel := "RESTRICTED" }))),
        ("custodyOfficer", .string "alice"),
        ("timestamp", .time { sec := 1700000000, nsec := 0, offset := 0 }),
        ("status", .string "ACTIVE"), ("accessLevel", .string "RESTRICTED")]) := by
    rfl
  have h := createEvidence_existing_id (quietCtx "tx9" 1700000100 0) ledgerE1.stub "E1" "case2"
    "other.pdf" "QmOther" "fff000" "mallory" "PUBLIC" _ hv
  refine ⟨?_, h.1, ?_, h.2.2.2.1⟩
  · have hv2 : ledgerE1.world.get "E1" = ledgerE1.stub.ledger.world.get "E1" := rfl
    rw [hv2, hv]
    simp
  · rw [h.2.2.1 rfl]
    rfl

/-! ## C4: the hash depends on the six hashed fields only -/

/-- C4. Two evidence snapshots that agree on id, caseId, ipfsCid, fileHash,
custodyOfficer and timestamp have the same `calculateBlockchainHash`, whatever
their filename, status, accessLevel and stored blockchainHash are (the function
being pure, the same snapshot always gives the same output). -/
theorem calculateBlockchainHash_six_fields (a b : Evidence) (hid : a.ID = b.ID)
    (hcase : a.CaseID = b.CaseID) (hcid : a.IPFSCid = b.IPFSCid)
    (hfile : a.FileHash = b.FileHash) (hoff : a.CustodyOfficer = b.CustodyOfficer)
    (hts : a.Timestamp = b.Timestamp) :
    calculateBlockchainHash a = calculateBlockchainHash b :=
  calculateBlockchainHash_congr hid hcase hcid hfile hoff (by rw [hts])

/-- C4 at a concrete input: two snapshots of `E1` that differ in filename, status,
access level and stored hash. -/
theorem calculateBlockchainHash_six_fields_witness :
    calculateBlockchainHash
      { ID := "E1", CaseID := "case1", Filename := "photo.jpg", IPFSCid := "QmCid",
        FileHash := "abc123", BlockchainHash := "", CustodyOfficer := "alice",
        Timestamp := { sec := 1700000000, nsec := 0, offset := 0 }, Status := "ACTIVE",
        AccessLevel := "RESTRICTED" } =
    calculateBlockchainHash
      { ID := "E1", CaseID := "case1", Filename := "renamed.jpg", IPFSCid := "QmCid",
        FileHash := "abc123", BlockchainHash := "00ff", CustodyOfficer := "alice",
        Timestamp := { sec := 1700000000, nsec := 0, offset := 0 }, Status := "ARCHIVED",
        AccessLevel := "PUBLIC" } :=
  calculateBlockchainHash_six_fields _ _ rfl rfl rfl rfl rfl rfl

/-! ## C5: verification -/

/-- C5. When `ReadEvidence` finds the record `e` under `id`, `VerifyIntegrity(id, h)`
succeeds for every string `h`; its report has `hashMatch = true` exactly when `h`
equals the stored `fileHash`, `originalHash` is the stored `fileHash`, `currentHash`
is `h`, and `evidenceId`, `blockchainHash`, `timestamp` and `custodyOfficer` are
those of the stored record. -/
theorem verifyIntegrity_report (ctx : TransactionContext) (stub : Stub) (id h : String)
    (e : Evidence) (hread : (ReadEvidence ctx stub id).1 = .ok e) :
    ∃ r, (VerifyIntegrity ctx stub id h).1 = .ok r ∧
      (r.hashMatch = true ↔ h = e.FileHash) ∧
      r.originalHash = e.FileHash ∧ r.currentHash = h ∧ r.evidenceId = e.ID ∧
      r.blockchainHash = e.BlockchainHash ∧ r.timestamp = e.Timestamp ∧
      r.custodyOfficer = e.CustodyOfficer := by
  refine ⟨{ evidenceId := e.ID, originalHash := e.FileHash, currentHash := h,
            hashMatch := e.FileHash == h, blockchainHash := e.BlockchainHash,
            timestamp := e.Timestamp, custodyOfficer := e.CustodyOfficer,
            verifiedAt := ctx.now 0 },
    by simp only [VerifyIntegrity, ReadEvidence_pair hread], ?_, rfl, rfl, rfl, rfl, rfl, rfl⟩
  simp only [beq_iff_eq]
  exact eq_comm

/-- C5 at a concrete input: `E1` stored with file hash `abc123` matches `abc123`
and does not match `xyz999`. -/
theorem verifyIntegrity_report_witness :
    (∃ e, (ReadEvidence (quietCtx "q" 1700000200 0) ledgerE1.stub "E1").1 = .ok e ∧
      e.FileHash = "abc123") ∧
    (∃ r, (VerifyIntegrity (quietCtx "q" 1700000200 0) ledgerE1.stub "E1" "abc123").1 = .ok r ∧
      r.hashMatch = true ∧ r.originalHash = "abc123") ∧
    (∃ r, (VerifyIntegrity (quietCtx "q" 1700000200 0) ledgerE1.stub "E1" "xyz999").1 = .ok r ∧
      r.hashMatch = false ∧ r.originalHash = "abc123" ∧ r.currentHash = "xyz999") := by
  have hread : (ReadEvidence (quietCtx "q" 1700000200 0) ledgerE1.stub "E1").1 =
      .ok (createdEvidence (quietCtx "tx1" 1700000000 0) "E1" "case1" "photo.jpg" "QmCid"
        "abc123" "alice" "RESTRICTED").toValidUTF8 := by
    rfl
  refine ⟨⟨_, hread, by decide⟩, ?_, ?_⟩
  · obtain ⟨r, hr, hm, ho, _⟩ :=
      verifyIntegrity_report (quietCtx "q" 1700000200 0) ledgerE1.stub "E1" "abc123" _ hread
    exact ⟨r, hr, hm.2 (by decide), ho.trans (by decide)⟩
  · obtain ⟨r, hr, hm, ho, hc, _⟩ :=
      verifyIntegrity_report (quietCtx "q" 1700000200 0) ledgerE1.stub "E1" "xyz999" _ hread
    refine ⟨r, hr, ?_, ho.trans (by decide), hc⟩
    cases hb : r.hashMatch with
    | false => rfl
    | true => exact absurd (hm.1 hb) (by decide)

/-! ## C10: postcondition of `CreateEvidence` -/

/-- C10, counterexample. `CreateEvidence` for the absent id `E3` with the file hash
`"\xff"`, one byte that is not valid UTF-8, succeeds; the record read back has the
file hash U+FFFD, not the argument, and its blockchainHash, computed from the
argument, is not `calculateBlockchainHash` of the record read back.  With the
empty id the call fails although the id is absent and no store call fails for
another reason: the stub refuses the empty key. -/
theorem createEvidence_invalid_text_read_back :
    Ledger.empty.world.get "E3" = none ∧
    Call.run (quietCtx "tx1" 1700000000 0) Ledger.empty
      (.createEvidence "E3" "case3" "dump.bin" "QmDump" invalidText "alice" "RESTRICTED") =
      (.ok (), ledgerE3) ∧
    (ReadEvidence (quietCtx "q" 1700000200 0) ledgerE3.stub "E3").1.toOption.map
      (fun e => (e.FileHash, decide (e.BlockchainHash = calculateBlockchainHash e))) =
      some (replacementText, false) ∧
    replacementText ≠ invalidText ∧
    (Call.run (quietCtx "tx1" 1700000000 0) Ledger.empty
      (.createEvidence "" "case3" "dump.bin" "QmDump" "abc123" "alice" "RESTRICTED")).1 =
      .error "key must not be an empty string" := by
  refine ⟨rfl, ?_, by decide, by decide, by decide⟩
  apply Prod.ext
  · decide
  · rfl

/-- C10, amended. When the non-empty `id` is absent from the world state and the
stub's read and write of `id` succeed, `CreateEvidence` succeeds; its write set is
the single key `id`; the new world state is the old one with that key written
(every other key keeps its value) and the history grows by exactly one entry, for
key `id`; a following `ReadEvidence(id)` returns the record whose seven fields are
the seven arguments with every byte that is not valid UTF-8 replaced by U+FFFD,
whose status is `ACTIVE`, whose timestamp is the clock reading of the call and
whose blockchainHash is the hash computed from the arguments.  When the seven
arguments are valid UTF-8 the seven fields equal the arguments and the
blockchainHash is `calculateBlockchainHash` of the record returned. -/
theorem createEvidence_postcondition (ctx q : TransactionContext) (l : Ledger)
    (id caseId filename ipfsCid fileHash custodyOfficer accessLevel : String)
    (hid : id ≠ "") (habsent : l.world.get id = none) (hget : ctx.getStateErr id = none)
    (hput : ctx.putStateErr id = none) (hq : q.getStateErr id = none) :
    ∃ l1 e v,
      Call.run ctx l
        (.createEvidence id caseId filename ipfsCid fileHash custodyOfficer accessLevel) =
        (.ok (), l1) ∧
      (CreateEvidence ctx l.stub id caseId filename ipfsCid fileHash custodyOfficer
        accessLevel).2.writes = [(id, v)] ∧
      l1.world = l.world.put id v ∧
      l1.history = l.history ++ [{ Key := id, TxId := ctx.txID, Value := v }] ∧
      (∀ key, key ≠ id → l1.world.get key = l.world.get key) ∧
      ReadEvidence q l1.stub id = (.ok e, l1.stub) ∧
      e.ID = toValidUTF8 id ∧ e.CaseID = toValidUTF8 caseId ∧
      e.Filename = toValidUTF8 filename ∧ e.IPFSCid = toValidUTF8 ipfsCid ∧
      e.FileHash = toValidUTF8 fileHash ∧ e.CustodyOfficer = toValidUTF8 custodyOfficer ∧
      e.AccessLevel = toValidUTF8 accessLevel ∧
      e.Status = "ACTIVE" ∧ e.Timestamp = ctx.now 0 ∧
      e.BlockchainHash = calculateBlockchainHash
        (createdEvidence ctx id caseId filename ipfsCid fileHash custodyOfficer accessLevel) ∧
      (utf8Valid id = true → utf8Valid caseId = true → utf8Valid filename = true →
        utf8Valid ipfsCid = true → utf8Valid fileHash = true →
        utf8Valid custodyOfficer = true → utf8Valid accessLevel = true →
        e.ID = id ∧ e.CaseID = caseId ∧ e.Filename = filename ∧ e.IPFSCid = ipfsCid ∧
        e.FileHash = fileHash ∧ e.CustodyOfficer = custodyOfficer ∧
        e.AccessLevel = accessLevel ∧ e.BlockchainHash = calculateBlockchainHash e) := by
  rcases CreateEvidence_cases ctx l.stub id caseId filename ipfsCid fileHash custodyOfficer
    accessLevel with ⟨err, h⟩ | ⟨v, _, _, _, _, hm, h⟩
  · exfalso
    rw [CreateEvidence_eq, EvidenceExists_eq, hget] at h
    simp only [Ledger.stub_ledger, habsent, Option.isSome_none, Bool.false_eq_true,
      if_false] at h
    obtain ⟨b, hb⟩ := jsonMarshalEvidence_ok _ (createdEvidence_plain ctx id caseId filename
      ipfsCid fileHash custodyOfficer accessLevel)
    rw [hb] at h
    simp only [PutState_of_quiet l.stub b hid hput, Prod.mk.injEq] at h
    cases h.1
  · have hplain := createdEvidence_plain ctx id caseId filename ipfsCid fileHash custodyOfficer
      accessLevel
    have hrun := invoke_ok ctx l
      (Call.apply (.createEvidence id caseId filename ipfsCid fileHash custodyOfficer
        accessLevel)) h
    have hread : ReadEvidence q (l.put ctx.txID id v).stub id =
        (.ok (createdEvidence ctx id caseId filename ipfsCid fileHash custodyOfficer
          accessLevel).toValidUTF8, (l.put ctx.txID id v).stub) :=
      ReadEvidence_of_get hq (WorldState.get_put_same _ _ _)
        (jsonUnmarshalEvidence_marshal _ v hplain hm)
    refine ⟨l.put ctx.txID id v, _, v, ?_, ?_, rfl, rfl, ?_, hread, rfl, rfl, rfl, rfl, rfl,
      rfl, rfl, toValidUTF8_ACTIVE, rfl, ?_, ?_⟩
    · rw [Call.run, hrun]
      rfl
    · rw [h]
      rfl
    · intro key hne
      exact WorldState.get_put_other _ _ _ _ hne
    · exact toValidUTF8_calculateBlockchainHash _
    · intro h1 h2 h3 h4 h5 h6 h7
      refine ⟨toValidUTF8_of_valid h1, toValidUTF8_of_valid h2, toValidUTF8_of_valid h3,
        toValidUTF8_of_valid h4, toValidUTF8_of_valid h5, toValidUTF8_of_valid h6,
        toValidUTF8_of_valid h7, ?_⟩
      rw [calculateBlockchainHash_toValidUTF8 ⟨h1, h2, h4, h5, h6⟩]
      exact toValidUTF8_calculateBlockchainHash _

/-- C10, amended, at a concrete input: creating `E2` in the ledger that holds `E1`. -/
theorem createEvidence_postcondition_witness :
    ledgerE1.world.get "E2" = none ∧
    ∃ l1 e,
      Call.run (quietCtx "tx5" 1700000300 0) ledgerE1
        (.createEvidence "E2" "case1" "video.mp4" "QmVid" "def456" "bob" "PUBLIC") =
        (.ok (), l1) ∧
      ReadEvidence (quietCtx "q" 1700000400 0) l1.stub "E2" = (.ok e, l1.stub) ∧
      e.FileHash = "def456" ∧ e.Status = "ACTIVE" ∧
      e.Timestamp = { sec := 1700000300, nsec := 0, offset := 0 } ∧
      e.BlockchainHash = calculateBlockchainHash e ∧
      l1.world.get "E1" = ledgerE1.world.get "E1" := by
  have habsent : ledgerE1.world.get "E2" = none := by decide
  obtain ⟨l1, e, v, h1, _, _, _, hframe, hr, _, _, _, _, _, _, _, hs, ht, _, hv⟩ :=
    createEvidence_postcondition (quietCtx "tx5" 1700000300 0) (quietCtx "q" 1700000400 0)
      ledgerE1 "E2" "case1" "video.mp4" "QmVid" "def456" "bob" "PUBLIC" (by decide) habsent
      rfl rfl rfl
  obtain ⟨_, _, _, _, hf, _, _, hh⟩ :=
    hv (by decide) (by decide) (by decide) (by decide) (by decide) (by decide) (by decide)
  exact ⟨habsent, l1, e, h1, hr, hf, hs, ht, hh, hframe "E1" (by decide)⟩

/-! ## C3: sensitivity of the digest input -/

/-- C3, counterexample. Snapshots that differ in hashed fields can have the same
digest input, hence the same hash: moving a character from the end of the id to
the start of the case id leaves the concatenation unchanged, and so does a change
of timestamp within one second. -/
theorem digestInput_collisions :
    (snapshotAbC.ID ≠ snapshotABc.ID ∧ snapshotAbC.CaseID ≠ snapshotABc.CaseID ∧
      digestInput snapshotAbC = digestInput snapshotABc ∧
      calculateBlockchainHash snapshotAbC = calculateBlockchainHash snapshotABc) ∧
    (snapshotAbC.Timestamp ≠ snapshotLater.Timestamp ∧
      digestInput snapshotAbC = digestInput snapshotLater ∧
      calculateBlockchainHash snapshotAbC = calculateBlockchainHash snapshotLater) := by
  have h1 : digestInput snapshotAbC = digestInput snapshotABc := by decide
  have h2 : digestInput snapshotAbC = digestInput snapshotLater := by decide
  refine ⟨⟨by decide, by decide, h1, ?_⟩, by decide, h2, ?_⟩
  · simp only [calculateBlockchainHash, h1]
  · simp only [calculateBlockchainHash, h2]

/-- Snapshots whose six hashed texts have pairwise the same lengths and the same
concatenation have the same six texts. -/
theorem hashedFields_eq_of_lengths (a b : Evidence) (h : digestInput a = digestInput b)
    (_ : a.ID.length = b.ID.length) (h1 : a.CaseID.length = b.CaseID.length)
    (h2 : a.IPFSCid.length = b.IPFSCid.length) (h3 : a.FileHash.length = b.FileHash.length)
    (h4 : a.CustodyOfficer.length = b.CustodyOfficer.length)
    (h5 : a.Timestamp.formatRFC3339.length = b.Timestamp.formatRFC3339.length) :
    hashedFields a = hashedFields b := by
  have hd := congrArg String.data h
  simp only [digestInput, String.data_append] at hd
  simp only [String.length] at h1 h2 h3 h4 h5
  obtain ⟨hd, e5⟩ := List.append_inj' hd h5
  obtain ⟨hd, e4⟩ := List.append_inj' hd h4
  obtain ⟨hd, e3⟩ := List.append_inj' hd h3
  obtain ⟨hd, e2⟩ := List.append_inj' hd h2
  obtain ⟨e0, e1⟩ := List.append_inj' hd h1
  simp only [hashedFields, String.ext e0, String.ext e1, String.ext e2, String.ext e3,
    String.ext e4, String.ext e5]

/-- C3, amended. Two snapshots whose six hashed texts (id, caseId, ipfsCid,
fileHash, custodyOfficer and the RFC 3339 text of the timestamp) are not the same
six texts have different digest inputs, provided at most one of the six texts has
a different length in the two snapshots.  This is the case when the snapshots
differ in one field only, and when they agree on id, caseId, ipfsCid and fileHash
and carry plain timestamps of the same zone, as before and after a transfer of
custody, which changes custody officer and timestamp together. -/
theorem digestInput_sensitive (a b : Evidence) (hdiff : hashedFields a ≠ hashedFields b)
    (hlen : (∃ i, ∀ j, j < 6 → j ≠ i →
        ((hashedFields a).getD j "").length = ((hashedFields b).getD j "").length) ∨
      (a.ID = b.ID ∧ a.CaseID = b.CaseID ∧ a.IPFSCid = b.IPFSCid ∧ a.FileHash = b.FileHash ∧
        a.Timestamp.Plain ∧ b.Timestamp.Plain ∧ a.Timestamp.offset = b.Timestamp.offset)) :
    digestInput a ≠ digestInput b := by
  intro h
  apply hdiff
  have htotal := congrArg String.length h
  simp only [digestInput, String.length_append] at htotal
  rcases hlen with ⟨i, hi⟩ | ⟨e0, e1, e2, e3, pa, pb, hoff⟩
  · have g0 : 0 ≠ i → a.ID.length = b.ID.length := hi 0 (by decide)
    have g1 : 1 ≠ i → a.CaseID.length = b.CaseID.length := hi 1 (by decide)
    have g2 : 2 ≠ i → a.IPFSCid.length = b.IPFSCid.length := hi 2 (by decide)
    have g3 : 3 ≠ i → a.FileHash.length = b.FileHash.length := hi 3 (by decide)
    have g4 : 4 ≠ i → a.CustodyOfficer.length = b.CustodyOfficer.length := hi 4 (by decide)
    have g5 : 5 ≠ i → a.Timestamp.formatRFC3339.length = b.Timestamp.formatRFC3339.length :=
      hi 5 (by decide)
    have hcases : i = 0 ∨ i = 1 ∨ i = 2 ∨ i = 3 ∨ i = 4 ∨ i = 5 ∨ 6 ≤ i := by omega
    rcases hcases with hc | hc | hc | hc | hc | hc | hc
    · have k1 := g1 (by omega); have k2 := g2 (by omega); have k3 := g3 (by omega)
      have k4 := g4 (by omega); have k5 := g5 (by omega)
      exact hashedFields_eq_of_lengths a b h (by omega) k1 k2 k3 k4 k5
    · have k0 := g0 (by omega); have k2 := g2 (by omega); have k3 := g3 (by omega)
      have k4 := g4 (by omega); have k5 := g5 (by omega)
      exact hashedFields_eq_of_lengths a b h k0 (by omega) k2 k3 k4 k5
    · have k0 := g0 (by omega); have k1 := g1 (by omega); have k3 := g3 (by omega)
      have k4 := g4 (by omega); have k5 := g5 (by omega)
      exact hashedFields_eq_of_lengths a b h k0 k1 (by omega) k3 k4 k5
    · have k0 := g0 (by omega); have k1 := g1 (by omega); have k2 := g2 (by omega)
      have k4 := g4 (by omega); have k5 := g5 (by omega)
      exact hashedFields_eq_of_lengths a b h k0 k1 k2 (by omega) k4 k5
    · have k0 := g0 (by omega); have k1 := g1 (by omega); have k2 := g2 (by omega)
      have k3 := g3 (by omega); have k5 := g5 (by omega)
      exact hashedFields_eq_of_lengths a b h k0 k1 k2 k3 (by omega) k5
    · have k0 := g0 (by omega); have k1 := g1 (by omega); have k2 := g2 (by omega)
      have k3 := g3 (by omega); have k4 := g4 (by omega)
      exact hashedFields_eq_of_lengths a b h k0 k1 k2 k3 k4 (by omega)
    · exact hashedFields_eq_of_lengths a b h (g0 (by omega)) (g1 (by omega)) (g2 (by omega))
        (g3 (by omega)) (g4 (by omega)) (g5 (by omega))
  · have k5 := formatRFC3339_length_eq pa pb hoff
    rw [e0, e1, e2, e3] at htotal
    exact hashedFields_eq_of_lengths a b h (by rw [e0]) (by rw [e1]) (by rw [e2]) (by rw [e3])
      (by omega) k5

/-- C3, amended, at concrete inputs: a change of the custody officer alone, a
change of the id alone to a longer one, and the change a transfer makes, custody
officer and timestamp together. -/
theorem digestInput_sensitive_witness :
    digestInput snapshotAbC ≠ digestInput { snapshotAbC with CustodyOfficer := "bob" } ∧
    digestInput snapshotAbC ≠ digestInput { snapshotAbC with ID := "abcd" } ∧
    digestInput snapshotAbC ≠
      digestInput { snapshotAbC with
        CustodyOfficer := "bob", Timestamp := { sec := 1700000005, nsec := 2, offset := 0 } } :=
  ⟨digestInput_sensitive snapshotAbC { snapshotAbC with CustodyOfficer := "bob" } (by decide)
      (Or.inl ⟨4, by
        intro j hj hne
        have hcases : j = 0 ∨ j = 1 ∨ j = 2 ∨ j = 3 ∨ j = 5 := by omega
        rcases hcases with hc | hc | hc | hc | hc <;> subst hc <;> rfl⟩),
    digestInput_sensitive snapshotAbC { snapshotAbC with ID := "abcd" } (by decide)
      (Or.inl ⟨0, by
        intro j hj hne
        have hcases : j = 1 ∨ j = 2 ∨ j = 3 ∨ j = 4 ∨ j = 5 := by omega
        rcases hcases with hc | hc | hc | hc | hc <;> subst hc <;> rfl⟩),
    digestInput_sensitive snapshotAbC
      { snapshotAbC with
        CustodyOfficer := "bob", Timestamp := { sec := 1700000005, nsec := 2, offset := 0 } }
      (by decide) (Or.inr ⟨rfl, rfl, rfl, rfl, by decide, by decide, rfl⟩)⟩

/-! ## C8: effect of `TransferCustody` -/

/-- C8, counterexample. `E1` is held by `alice` and has an empty custody chain; the
transfer to the officer `"\xff"`, one byte that is not valid UTF-8, succeeds.
Afterwards `ReadEvidence` returns the custody officer U+FFFD and the one record of
the chain has toOfficer U+FFFD: neither is the `newOfficer` of the call. -/
theorem transferCustody_invalid_officer_read_back :
    (GetCustodyChain (quietCtx "q" 1700000009 0) ledgerE1.stub "E1").1 = .ok [] ∧
    Call.run (quietCtx "tx2" 1700000005 0) ledgerE1
      (.transferCustody "E1" invalidText "reassignment") = (.ok (), ledgerE1Invalid) ∧
    (ReadEvidence (quietCtx "q" 1700000009 0) ledgerE1Invalid.stub "E1").1.toOption.map
      (fun e => e.CustodyOfficer) = some replacementText ∧
    (GetCustodyChain (quietCtx "q" 1700000009 0) ledgerE1Invalid.stub "E1").1 =
      .ok [{ EvidenceID := "E1", FromOfficer := "alice", ToOfficer := replacementText,
             Timestamp := { sec := 1700000005, nsec := 0, offset := 0 },
             Reason := "reassignment", TransactionID := "tx2" }] ∧
    replacementText ≠ invalidText := by
  refine ⟨by decide, ?_, by decide, by decide, by decide⟩
  apply Prod.ext
  · decide
  · rfl

/-- C8, amended. Let the ledger hold an evidence record under `id` with custody
officer `a` and let the custody chain of `id` be empty.  After a successful
invocation of `TransferCustody(id, b, r)`, `ReadEvidence(id)` returns a record
whose custody officer is `b` with every byte that is not valid UTF-8 replaced by
U+FFFD, and `GetCustodyChain(id)` returns exactly one record, with evidenceId
`id`, fromOfficer `a`, the clock reading of the call as timestamp, and toOfficer,
reason and transactionId the `b`, `r` and transaction id of the call coerced in
the same way; for a `b`, `r` and transaction id that are valid UTF-8 these are
`b`, `r` and the transaction id themselves (reads made in an environment `q`
whose stub calls succeed). -/
theorem transferCustody_effect (ctx q : TransactionContext) (l l2 : Ledger) (id a b r : String)
    (e : Evidence) (hread : (ReadEvidence ctx l.stub id).1 = .ok e) (ha : e.CustodyOfficer = a)
    (hchain : (GetCustodyChain q l.stub id).1 = .ok [])
    (hok : Call.run ctx l (.transferCustody id b r) = (.ok (), l2))
    (hq : q.getStateErr id = none) (hn : q.nextErr 0 = none) :
    (∃ e2, ReadEvidence q l2.stub id = (.ok e2, l2.stub) ∧
      e2.CustodyOfficer = toValidUTF8 b ∧ (utf8Valid b = true → e2.CustodyOfficer = b)) ∧
    ∃ t, GetCustodyChain q l2.stub id = (.ok [t], l2.stub) ∧ t.EvidenceID = id ∧
      t.FromOfficer = a ∧ t.Timestamp = ctx.now 0 ∧
      t.ToOfficer = toValidUTF8 b ∧ t.Reason = toValidUTF8 r ∧
      t.TransactionID = toValidUTF8 (GetTxID ctx) ∧
      (utf8Valid b = true → t.ToOfficer = b) ∧ (utf8Valid r = true → t.Reason = r) ∧
      (utf8Valid (GetTxID ctx) = true → t.TransactionID = GetTxID ctx) := by
  obtain ⟨e', key, tj, ej, hr, hk, hmt, hme, hl2⟩ := TransferCustody_run_ok hok
  rw [hread] at hr
  cases hr
  obtain ⟨startKey, hsk, hit, hlen⟩ := GetCustodyChain_ok_scan hchain
  have hempty : l.world.filter (fun kv => inKeyRange startKey kv.1) = [] :=
    List.length_eq_zero.mp hlen
  have hvalid := ReadEvidence_utf8Valid hread
  have hidv := (validateCompositeKeyAttribute_ok
    ((CreateCompositeKey_transfer id (ctx.now 1).Unix).2 key hk)).1
  constructor
  · refine ⟨(transferredEvidence ctx e b).toValidUTF8, ?_, rfl,
      fun hb => toValidUTF8_of_valid hb⟩
    apply ReadEvidence_of_get hq _
      (jsonUnmarshalEvidence_marshal _ _ (transferredEvidence_plain _ _ _) hme)
    rw [hl2]
    exact WorldState.get_put_same _ _ _
  · refine ⟨(transferRecord ctx e id b r).toValidUTF8, ?_, toValidUTF8_of_valid hidv, ?_, rfl,
      rfl, rfl, rfl, fun hb => toValidUTF8_of_valid hb, fun hb => toValidUTF8_of_valid hb,
      fun hb => toValidUTF8_of_valid hb⟩
    · apply GetCustodyChain_of_scan hsk hit
      · intro j hj
        have : j = 0 := by simpa using hj
        rw [this]; exact hn
      · have hscan : l2.stub.ledger.world.filter (fun kv => inKeyRange startKey kv.1) =
            [(key, tj)] := by
          rw [hl2]
          show ((l.world.put key tj).put id ej).filter _ = _
          rw [filter_put_of_not (fun k => inKeyRange startKey k) _ id ej
            (startKey_not_within_id hsk)]
          exact filter_put_of_empty (fun k => inKeyRange startKey k) _ key tj
            (transferKey_extends_startKey _ hk hsk) hempty
        rw [hscan]
        exact List.Forall₂.cons
          (jsonUnmarshalTransfer_marshal _ _ (transferRecord_plain _ _ _ _ _) hmt)
          List.Forall₂.nil
    · show toValidUTF8 e.CustodyOfficer = a
      rw [toValidUTF8_of_valid hvalid.2.2.2.2.2.2.1, ha]

/-- C8, amended, at a concrete input: `E1` goes from `alice` to `bob`, reason
`reassignment`. -/
theorem transferCustody_effect_witness :
    (∃ e, (ReadEvidence (quietCtx "tx2" 1700000005 0) ledgerE1.stub "E1").1 = .ok e ∧
      e.CustodyOfficer = "alice") ∧
    (GetCustodyChain (quietCtx "q" 1700000009 0) ledgerE1.stub "E1").1 = .ok [] ∧
    Call.run (quietCtx "tx2" 1700000005 0) ledgerE1
      (.transferCustody "E1" "bob" "reassignment") = (.ok (), ledgerE1Bob) ∧
    (∃ e2, ReadEvidence (quietCtx "q" 1700000009 0) ledgerE1Bob.stub "E1" =
        (.ok e2, ledgerE1Bob.stub) ∧ e2.CustodyOfficer = "bob") ∧
    ∃ t, GetCustodyChain (quietCtx "q" 1700000009 0) ledgerE1Bob.stub "E1" =
        (.ok [t], ledgerE1Bob.stub) ∧
      t.EvidenceID = "E1" ∧ t.FromOfficer = "alice" ∧ t.ToOfficer = "bob" ∧
      t.Reason = "reassignment" ∧ t.TransactionID = "tx2" := by
  have hread : (ReadEvidence (quietCtx "tx2" 1700000005 0) ledgerE1.stub "E1").1 =
      .ok (createdEvidence (quietCtx "tx1" 1700000000 0) "E1" "case1" "photo.jpg" "QmCid"
        "abc123" "alice" "RESTRICTED").toValidUTF8 := by
    rfl
  have hchain : (GetCustodyChain (quietCtx "q" 1700000009 0) ledgerE1.stub "E1").1 = .ok [] := by
    decide
  have hok : Call.run (quietCtx "tx2" 1700000005 0) ledgerE1
      (.transferCustody "E1" "bob" "reassignment") = (.ok (), ledgerE1Bob) := by
    apply Prod.ext
    · decide
    · rfl
  obtain ⟨⟨e2, h1, _, h1v⟩, t, h2, h3, h4, _, _, _, _, h5, h6, h7⟩ :=
    transferCustody_effect (quietCtx "tx2" 1700000005 0) (quietCtx "q" 1700000009 0) ledgerE1
      ledgerE1Bob "E1" "alice" "bob" "reassignment" _ hread (by decide) hchain hok rfl rfl
  exact ⟨⟨_, hread, by decide⟩, hchain, hok, ⟨e2, h1, h1v (by decide)⟩, t, h2, h3, h4,
    h5 (by decide), h6 (by decide), h7 (by decide)⟩

/-! ## C7: transfer keys within one second -/

/-- C7, the code at the failing input. Two successful transfers of `E1` whose clock
readings fall in the same Unix second are stored under the same composite key:
the second write replaces the first record, and the custody chain read afterwards
holds the second transfer only. -/
theorem transferCustody_same_second_overwrites :
    Call.run (quietCtx "tx2" 1700000005 0) ledgerE1
      (.transferCustody "E1" "bob" "reassignment") = (.ok (), ledgerE1Bob) ∧
    Call.run (quietCtx "tx3" 1700000005 500) ledgerE1Bob
      (.transferCustody "E1" "carol" "shift change") = (.ok (), ledgerE1Carol) ∧
    CreateCompositeKey "custody_transfer"
        ["E1", formatInt ((quietCtx "tx2" 1700000005 0).now 1).Unix] = .ok sampleTransferKey ∧
    CreateCompositeKey "custody_transfer"
        ["E1", formatInt ((quietCtx "tx3" 1700000005 500).now 1).Unix] = .ok sampleTransferKey ∧
    (GetCustodyChain (quietCtx "q" 1700000009 0) ledgerE1Bob.stub "E1").1 =
      .ok [{ EvidenceID := "E1", FromOfficer := "alice", ToOfficer := "bob",
             Timestamp := { sec := 1700000005, nsec := 0, offset := 0 },
             Reason := "reassignment", TransactionID := "tx2" }] ∧
    (GetCustodyChain (quietCtx "q" 1700000009 0) ledgerE1Carol.stub "E1").1 =
      .ok [{ EvidenceID := "E1", FromOfficer := "bob", ToOfficer := "carol",
             Timestamp := { sec := 1700000005, nsec := 500, offset := 0 },
             Reason := "shift change", TransactionID := "tx3" }] := by
  refine ⟨?_, ?_, by decide, by decide, by decide, by decide⟩
  · apply Prod.ext
    · decide
    · rfl
  · apply Prod.ext
    · decide
    · rfl

/-! ## C2: the stored hash is the hash of the stored record -/

theorem reachable_ledgerE1Bob : Reachable ledgerE1Bob :=
  ReachableBy.step (quietCtx "tx2" 1700000005 0) (.transferCustody "E1" "bob" "reassignment")
    trivial
    (ReachableBy.step (quietCtx "tx1" 1700000000 0)
      (.createEvidence "E1" "case1" "photo.jpg" "QmCid" "abc123" "alice" "RESTRICTED")
      trivial ReachableBy.empty)

theorem reachableValid_ledgerE1Bob : ReachableBy Call.digestArgsValid ledgerE1Bob :=
  ReachableBy.step (quietCtx "tx2" 1700000005 0) (.transferCustody "E1" "bob" "reassignment")
    (by unfold Call.digestArgsValid; decide)
    (ReachableBy.step (quietCtx "tx1" 1700000000 0)
      (.createEvidence "E1" "case1" "photo.jpg" "QmCid" "abc123" "alice" "RESTRICTED")
      (by unfold Call.digestArgsValid; decide) ReachableBy.empty)

/-- C2, counterexample. After creating `E1` and transferring it, `ReadEvidence`
called with the composite key of the transfer record decodes that record as an
evidence record (only the `timestamp` member matches a field); its blockchainHash
is empty and so differs from `calculateBlockchainHash` of the returned record.
And after creating `E3` with the file hash `"\xff"`, which is not valid UTF-8, the
record read back for the ordinary id `E3` carries the hash of the argument, which
is not `calculateBlockchainHash` of the record read back, whose file hash is
U+FFFD. -/
theorem readEvidence_transfer_key_unhashed :
    (Reachable ledgerE1Bob ∧
      ∃ e, (ReadEvidence (quietCtx "q" 1700000009 0) ledgerE1Bob.stub sampleTransferKey).1 =
          .ok e ∧
        e.BlockchainHash = "" ∧ e.BlockchainHash ≠ calculateBlockchainHash e) ∧
    (Reachable ledgerE3 ∧ ¬ isCompositeKey "E3" ∧
      (ReadEvidence (quietCtx "q" 1700000200 0) ledgerE3.stub "E3").1.toOption.map
        (fun e => (e.FileHash, decide (e.BlockchainHash = calculateBlockchainHash e))) =
        some (replacementText, false)) := by
  refine ⟨⟨reachable_ledgerE1Bob,
    { Evidence.zero with Timestamp := { sec := 1700000005, nsec := 0, offset := 0 } },
    by decide, rfl, ?_⟩, ?_, by decide, by decide⟩
  · exact fun h => calculateBlockchainHash_ne_empty _ h.symm
  · exact ReachableBy.step (quietCtx "tx1" 1700000000 0)
      (.createEvidence "E3" "case3" "dump.bin" "QmDump" invalidText "alice" "RESTRICTED")
      trivial ReachableBy.empty

/-- C2, amended. In every ledger reachable from the empty ledger by invocations of
`InitLedger`, `CreateEvidence`, `UpdateEvidenceStatus` and `TransferCustody` in
which the arguments that enter the digest of a new record (id, caseId, ipfsCid,
fileHash and custodyOfficer of `CreateEvidence`, newOfficer of `TransferCustody`)
are valid UTF-8, every record that `ReadEvidence` returns for an id outside the
composite-key namespace (an id that does not begin with U+0000) has a
blockchainHash equal to `calculateBlockchainHash` of that same record. -/
theorem readEvidence_hash_bound (stub : Stub)
    (hreach : ReachableBy Call.digestArgsValid stub.ledger) (ctx : TransactionContext)
    (id : String) (e : Evidence) (hid : ¬ isCompositeKey id)
    (hread : (ReadEvidence ctx stub id).1 = .ok e) :
    e.BlockchainHash = calculateBlockchainHash e :=
  ((WellHashed.of_reachable hreach).read hread hid).2.2

/-- C2, amended, at a concrete input: the record of `E1` after its transfer. -/
theorem readEvidence_hash_bound_witness :
    ReachableBy Call.digestArgsValid ledgerE1Bob ∧ ¬ isCompositeKey "E1" ∧
    ∃ e, (ReadEvidence (quietCtx "q" 1700000009 0) ledgerE1Bob.stub "E1").1 = .ok e ∧
      e.CustodyOfficer = "bob" ∧ e.BlockchainHash = calculateBlockchainHash e := by
  have hread : (ReadEvidence (quietCtx "q" 1700000009 0) ledgerE1Bob.stub "E1").1 =
      .ok (transferredEvidence (quietCtx "tx2" 1700000005 0)
        (createdEvidence (quietCtx "tx1" 1700000000 0) "E1" "case1" "photo.jpg" "QmCid"
          "abc123" "alice" "RESTRICTED").toValidUTF8 "bob").toValidUTF8 := by
    rfl
  exact ⟨reachableValid_ledgerE1Bob, by decide, _, hread, by decide,
    readEvidence_hash_bound ledgerE1Bob.stub reachableValid_ledgerE1Bob _ "E1" _ (by decide)
      hread⟩

/-! ## C9: a failed `TransferCustody` -/

/-- The ways `TransferCustody` fails: in the read of the evidence, in the
construction of the key, in the put of the transfer record, each leaving the stub
as it was, or in the put of the evidence record, the transfer record being in the
write set. -/
theorem TransferCustody_error_cases {ctx : TransactionContext} {stub : Stub}
    {evidenceId newOfficer reason : String} {err : Error}
    (h : (TransferCustody ctx stub evidenceId newOfficer reason).1 = .error err) :
    ((ReadEvidence ctx stub evidenceId).1 = .error err ∧
      (TransferCustody ctx stub evidenceId newOfficer reason).2 = stub) ∨
    (∃ e, (ReadEvidence ctx stub evidenceId).1 = .ok e ∧
      CreateCompositeKey "custody_transfer" [evidenceId, formatInt (ctx.now 1).Unix] =
        .error err ∧
      (TransferCustody ctx stub evidenceId newOfficer reason).2 = stub) ∨
    (∃ e key tj, (ReadEvidence ctx stub evidenceId).1 = .ok e ∧
      CreateCompositeKey "custody_transfer" [evidenceId, formatInt (ctx.now 1).Unix] = .ok key ∧
      jsonMarshalTransfer (transferRecord ctx e evidenceId newOfficer reason) = .ok tj ∧
      (PutState ctx stub key tj).1 = .error err ∧
      (TransferCustody ctx stub evidenceId newOfficer reason).2 = stub) ∨
    ∃ e key tj ej, (ReadEvidence ctx stub evidenceId).1 = .ok e ∧
      CreateCompositeKey "custody_transfer" [evidenceId, formatInt (ctx.now 1).Unix] = .ok key ∧
      jsonMarshalTransfer (transferRecord ctx e evidenceId newOfficer reason) = .ok tj ∧
      jsonMarshalEvidence (transferredEvidence ctx e newOfficer) = .ok ej ∧
      PutState ctx stub key tj = (.ok (), stub.put key tj) ∧
      (PutState ctx (stub.put key tj) evidenceId ej).1 = .error err ∧
      (TransferCustody ctx stub evidenceId newOfficer reason).2 = stub.put key tj := by
  rw [TransferCustody_eq] at h ⊢
  cases hr : (ReadEvidence ctx stub evidenceId).1 with
  | error e1 =>
    rw [ReadEvidence_pair hr] at h ⊢
    simp only [Except.error.injEq] at h
    subst h
    exact Or.inl ⟨rfl, rfl⟩
  | ok e =>
    rw [ReadEvidence_pair hr] at h ⊢
    simp only at h ⊢
    cases hk : CreateCompositeKey "custody_transfer"
        [evidenceId, formatInt (ctx.now 1).Unix] with
    | error e2 =>
      rw [hk] at h
      simp only [Except.error.injEq] at h
      subst h
      exact Or.inr (Or.inl ⟨e, rfl, rfl, rfl⟩)
    | ok key =>
      rw [hk] at h
      simp only at h ⊢
      obtain ⟨tj, htj⟩ := jsonMarshalTransfer_ok _
        (transferRecord_plain ctx e evidenceId newOfficer reason)
      obtain ⟨ej, hej⟩ := jsonMarshalEvidence_ok _ (transferredEvidence_plain ctx e newOfficer)
      rw [htj] at h ⊢
      simp only at h ⊢
      rcases PutState_cases ctx stub key tj with ⟨e3, hp⟩ | ⟨_, _, hp⟩
      · rw [hp] at h ⊢
        simp only [Except.error.injEq] at h
        subst h
        exact Or.inr (Or.inr (Or.inl ⟨e, key, tj, rfl, rfl, htj, by rw [hp], rfl⟩))
      · rw [hp] at h ⊢
        simp only at h ⊢
        rw [hej] at h ⊢
        simp only at h ⊢
        refine Or.inr (Or.inr (Or.inr ⟨e, key, tj, ej, rfl, rfl, htj, hej, hp, h, ?_⟩))
        rcases PutState_cases ctx (stub.put key tj) evidenceId ej with ⟨e4, hp2⟩ | ⟨_, _, hp2⟩
        · rw [hp2]
        · rw [hp2] at h
          cases h

/-- C9. When the invocation of `TransferCustody` returns an error, the ledger
afterwards is the ledger before: world state and history are identical, so the
store holds neither the new transfer record nor an evidence record with the new
custodian.  The error arises in one of four ways: the read of the evidence fails
(not found, unreadable or not decodable), the construction of the key fails, the
put of the transfer record fails, or the put of the evidence record fails; in the
first three the function has handed nothing to the stub, in the fourth the stub
holds the transfer record in its write set, which is dropped with the failed
invocation. -/
theorem transferCustody_atomic (ctx : TransactionContext) (l : Ledger)
    (evidenceId newOfficer reason : String) (err : Error)
    (h : (Call.run ctx l (.transferCustody evidenceId newOfficer reason)).1 = .error err) :
    (Call.run ctx l (.transferCustody evidenceId newOfficer reason)).2 = l ∧
    (TransferCustody ctx l.stub evidenceId newOfficer reason).1 = .error err ∧
    (TransferCustody ctx l.stub evidenceId newOfficer reason).2.ledger = l ∧
    (((ReadEvidence ctx l.stub evidenceId).1 = .error err ∧
        (TransferCustody ctx l.stub evidenceId newOfficer reason).2.writes = []) ∨
      (CreateCompositeKey "custody_transfer" [evidenceId, formatInt (ctx.now 1).Unix] =
          .error err ∧
        (TransferCustody ctx l.stub evidenceId newOfficer reason).2.writes = []) ∨
      (∃ key tj, CreateCompositeKey "custody_transfer"
          [evidenceId, formatInt (ctx.now 1).Unix] = .ok key ∧
        (PutState ctx l.stub key tj).1 = .error err ∧
        (TransferCustody ctx l.stub evidenceId newOfficer reason).2.writes = []) ∨
      ∃ key tj ej, CreateCompositeKey "custody_transfer"
          [evidenceId, formatInt (ctx.now 1).Unix] = .ok key ∧
        (PutState ctx (l.stub.put key tj) evidenceId ej).1 = .error err ∧
        (TransferCustody ctx l.stub evidenceId newOfficer reason).2.writes = [(key, tj)]) := by
  have hpair : Call.run ctx l (.transferCustody evidenceId newOfficer reason) =
      (.error err, (Call.run ctx l (.transferCustody evidenceId newOfficer reason)).2) :=
    Prod.ext h rfl
  obtain ⟨hl, hf⟩ := invoke_error_ledger hpair
  simp only [Call.apply] at hf
  refine ⟨hl, hf, ?_, ?_⟩
  · rcases TransferCustody_error_cases hf with ⟨_, hs⟩ | ⟨_, _, _, hs⟩ | ⟨_, _, _, _, _, _, _, hs⟩ |
      ⟨_, _, _, _, _, _, _, _, _, _, hs⟩ <;> rw [hs] <;> rfl
  · rcases TransferCustody_error_cases hf with ⟨hr, hs⟩ | ⟨_, _, hk, hs⟩ |
      ⟨_, key, tj, _, hk, _, hp, hs⟩ | ⟨_, key, tj, ej, _, hk, _, _, _, hp, hs⟩
    · exact Or.inl ⟨hr, by rw [hs]; rfl⟩
    · exact Or.inr (Or.inl ⟨hk, by rw [hs]; rfl⟩)
    · exact Or.inr (Or.inr (Or.inl ⟨key, tj, hk, hp, by rw [hs]; rfl⟩))
    · exact Or.inr (Or.inr (Or.inr ⟨key, tj, ej, hk, hp, by rw [hs]; rfl⟩))

/-- C9 at concrete inputs: the put of the evidence record of `E1` fails after the
put of the transfer record; the invocation fails and the ledger afterwards holds
no transfer record and the record of `E1` as before.  And a transfer of the
absent `E2` fails in the read. -/
theorem transferCustody_atomic_witness :
    (Call.run (failingPutCtx "tx2" 1700000005 "E1") ledgerE1
      (.transferCustody "E1" "bob" "reassignment")).1 = .error "connection lost" ∧
    (TransferCustody (failingPutCtx "tx2" 1700000005 "E1") ledgerE1.stub "E1" "bob"
      "reassignment").2.writes.map (fun kv => kv.1) = [sampleTransferKey] ∧
    (Call.run (failingPutCtx "tx2" 1700000005 "E1") ledgerE1
      (.transferCustody "E1" "bob" "reassignment")).2 = ledgerE1 ∧
    ledgerE1.world.get sampleTransferKey = none ∧
    (Call.run (quietCtx "tx2" 1700000005 0) ledgerE1
      (.transferCustody "E2" "bob" "reassignment")) =
      (.error "evidence E2 does not exist", ledgerE1) := by
  have h1 : (Call.run (failingPutCtx "tx2" 1700000005 "E1") ledgerE1
      (.transferCustody "E1" "bob" "reassignment")).1 = .error "connection lost" := by decide
  have h2 : (Call.run (quietCtx "tx2" 1700000005 0) ledgerE1
      (.transferCustody "E2" "bob" "reassignment")).1 = .error "evidence E2 does not exist" := by
    decide
  refine ⟨h1, by decide, (transferCustody_atomic _ _ _ _ _ _ h1).1, by decide, ?_⟩
  exact Prod.ext h2 (transferCustody_atomic _ _ _ _ _ _ h2).1

/-! ## Sorted world states -/

theorem WorldState.mem_put {w : WorldState} {key : String} {value : Bytes} {x : String × Bytes}
    (h : x ∈ w.put key value) : x = (key, value) ∨ x ∈ w := by
  induction w with
  | nil =>
    simp only [WorldState.put, List.mem_singleton] at h
    exact Or.inl h
  | cons kv rest ih =>
    obtain ⟨k, v⟩ := kv
    unfold WorldState.put at h
    by_cases h1 : k = key
    · simp only [h1, if_true, List.mem_cons] at h
      rcases h with h | h
      · exact Or.inl h
      · exact Or.inr (List.mem_cons_of_mem _ h)
    · by_cases h2 : keyLt key.data k.data = true
      · simp only [h1, h2, if_true, if_false, List.mem_cons] at h
        rcases h with h | h | h
        · exact Or.inl h
        · exact Or.inr (by rw [h]; exact List.mem_cons_self _ _)
        · exact Or.inr (List.mem_cons_of_mem _ h)
      · have h2f : keyLt key.data k.data = false := by simpa using h2
        simp only [h1, h2f, if_false, List.mem_cons, Bool.false_eq_true] at h
        rcases h with h | h
        · exact Or.inr (by rw [h]; exact List.mem_cons_self _ _)
        · rcases ih h with h | h
          · exact Or.inl h
          · exact Or.inr (List.mem_cons_of_mem _ h)

theorem WorldState.Sorted.put {w : WorldState} (hw : w.Sorted) (key : String) (value : Bytes) :
    (w.put key value).Sorted := by
  induction w with
  | nil => simp [WorldState.put, WorldState.Sorted]
  | cons kv rest ih =>
    obtain ⟨k, v⟩ := kv
    unfold WorldState.Sorted at hw ih ⊢
    rw [List.pairwise_cons] at hw
    obtain ⟨hhead, hrest⟩ := hw
    unfold WorldState.put
    by_cases h1 : k = key
    · subst h1
      simp only [if_true]
      exact List.pairwise_cons.mpr ⟨hhead, hrest⟩
    · by_cases h2 : keyLt key.data k.data = true
      · simp only [h1, h2, if_true, if_false]
        refine List.pairwise_cons.mpr ⟨?_, List.pairwise_cons.mpr ⟨hhead, hrest⟩⟩
        intro x hx
        rcases List.mem_cons.mp hx with hx | hx
        · rw [hx]; exact h2
        · exact keyLt_trans h2 (hhead x hx)
      · have h2f : keyLt key.data k.data = false := by simpa using h2
        simp only [h1, h2f, if_false, Bool.false_eq_true]
        refine List.pairwise_cons.mpr ⟨?_, ih hrest⟩
        intro x hx
        rcases WorldState.mem_put hx with hx | hx
        · rw [hx]
          apply keyLt_total h2f
          intro hd
          exact h1 (String.ext hd).symm
        · exact hhead x hx

theorem WorldState.put_of_lt_all (xs : WorldState) (key : String) (value : Bytes)
    (h : ∀ x ∈ xs, keyLt key.data x.1.data = true) : xs.put key value = (key, value) :: xs := by
  cases xs with
  | nil => rfl
  | cons kv rest =>
    obtain ⟨k, v⟩ := kv
    have hk : keyLt key.data k.data = true := h (k, v) (List.mem_cons_self _ _)
    have hne : k ≠ key := by
      intro heq
      rw [heq, keyLt_irrefl] at hk
      cases hk
    simp [WorldState.put, hne, hk]

theorem WorldState.put_of_all_lt (xs : WorldState) (key : String) (value : Bytes)
    (h : ∀ x ∈ xs, keyLt x.1.data key.data = true) : xs.put key value = xs ++ [(key, value)] := by
  induction xs with
  | nil => rfl
  | cons kv rest ih =>
    obtain ⟨k, v⟩ := kv
    have hk : keyLt k.data key.data = true := h (k, v) (List.mem_cons_self _ _)
    have hne : k ≠ key := by
      intro heq
      rw [heq, keyLt_irrefl] at hk
      cases hk
    have hnlt : keyLt key.data k.data = false := keyLt_asymm hk
    simp only [WorldState.put, hne, hnlt, if_false, Bool.false_eq_true, List.cons_append]
    rw [ih (fun x hx => h x (List.mem_cons_of_mem _ hx))]

theorem filter_put_sorted (p : String → Bool) (w : WorldState) (key : String) (value : Bytes)
    (hw : w.Sorted) (hk : p key = true) :
    (w.put key value).filter (fun kv => p kv.1) =
      WorldState.put (w.filter (fun kv => p kv.1)) key value := by
  induction w with
  | nil => simp [WorldState.put, hk]
  | cons kv rest ih =>
    obtain ⟨k, v⟩ := kv
    unfold WorldState.Sorted at hw ih
    rw [List.pairwise_cons] at hw
    obtain ⟨hhead, hrest⟩ := hw
    by_cases h1 : k = key
    · subst h1
      simp [WorldState.put, List.filter_cons, hk]
    · by_cases h2 : keyLt key.data k.data = true
      · have hall : ∀ x ∈ ((k, v) :: rest).filter (fun kv => p kv.1),
            keyLt key.data x.1.data = true := by
          intro x hx
          rcases List.mem_cons.mp (List.mem_of_mem_filter hx) with hx | hx
          · rw [hx]; exact h2
          · exact keyLt_trans h2 (hhead x hx)
        rw [WorldState.put_of_lt_all _ key value hall]
        simp [WorldState.put, h1, h2, List.filter_cons, hk]
      · have h2f : keyLt key.data k.data = false := by simpa using h2
        by_cases hpk : p k = true
        · simp [WorldState.put, h1, h2f, List.filter_cons, hpk, ih hrest]
        · simp [WorldState.put, h1, h2f, List.filter_cons, hpk, ih hrest]

theorem sorted_of_writes {P : Call → Prop} {l l1 : Ledger} (hl : l.world.Sorted)
    (h : WritesBy P l l1) : l1.world.Sorted := by
  induction h with
  | refl => exact hl
  | put ctx c key b _ _ _ ih => exact ih.put key b

/-- Every ledger the contract can build keeps its world state in key order. -/
theorem sorted_of_reachable {P : Call → Prop} {l : Ledger} (h : ReachableBy P l) :
    l.world.Sorted :=
  sorted_of_writes (by simp [Ledger.empty, WorldState.Sorted]) (writes_of_reachable h)

/-! ## The expected chain -/

theorem expectedChain_length (id : String) (a : String)
    (calls : List (TransactionContext × String × String)) :
    (expectedChain id a calls).length = calls.length := by
  induction calls generalizing a with
  | nil => rfl
  | cons c rest ih =>
    obtain ⟨ctx, b, r⟩ := c
    simp [expectedChain, ih]

theorem expectedChain_timestamps (id : String) (a : String)
    (calls : List (TransactionContext × String × String)) :
    (expectedChain id a calls).map (fun t => t.Timestamp) = calls.map (fun c => c.1.now 0) := by
  induction calls generalizing a with
  | nil => rfl
  | cons c rest ih =>
    obtain ⟨ctx, b, r⟩ := c
    simp [expectedChain, ih]

theorem expectedChain_toOfficers (id : String) (a : String)
    (calls : List (TransactionContext × String × String)) :
    (expectedChain id a calls).map (fun t => t.ToOfficer) =
      calls.map (fun c => toValidUTF8 c.2.1) := by
  induction calls generalizing a with
  | nil => rfl
  | cons c rest ih =>
    obtain ⟨ctx, b, r⟩ := c
    simp [expectedChain, ih]

theorem expectedChain_linked (id : String) (a : String)
    (calls : List (TransactionContext × String × String)) :
    (expectedChain id a calls).Chain' (fun s t => s.ToOfficer = t.FromOfficer) := by
  induction calls generalizing a with
  | nil => exact List.chain'_nil
  | cons c rest ih =>
    obtain ⟨ctx, b, r⟩ := c
    cases rest with
    | nil => simp [expectedChain]
    | cons c2 rest2 =>
      obtain ⟨ctx2, b2, r2⟩ := c2
      have := ih (toValidUTF8 b)
      simp only [expectedChain] at this ⊢
      exact List.Chain'.cons rfl this

/-! ## C6: order of the custody chain -/

/-- The scan of the transfer records after a run of successful transfers whose key
seconds increase and have the same number of digits. -/
theorem transferAll_scan (id startKey : String) (w : Nat)
    (hsk : CreateCompositeKey "custody_transfer" [id] = .ok startKey) :
    ∀ (calls : List (TransactionContext × String × String)) (l l2 : Ledger) (a : String)
      (ts : List CustodyTransfer),
      l.world.Sorted →
      (∀ ctx e, (ReadEvidence ctx l.stub id).1 = .ok e → e.CustodyOfficer = a) →
      List.Forall₂ (fun kv t => jsonUnmarshalTransfer kv.2 = .ok t)
        (l.world.filter (fun kv => inKeyRange startKey kv.1)) ts →
      (∀ kv ∈ l.world.filter (fun kv => inKeyRange startKey kv.1), ∀ c ∈ calls,
        keyLt kv.1.data
          (startKey.data ++ ((formatInt (c.1.now 1).Unix).data ++ [Char.ofNat 0])) = true) →
      calls.Pairwise (fun c d => (c.1.now 1).Unix < (d.1.now 1).Unix) →
      (∀ c ∈ calls, (10 : Int) ^ w ≤ (c.1.now 1).Unix ∧ (c.1.now 1).Unix < (10 : Int) ^ (w + 1)) →
      transferAll id l calls = (.ok (), l2) →
      List.Forall₂ (fun kv t => jsonUnmarshalTransfer kv.2 = .ok t)
        (l2.world.filter (fun kv => inKeyRange startKey kv.1))
        (ts ++ expectedChain id a calls) := by
  intro calls
  induction calls with
  | nil =>
    intro l l2 a ts _ _ hdec _ _ _ hrun
    simp only [transferAll, Prod.mk.injEq, true_and] at hrun
    subst hrun
    simpa [expectedChain] using hdec
  | cons c rest ih =>
    intro l l2 a ts hsorted hcur hdec hbound hinc hwidth hrun
    obtain ⟨ctx, b, r⟩ := c
    simp only [transferAll] at hrun
    cases hres : Call.run ctx l (.transferCustody id b r) with
    | mk res l1 =>
      rw [hres] at hrun
      cases res with
      | error err => simp at hrun
      | ok u =>
        simp only at hrun
        obtain ⟨e, key, tj, ej, hr, hk, hmt, hme, hl1⟩ := TransferCustody_run_ok hres
        obtain ⟨s, hs, hkd⟩ := CreateCompositeKey_two hk
        rw [hsk] at hs
        cases hs
        have hvalid := ReadEvidence_utf8Valid hr
        have hidv := (validateCompositeKeyAttribute_ok
          ((CreateCompositeKey_transfer id (ctx.now 1).Unix).2 key hk)).1
        have hfilter : l1.world.filter (fun kv => inKeyRange startKey kv.1) =
            l.world.filter (fun kv => inKeyRange startKey kv.1) ++ [(key, tj)] := by
          rw [hl1]
          show ((l.world.put key tj).put id ej).filter _ = _
          rw [filter_put_of_not (fun k => inKeyRange startKey k) _ id ej
            (startKey_not_within_id hsk)]
          rw [filter_put_sorted (fun k => inKeyRange startKey k) _ key tj hsorted
            (transferKey_extends_startKey _ hk hsk)]
          apply WorldState.put_of_all_lt
          intro x hx
          rw [hkd]
          exact hbound x hx _ (List.mem_cons_self _ _)
        have hsorted1 : l1.world.Sorted := by
          rw [hl1]
          exact (hsorted.put key tj).put id ej
        have hcur1 : ∀ ctx2 e2, (ReadEvidence ctx2 l1.stub id).1 = .ok e2 →
            e2.CustodyOfficer = toValidUTF8 b := by
          intro ctx2 e2 hr2
          obtain ⟨_, b2, hg, hu⟩ := ReadEvidence_ok hr2
          rw [hl1] at hg
          have hg2 : some ej = some b2 := by
            rw [← hg]
            exact (WorldState.get_put_same _ _ _).symm
          cases hg2
          rw [jsonUnmarshalEvidence_marshal _ _ (transferredEvidence_plain _ _ _) hme] at hu
          cases hu
          rfl
        have ha : e.CustodyOfficer = a := hcur ctx e hr
        have hrec : (transferRecord ctx e id b r).toValidUTF8 =
            { EvidenceID := id, FromOfficer := a, ToOfficer := toValidUTF8 b,
              Timestamp := ctx.now 0, Reason := toValidUTF8 r,
              TransactionID := toValidUTF8 (GetTxID ctx) } := by
          unfold CustodyTransfer.toValidUTF8 transferRecord
          simp only
          rw [toValidUTF8_of_valid hidv, toValidUTF8_of_valid hvalid.2.2.2.2.2.2.1, ha]
        have hdec1 : List.Forall₂ (fun kv t => jsonUnmarshalTransfer kv.2 = .ok t)
            (l1.world.filter (fun kv => inKeyRange startKey kv.1))
            (ts ++ [(transferRecord ctx e id b r).toValidUTF8]) := by
          rw [hfilter]
          exact List.rel_append hdec
            (List.Forall₂.cons
              (jsonUnmarshalTransfer_marshal _ _ (transferRecord_plain _ _ _ _ _) hmt)
              List.Forall₂.nil)
        rw [List.pairwise_cons] at hinc
        have hbound1 : ∀ kv ∈ l1.world.filter (fun kv => inKeyRange startKey kv.1),
            ∀ c ∈ rest, keyLt kv.1.data
              (startKey.data ++ ((formatInt (c.1.now 1).Unix).data ++ [Char.ofNat 0])) = true := by
          intro kv hkv c hc
          rw [hfilter] at hkv
          rcases List.mem_append.mp hkv with hkv | hkv
          · exact hbound kv hkv c (List.mem_cons_of_mem _ hc)
          · simp only [List.mem_singleton] at hkv
            rw [hkv]
            simp only
            rw [hkd, keyLt_append_left]
            exact formatInt_lt w _ _ _ _ (hwidth _ (List.mem_cons_self _ _)).1 (hinc.1 c hc)
              (hwidth c (List.mem_cons_of_mem _ hc)).2
        have := ih l1 l2 (toValidUTF8 b) (ts ++ [(transferRecord ctx e id b r).toValidUTF8])
          hsorted1 hcur1 hdec1 hbound1
          hinc.2 (fun c hc => hwidth c (List.mem_cons_of_mem _ hc)) hrun
        rw [hrec, List.append_assoc] at this
        exact this

/-- C6, counterexample. Two successful transfers of `E1` at distinct, increasing
clock readings of one second leave a custody chain of one record, not two; and two
successful transfers in the seconds 999999999 and 1000000000 are returned in the
opposite order, the later one first. -/
theorem custody_chain_lost_and_reordered :
    ((transferAll "E1" ledgerE1 sameSecondCalls).1 = .ok () ∧
      (∀ i j, i ≤ 2 → j ≤ 2 →
        ((quietCtx "tx2" 1700000005 0).now i).Before ((quietCtx "tx3" 1700000005 500).now j)) ∧
      (GetCustodyChain (quietCtx "q" 1700000009 0) ledgerE1.stub "E1").1 = .ok [] ∧
      (GetCustodyChain (quietCtx "q" 1700000009 0)
        (transferAll "E1" ledgerE1 sameSecondCalls).2.stub "E1").1 =
        .ok [{ EvidenceID := "E1", FromOfficer := "bob", ToOfficer := "carol",
               Timestamp := { sec := 1700000005, nsec := 500, offset := 0 },
               Reason := "shift change", TransactionID := "tx3" }]) ∧
    ((transferAll "E1" ledgerOld rolloverCalls).1 = .ok () ∧
      (GetCustodyChain (quietCtx "q" 1000000009 0) ledgerOld.stub "E1").1 = .ok [] ∧
      (GetCustodyChain (quietCtx "q" 1000000009 0)
        (transferAll "E1" ledgerOld rolloverCalls).2.stub "E1").1 =
        .ok [{ EvidenceID := "E1", FromOfficer := "bob", ToOfficer := "carol",
               Timestamp := { sec := 1000000000, nsec := 0, offset := 0 },
               Reason := "shift change", TransactionID := "tx3" },
             { EvidenceID := "E1", FromOfficer := "alice", ToOfficer := "bob",
               Timestamp := { sec := 999999999, nsec := 0, offset := 0 },
               Reason := "reassignment", TransactionID := "tx2" }]) := by
  refine ⟨⟨by decide, ?_, by decide, by decide⟩, by decide, by decide, by decide⟩
  intro i j hi hj
  right
  refine ⟨rfl, ?_⟩
  show 0 + i < 500 + j
  omega

/-- C6, amended. Let the world state be in key order (as in every ledger the
contract builds), let it hold an evidence record under `id`, and let the custody
chain of `id` be empty.  After N successful `TransferCustody` invocations on `id`
whose key clock readings fall in strictly increasing Unix seconds that all have the
same number of decimal digits (between `10^w` and `10^(w+1)`), `GetCustodyChain(id)`
returns exactly N records and leaves the stub as it is; the records stand in the
order of the calls: the i-th record carries the clock reading of the i-th call and
its new officer, reason and transaction id as JSON stores them (invalid UTF-8 bytes
replaced by U+FFFD; the new officers themselves when they are valid UTF-8); the
first is from the officer who held the evidence before, and each record's
toOfficer is the next record's fromOfficer. -/
theorem custody_chain_order (q : TransactionContext) (l l2 : Ledger) (id : String) (e : Evidence)
    (calls : List (TransactionContext × String × String)) (w : Nat)
    (hsorted : l.world.Sorted)
    (hread : (ReadEvidence q l.stub id).1 = .ok e)
    (hempty : (GetCustodyChain q l.stub id).1 = .ok [])
    (hrun : transferAll id l calls = (.ok (), l2))
    (hinc : calls.Pairwise (fun c d => (c.1.now 1).Unix < (d.1.now 1).Unix))
    (hwidth : ∀ c ∈ calls,
      (10 : Int) ^ w ≤ (c.1.now 1).Unix ∧ (c.1.now 1).Unix < (10 : Int) ^ (w + 1))
    (hnext : ∀ i, q.nextErr i = none) :
    ∃ chain, GetCustodyChain q l2.stub id = (.ok chain, l2.stub) ∧
      chain = expectedChain id e.CustodyOfficer calls ∧
      chain.length = calls.length ∧
      chain.map (fun t => t.Timestamp) = calls.map (fun c => c.1.now 0) ∧
      chain.map (fun t => t.ToOfficer) = calls.map (fun c => toValidUTF8 c.2.1) ∧
      ((∀ c ∈ calls, utf8Valid c.2.1 = true) →
        chain.map (fun t => t.ToOfficer) = calls.map (fun c => c.2.1)) ∧
      chain.Chain' (fun s t => s.ToOfficer = t.FromOfficer) := by
  obtain ⟨startKey, hsk, hit, hlen⟩ := GetCustodyChain_ok_scan hempty
  have hnil : l.world.filter (fun kv => inKeyRange startKey kv.1) = [] :=
    List.length_eq_zero.mp hlen
  have hcur : ∀ ctx e2, (ReadEvidence ctx l.stub id).1 = .ok e2 →
      e2.CustodyOfficer = e.CustodyOfficer := by
    intro ctx e2 hr2
    obtain ⟨_, b1, hg1, hu1⟩ := ReadEvidence_ok hread
    obtain ⟨_, b2, hg2, hu2⟩ := ReadEvidence_ok hr2
    rw [hg1] at hg2
    cases hg2
    rw [hu1] at hu2
    cases hu2
    rfl
  have hscan := transferAll_scan id startKey w hsk calls l l2 e.CustodyOfficer [] hsorted hcur
    (by rw [hnil]; exact List.Forall₂.nil) (by rw [hnil]; intro kv hkv; cases hkv) hinc hwidth hrun
  rw [List.nil_append] at hscan
  refine ⟨expectedChain id e.CustodyOfficer calls,
    GetCustodyChain_of_scan hsk hit (fun j _ => hnext j) hscan, rfl,
    expectedChain_length _ _ _, expectedChain_timestamps _ _ _, expectedChain_toOfficers _ _ _,
    ?_, expectedChain_linked _ _ _⟩
  intro hv
  rw [expectedChain_toOfficers]
  exact List.map_congr_left (fun c hc => toValidUTF8_of_valid (hv c hc))

/-- C6, amended, at a concrete input: `E1` goes from `alice` to `bob` and a minute
later to `carol`. -/
theorem custody_chain_order_witness :
    ledgerE1.world.Sorted ∧
    (GetCustodyChain (quietCtx "q" 1700000099 0) ledgerE1.stub "E1").1 = .ok [] ∧
    (transferAll "E1" ledgerE1 spacedCalls).1 = .ok () ∧
    (GetCustodyChain (quietCtx "q" 1700000099 0)
      (transferAll "E1" ledgerE1 spacedCalls).2.stub "E1").1 =
      .ok [{ EvidenceID := "E1", FromOfficer := "alice", ToOfficer := "bob",
             Timestamp := { sec := 1700000005, nsec := 0, offset := 0 },
             Reason := "reassignment", TransactionID := "tx2" },
           { EvidenceID := "E1", FromOfficer := "bob", ToOfficer := "carol",
             Timestamp := { sec := 1700000065, nsec := 0, offset := 0 },
             Reason := "shift change", TransactionID := "tx3" }] := by
  have hsorted : ledgerE1.world.Sorted := by decide
  have hread : (ReadEvidence (quietCtx "q" 1700000099 0) ledgerE1.stub "E1").1 =
      .ok (createdEvidence (quietCtx "tx1" 1700000000 0) "E1" "case1" "photo.jpg" "QmCid"
        "abc123" "alice" "RESTRICTED").toValidUTF8 := by
    rfl
  have hempty : (GetCustodyChain (quietCtx "q" 1700000099 0) ledgerE1.stub "E1").1 = .ok [] := by
    decide
  have hok : (transferAll "E1" ledgerE1 spacedCalls).1 = .ok () := by decide
  have hrun : transferAll "E1" ledgerE1 spacedCalls =
      (.ok (), (transferAll "E1" ledgerE1 spacedCalls).2) := Prod.ext hok rfl
  have hinc : spacedCalls.Pairwise (fun c d => (c.1.now 1).Unix < (d.1.now 1).Unix) := by
    simp [spacedCalls, quietCtx, Time.Unix]
  have hwidth : ∀ c ∈ spacedCalls,
      (10 : Int) ^ 9 ≤ (c.1.now 1).Unix ∧ (c.1.now 1).Unix < (10 : Int) ^ (9 + 1) := by
    intro c hc
    simp only [spacedCalls, List.mem_cons, List.mem_singleton, List.not_mem_nil, or_false] at hc
    rcases hc with hc | hc <;> subst hc <;> simp [quietCtx, Time.Unix]
  obtain ⟨chain, hchain, heq, _⟩ :=
    custody_chain_order (quietCtx "q" 1700000099 0) ledgerE1 _ "E1" _ spacedCalls 9 hsorted hread
      hempty hrun hinc hwidth (fun _ => rfl)
  refine ⟨hsorted, hempty, hok, ?_⟩
  rw [hchain, heq]
  rfl

/-! ## C11: read-only operations -/

theorem EvidenceExists_snd (ctx : TransactionContext) (stub : Stub) (id : String) :
    (EvidenceExists ctx stub id).2 = stub := by
  rw [EvidenceExists_eq]

theorem VerifyIntegrity_snd (ctx : TransactionContext) (stub : Stub)
    (id currentFileHash : String) : (VerifyIntegrity ctx stub id currentFileHash).2 = stub := by
  unfold VerifyIntegrity
  cases hr : (ReadEvidence ctx stub id).1 with
  | error err => rw [ReadEvidence_pair hr]
  | ok e => rw [ReadEvidence_pair hr]

theorem GetHistoryForKey_snd (ctx : TransactionContext) (stub : Stub) (key : String) :
    (GetHistoryForKey ctx stub key).2 = stub := by
  unfold GetHistoryForKey
  cases ctx.iteratorErr <;> rfl

theorem GetEvidenceHistory_snd (ctx : TransactionContext) (stub : Stub) (id : String) :
    (GetEvidenceHistory ctx stub id).2 = stub := by
  have h := GetHistoryForKey_snd ctx stub id
  unfold GetEvidenceHistory
  cases hh : GetHistoryForKey ctx stub id with
  | mk r s =>
    rw [hh] at h
    simp only at h
    subst h
    cases r <;> rfl

theorem GetQueryResult_snd (ctx : TransactionContext) (stub : Stub) (query : String) :
    (GetQueryResult ctx stub query).2 = stub := by
  unfold GetQueryResult
  cases parseQuery query with
  | error err => rfl
  | ok members =>
    simp only
    cases lastMember members "selector" with
    | none => rfl
    | some selector =>
      simp only
      cases ctx.iteratorErr <;> rfl

theorem getQueryResultForQueryString_snd (ctx : TransactionContext) (stub : Stub)
    (queryString : String) : (getQueryResultForQueryString ctx stub queryString).2 = stub := by
  have h := GetQueryResult_snd ctx stub queryString
  unfold getQueryResultForQueryString
  cases hh : GetQueryResult ctx stub queryString with
  | mk r s =>
    rw [hh] at h
    simp only at h
    subst h
    cases r <;> rfl

theorem Query.apply_snd (ctx : TransactionContext) (stub : Stub) (query : Query) :
    (query.apply ctx stub).2 = stub := by
  cases query with
  | verifyIntegrity id currentFileHash => exact VerifyIntegrity_snd ctx stub id currentFileHash
  | readEvidence id => exact ReadEvidence_snd ctx stub id
  | evidenceExists id => exact EvidenceExists_snd ctx stub id
  | getEvidenceHistory id => exact GetEvidenceHistory_snd ctx stub id
  | getCustodyChain evidenceId => exact GetCustodyChain_snd ctx stub evidenceId
  | queryEvidenceByCase caseId => exact getQueryResultForQueryString_snd ctx stub _
  | queryEvidenceByOfficer officer => exact getQueryResultForQueryString_snd ctx stub _

theorem Query.run_eq (ctx : TransactionContext) (l : Ledger) (query : Query) :
    query.run ctx l = ((query.apply ctx l.stub).1, l) := by
  cases query with
  | verifyIntegrity id currentFileHash =>
    simp only [Query.run, Query.apply]
    rw [invoke_readOnly (VerifyIntegrity_snd ctx l.stub id currentFileHash)]
  | readEvidence id =>
    simp only [Query.run, Query.apply]
    rw [invoke_readOnly (ReadEvidence_snd ctx l.stub id)]
  | evidenceExists id =>
    simp only [Query.run, Query.apply]
    rw [invoke_readOnly (EvidenceExists_snd ctx l.stub id)]
  | getEvidenceHistory id =>
    simp only [Query.run, Query.apply]
    rw [invoke_readOnly (GetEvidenceHistory_snd ctx l.stub id)]
  | getCustodyChain evidenceId =>
    simp only [Query.run, Query.apply]
    rw [invoke_readOnly (GetCustodyChain_snd ctx l.stub evidenceId)]
  | queryEvidenceByCase caseId =>
    simp only [Query.run, Query.apply]
    rw [invoke_readOnly (getQueryResultForQueryString_snd ctx l.stub (caseQueryString caseId))]
  | queryEvidenceByOfficer officer =>
    simp only [Query.run, Query.apply]
    rw [invoke_readOnly
      (getQueryResultForQueryString_snd ctx l.stub (officerQueryString officer))]

/-- C11. Each of the seven read-only functions (`VerifyIntegrity`, `ReadEvidence`,
`EvidenceExists`, `GetEvidenceHistory`, `GetCustodyChain`, `QueryEvidenceByCase`,
`QueryEvidenceByOfficer`), run on any stub in any environment with any argument,
hands the stub back as it received it, committed ledger and write set alike,
whether it succeeds or fails; so its invocation leaves the ledger as it was and
returns what the function returns.  In particular what `ReadEvidence` returns for
any id is the same after a `VerifyIntegrity` invocation as before it, whatever the
hashes compared. -/
theorem readOnly_leaves_ledger (ctx q : TransactionContext) (stub : Stub) (l : Ledger)
    (query : Query) :
    (query.apply ctx stub).2 = stub ∧
    (query.apply ctx stub).2.ledger = stub.ledger ∧
    (query.apply ctx stub).2.writes = stub.writes ∧
    query.run ctx l = ((query.apply ctx l.stub).1, l) ∧
    ∀ id currentFileHash id2,
      ReadEvidence q ((Query.verifyIntegrity id currentFileHash).run ctx l).2.stub id2 =
        ReadEvidence q l.stub id2 := by
  refine ⟨Query.apply_snd ctx stub query, by rw [Query.apply_snd],
    by rw [Query.apply_snd], Query.run_eq ctx l query, ?_⟩
  intro id currentFileHash id2
  rw [Query.run_eq]

/-! ## C12: `UpdateEvidenceStatus` -/

/-- C12, counterexample. Setting the status of `E1` to the Go string `"\xff"`,
which is not valid UTF-8, succeeds, and the record read back has the status
U+FFFD, not the status passed. -/
theorem updateEvidenceStatus_invalid_status_read_back :
    (∃ e, (ReadEvidence (quietCtx "tx4" 1700000100 0) ledgerE1.stub "E1").1 = .ok e) ∧
    Call.run (quietCtx "tx4" 1700000100 0) ledgerE1 (.updateEvidenceStatus "E1" invalidText) =
      (.ok (), ledgerE1StatusInvalid) ∧
    (ReadEvidence (quietCtx "q" 1700000200 0) ledgerE1StatusInvalid.stub "E1").1.toOption.map
      (fun e => e.Status) = some replacementText ∧
    replacementText ≠ invalidText := by
  have hread : (ReadEvidence (quietCtx "tx4" 1700000100 0) ledgerE1.stub "E1").1 =
      .ok (createdEvidence (quietCtx "tx1" 1700000000 0) "E1" "case1" "photo.jpg" "QmCid"
        "abc123" "alice" "RESTRICTED").toValidUTF8 := by
    rfl
  refine ⟨⟨_, hread⟩, ?_, by decide, by decide⟩
  apply Prod.ext
  · decide
  · rfl

/-- C12, amended. When `ReadEvidence` finds the record `e` under the non-empty
`id` and the stub's put of `id` succeeds, the invocation
`UpdateEvidenceStatus(id, newStatus)` succeeds for every string `newStatus`; its
write set is the single key `id`; the world state afterwards differs from the old
one in the key `id` only, and the history grows by one entry, for `id`; the record
read back afterwards has the status `newStatus` with every byte that is not valid
UTF-8 replaced by U+FFFD (so `newStatus` itself when it is valid UTF-8, the empty
string and the current status included), the clock reading of the call as
timestamp, its blockchainHash equal to `calculateBlockchainHash` of the record
read back, and id, caseId, filename, ipfsCid, fileHash, custodyOfficer and
accessLevel as before. -/
theorem updateEvidenceStatus_effect (ctx q : TransactionContext) (l : Ledger)
    (id newStatus : String) (e : Evidence) (hid : id ≠ "")
    (hread : (ReadEvidence ctx l.stub id).1 = .ok e)
    (hput : ctx.putStateErr id = none) (hq : q.getStateErr id = none) :
    ∃ l1 e1 v,
      Call.run ctx l (.updateEvidenceStatus id newStatus) = (.ok (), l1) ∧
      (UpdateEvidenceStatus ctx l.stub id newStatus).2.writes = [(id, v)] ∧
      l1.world = l.world.put id v ∧
      l1.history = l.history ++ [{ Key := id, TxId := ctx.txID, Value := v }] ∧
      (∀ key, key ≠ id → l1.world.get key = l.world.get key) ∧
      ReadEvidence q l1.stub id = (.ok e1, l1.stub) ∧
      e1.Status = toValidUTF8 newStatus ∧ (utf8Valid newStatus = true → e1.Status = newStatus) ∧
      e1.Timestamp = ctx.now 0 ∧
      e1.BlockchainHash = calculateBlockchainHash e1 ∧
      e1.ID = e.ID ∧ e1.CaseID = e.CaseID ∧ e1.Filename = e.Filename ∧
      e1.IPFSCid = e.IPFSCid ∧ e1.FileHash = e.FileHash ∧
      e1.CustodyOfficer = e.CustodyOfficer ∧ e1.AccessLevel = e.AccessLevel := by
  have hplain := updatedEvidence_plain ctx e newStatus
  obtain ⟨h1, h2, h3, h4, h5, _, h7, _, h9⟩ := ReadEvidence_utf8Valid hread
  obtain ⟨v, hm⟩ := jsonMarshalEvidence_ok _ hplain
  have hf : UpdateEvidenceStatus ctx l.stub id newStatus = (.ok (), l.stub.put id v) := by
    rw [UpdateEvidenceStatus_eq, ReadEvidence_pair hread]
    simp only
    rw [hm]
    simp only
    rw [PutState_of_quiet l.stub v hid hput]
  have hrun := invoke_ok ctx l (Call.apply (.updateEvidenceStatus id newStatus)) hf
  have hreadback : ReadEvidence q (l.put ctx.txID id v).stub id =
      (.ok (updatedEvidence ctx e newStatus).toValidUTF8, (l.put ctx.txID id v).stub) :=
    ReadEvidence_of_get hq (WorldState.get_put_same _ _ _)
      (jsonUnmarshalEvidence_marshal _ v hplain hm)
  refine ⟨l.put ctx.txID id v, _, v, ?_, ?_, rfl, rfl, ?_, hreadback, rfl,
    fun hv => toValidUTF8_of_valid hv, rfl, ?_, toValidUTF8_of_valid h1,
    toValidUTF8_of_valid h2, toValidUTF8_of_valid h3, toValidUTF8_of_valid h4,
    toValidUTF8_of_valid h5, toValidUTF8_of_valid h7, toValidUTF8_of_valid h9⟩
  · rw [Call.run, hrun]
    rfl
  · rw [hf]
    rfl
  · intro key hne
    exact WorldState.get_put_other _ _ _ _ hne
  · show toValidUTF8 (calculateBlockchainHash _) = _
    rw [toValidUTF8_calculateBlockchainHash]
    exact calculateBlockchainHash_congr (toValidUTF8_of_valid h1).symm
      (toValidUTF8_of_valid h2).symm (toValidUTF8_of_valid h4).symm
      (toValidUTF8_of_valid h5).symm (toValidUTF8_of_valid h7).symm rfl

/-- C12, amended, at a concrete input: archiving `E1`, then setting the empty
status. -/
theorem updateEvidenceStatus_effect_witness :
    (∃ e, (ReadEvidence (quietCtx "tx4" 1700000100 0) ledgerE1Bob.stub "E1").1 = .ok e ∧
      e.Status = "ACTIVE") ∧
    ∃ l1 e1,
      Call.run (quietCtx "tx4" 1700000100 0) ledgerE1Bob (.updateEvidenceStatus "E1" "ARCHIVED") =
        (.ok (), l1) ∧
      ReadEvidence (quietCtx "q" 1700000200 0) l1.stub "E1" = (.ok e1, l1.stub) ∧
      e1.Status = "ARCHIVED" ∧ e1.CustodyOfficer = "bob" ∧ e1.FileHash = "abc123" ∧
      ∃ l2 e2,
        Call.run (quietCtx "tx5" 1700000101 0) l1 (.updateEvidenceStatus "E1" "") =
          (.ok (), l2) ∧
        ReadEvidence (quietCtx "q" 1700000200 0) l2.stub "E1" = (.ok e2, l2.stub) ∧
        e2.Status = "" ∧ e2.FileHash = "abc123" := by
  have hread : (ReadEvidence (quietCtx "tx4" 1700000100 0) ledgerE1Bob.stub "E1").1 =
      .ok (transferredEvidence (quietCtx "tx2" 1700000005 0)
        (createdEvidence (quietCtx "tx1" 1700000000 0) "E1" "case1" "photo.jpg" "QmCid" "abc123"
          "alice" "RESTRICTED").toValidUTF8 "bob").toValidUTF8 := by
    rfl
  obtain ⟨l1, e1, v, h1, _, _, _, _, hr1, _, hs1, _, _, _, _, _, _, hf1, ho1, _⟩ :=
    updateEvidenceStatus_effect (quietCtx "tx4" 1700000100 0) (quietCtx "q" 1700000200 0)
      ledgerE1Bob "E1" "ARCHIVED" _ (by decide) hread rfl rfl
  have hr1b : (ReadEvidence (quietCtx "tx5" 1700000101 0) l1.stub "E1").1 = .ok e1 := by
    have := ReadEvidence_ok (congrArg Prod.fst hr1)
    obtain ⟨_, b, hg, hu⟩ := this
    exact congrArg Prod.fst (ReadEvidence_of_get rfl hg hu)
  obtain ⟨l2, e2, v2, h2, _, _, _, _, hr2, _, hs2, _, _, _, _, _, _, hf2, _, _⟩ :=
    updateEvidenceStatus_effect (quietCtx "tx5" 1700000101 0) (quietCtx "q" 1700000200 0)
      l1 "E1" "" e1 (by decide) hr1b rfl rfl
  exact ⟨⟨_, hread, by decide⟩, l1, e1, h1, hr1, hs1 (by decide), ho1.trans (by decide),
    hf1.trans (by decide), l2, e2, h2, hr2, hs2 (by decide), hf2.trans (hf1.trans (by decide))⟩

/-! ## C13: absent and corrupt records -/

/-- C13. When no value is stored under `id` and the stub's read of `id` succeeds,
`ReadEvidence`, `UpdateEvidenceStatus`, `TransferCustody` and `VerifyIntegrity`
each fail with the does-not-exist error and hand the stub back with nothing added
to its write set, the invocations of the two mutating ones leaving the ledger as
it was, and `EvidenceExists(id)` returns false without error.  When the bytes
stored under `id` do not deserialize, `ReadEvidence` fails with the error of
`json.Unmarshal`.  In every ledger `EvidenceExists(id)` returns true exactly when
a value is stored under `id`. -/
theorem absent_and_corrupt_records (ctx : TransactionContext) (stub : Stub) (id : String)
    (hq : ctx.getStateErr id = none) :
    (stub.ledger.world.get id = none →
      ReadEvidence ctx stub id = (.error ("evidence " ++ id ++ " does not exist"), stub) ∧
      (∀ newStatus, UpdateEvidenceStatus ctx stub id newStatus =
        (.error ("evidence " ++ id ++ " does not exist"), stub)) ∧
      (∀ newOfficer reason, TransferCustody ctx stub id newOfficer reason =
        (.error ("evidence " ++ id ++ " does not exist"), stub)) ∧
      (∀ h, VerifyIntegrity ctx stub id h =
        (.error ("evidence " ++ id ++ " does not exist"), stub)) ∧
      EvidenceExists ctx stub id = (.ok false, stub) ∧
      (∀ newStatus, Call.run ctx stub.ledger (.updateEvidenceStatus id newStatus) =
        (.error ("evidence " ++ id ++ " does not exist"), stub.ledger)) ∧
      (∀ newOfficer reason, Call.run ctx stub.ledger (.transferCustody id newOfficer reason) =
        (.error ("evidence " ++ id ++ " does not exist"), stub.ledger))) ∧
    (∀ b err, stub.ledger.world.get id = some b → jsonUnmarshalEvidence b = .error err →
      ReadEvidence ctx stub id = (.error err, stub)) ∧
    EvidenceExists ctx stub id = (.ok (stub.ledger.world.get id).isSome, stub) ∧
    ((EvidenceExists ctx stub id).1 = .ok true ↔ ∃ b, stub.ledger.world.get id = some b) := by
  have hex : EvidenceExists ctx stub id = (.ok (stub.ledger.world.get id).isSome, stub) := by
    rw [EvidenceExists_eq, hq]
  have hrd : ∀ s : Stub, s.ledger.world.get id = none →
      ReadEvidence ctx s id = (.error ("evidence " ++ id ++ " does not exist"), s) := by
    intro s hs
    rw [ReadEvidence_eq, hq, hs]
  refine ⟨?_, ?_, hex, ?_⟩
  · intro habsent
    have hr := hrd stub habsent
    have hr2 := hrd stub.ledger.stub habsent
    refine ⟨hr, ?_, ?_, ?_, ?_, ?_, ?_⟩
    · intro newStatus
      rw [UpdateEvidenceStatus_eq, hr]
    · intro newOfficer reason
      rw [TransferCustody_eq, hr]
    · intro h
      unfold VerifyIntegrity
      rw [hr]
    · rw [hex, habsent]
      rfl
    · intro newStatus
      exact invoke_error ctx stub.ledger (Call.apply (.updateEvidenceStatus id newStatus))
        (by simp only [Call.apply]; rw [UpdateEvidenceStatus_eq, hr2])
    · intro newOfficer reason
      exact invoke_error ctx stub.ledger (Call.apply (.transferCustody id newOfficer reason))
        (by simp only [Call.apply]; rw [TransferCustody_eq, hr2])
  · intro b err hb hu
    rw [ReadEvidence_eq, hq, hb]
    simp only [hu]
  · rw [hex]
    cases hg : stub.ledger.world.get id with
    | none => simp
    | some b => simp

/-- C13 at a concrete input: `E2` is absent from the ledger that holds `E1`. -/
theorem absent_and_corrupt_records_witness :
    ledgerE1.stub.ledger.world.get "E2" = none ∧
    ReadEvidence (quietCtx "q" 1700000200 0) ledgerE1.stub "E2" =
      (.error "evidence E2 does not exist", ledgerE1.stub) ∧
    UpdateEvidenceStatus (quietCtx "q" 1700000200 0) ledgerE1.stub "E2" "ARCHIVED" =
      (.error "evidence E2 does not exist", ledgerE1.stub) ∧
    Call.run (quietCtx "q" 1700000200 0) ledgerE1 (.transferCustody "E2" "bob" "reassignment") =
      (.error "evidence E2 does not exist", ledgerE1) ∧
    EvidenceExists (quietCtx "q" 1700000200 0) ledgerE1.stub "E2" = (.ok false, ledgerE1.stub) ∧
    (EvidenceExists (quietCtx "q" 1700000200 0) ledgerE1.stub "E1").1 = .ok true := by
  have habsent : ledgerE1.stub.ledger.world.get "E2" = none := by decide
  have h := absent_and_corrupt_records (quietCtx "q" 1700000200 0) ledgerE1.stub "E2" rfl
  obtain ⟨hr, hu, _, _, he, _, ht⟩ := h.1 habsent
  have h1 := absent_and_corrupt_records (quietCtx "q" 1700000200 0) ledgerE1.stub "E1" rfl
  refine ⟨habsent, ?_, ?_, ?_, he, ?_⟩
  · rw [hr]; rfl
  · rw [hu "ARCHIVED"]; rfl
  · rw [show ledgerE1 = ledgerE1.stub.ledger from rfl, ht "bob" "reassignment"]; rfl
  · exact h1.2.2.2.mpr ⟨_, rfl⟩

/-! ## C14: the id of a record -/

/-- In a ledger with the invariant, a record read under a key outside the
composite-key namespace has the key, as JSON stores it, as its id. -/
theorem HistoryIds.read_id {ctx : TransactionContext} {stub : Stub} (hl : HistoryIds stub.ledger)
    {id : String} {e : Evidence} (hr : (ReadEvidence ctx stub id).1 = .ok e)
    (hnc : ¬ isCompositeKey id) : e.ID = toValidUTF8 id := by
  obtain ⟨_, b, hg, hu⟩ := ReadEvidence_ok hr
  obtain ⟨e0, hm, hp, hid⟩ := hl.1 id b hg hnc
  obtain ⟨he, _⟩ := utf8Valid_of_unmarshal_marshal hp hm hu
  rw [he]
  exact hid

/-- The record that a write outside the composite-key namespace stores. -/
theorem historyIds_record {ctx : TransactionContext} {l : Ledger} {c : Call} {key : String}
    {b : Bytes} (hl : HistoryIds l) (hw : Write ctx l c key b) (hnc : ¬ isCompositeKey key) :
    ∃ e, jsonMarshalEvidence e = .ok b ∧ e.Timestamp.Plain ∧
      toValidUTF8 e.ID = toValidUTF8 key := by
  cases hw with
  | initial b hmar => exact ⟨initialEvidence ctx, hmar, ctx.nowPlain 0, rfl⟩
  | created id caseId filename ipfsCid fileHash custodyOfficer accessLevel b hg hmar =>
    exact ⟨_, hmar, ctx.nowPlain 0, rfl⟩
  | updated id newStatus e b hr hmar =>
    refine ⟨_, hmar, updatedEvidence_plain ctx e newStatus, ?_⟩
    show toValidUTF8 e.ID = _
    rw [@HistoryIds.read_id ctx l.stub hl _ _ hr hnc, toValidUTF8_idem]
  | transfer id newOfficer reason e key b hr hk hmar =>
    exact absurd (transferKey_head hk) hnc
  | transferred id newOfficer reason e b hr hmar =>
    refine ⟨_, hmar, transferredEvidence_plain ctx e newOfficer, ?_⟩
    show toValidUTF8 e.ID = _
    rw [@HistoryIds.read_id ctx l.stub hl _ _ hr hnc, toValidUTF8_idem]

theorem historyIds_write {ctx : TransactionContext} {l : Ledger} {c : Call} {key : String}
    {b : Bytes} (hl : HistoryIds l) (hw : Write ctx l c key b) :
    HistoryIds (l.put ctx.txID key b) := by
  constructor
  · intro key2 b2 hg hnc
    rw [Ledger.put_world] at hg
    by_cases hk : key2 = key
    · subst hk
      rw [WorldState.get_put_same, Option.some.injEq] at hg
      subst hg
      exact historyIds_record hl hw hnc
    · rw [WorldState.get_put_other _ _ _ _ hk] at hg
      exact hl.1 key2 b2 hg hnc
  · intro m hm hnc
    rw [Ledger.put_history] at hm
    simp only [List.mem_append, List.mem_singleton] at hm
    rcases hm with hm | hm
    · exact hl.2 m hm hnc
    · subst hm
      exact historyIds_record hl hw hnc

theorem historyIds_of_writes {P : Call → Prop} {l l1 : Ledger} (hl : HistoryIds l)
    (h : WritesBy P l l1) : HistoryIds l1 := by
  induction h with
  | refl => exact hl
  | put ctx c key b _ _ hw ih => exact historyIds_write ih hw

theorem historyIds_of_reachable {l : Ledger} (h : Reachable l) : HistoryIds l := by
  apply historyIds_of_writes _ (writes_of_reachable h)
  constructor
  · intro key b hg
    simp [Ledger.empty, WorldState.get] at hg
  · intro m hm
    simp [Ledger.empty] at hm

theorem historyIteratorFrom_mem {ctx : TransactionContext} {i : Nat}
    {results : List KeyModification} {m : KeyModification}
    (h : Except.ok m ∈ historyIteratorFrom ctx i results) : m ∈ results := by
  induction results generalizing i with
  | nil => simp [historyIteratorFrom] at h
  | cons x rest ih =>
    simp only [historyIteratorFrom, List.mem_cons] at h
    rcases h with h | h
    · split at h
      · cases h
      · simp only [Except.ok.injEq] at h
        rw [h]
        exact List.mem_cons_self _ _
    · exact List.mem_cons_of_mem _ (ih h)

theorem historyLoop_ids {id : String} {p : String → Prop} (hp : p id)
    {it : List (Except Error KeyModification)} {acc res : List QueryResult}
    (hit : ∀ m, Except.ok m ∈ it → ∀ e, jsonUnmarshalEvidence m.Value = .ok e → p e.ID)
    (hacc : ∀ r ∈ acc, p r.Record.ID)
    (h : GetEvidenceHistory.loop id it acc = .ok res) : ∀ r ∈ res, p r.Record.ID := by
  induction it generalizing acc with
  | nil =>
    simp only [GetEvidenceHistory.loop, Except.ok.injEq] at h
    rw [← h]
    exact hacc
  | cons x rest ih =>
    cases x with
    | error err => simp [GetEvidenceHistory.loop] at h
    | ok m =>
      simp only [GetEvidenceHistory.loop] at h
      split at h
      · cases h
      · rename_i evidence hdec
        apply ih (fun m2 hm2 => hit m2 (List.mem_cons_of_mem _ hm2)) _ h
        intro r hr
        rcases List.mem_append.mp hr with hr | hr
        · exact hacc r hr
        · simp only [List.mem_singleton] at hr
          rw [hr]
          simp only
          by_cases hne : m.Value.nonEmpty = true
          · simp only [hne, if_true] at hdec
            exact hit m (List.mem_cons_self _ _) evidence hdec
          · simp only [hne, if_false, Except.ok.injEq, Bool.false_eq_true] at hdec
            rw [← hdec]
            exact hp

theorem reachable_ledgerShadowed : Reachable ledgerShadowed :=
  ReachableBy.step (quietCtx "tx3" 1700000005 0) (.transferCustody "E1" "bob" "reassignment")
    trivial
    (ReachableBy.step (quietCtx "tx2" 1700000001 0)
      (.createEvidence sampleTransferKey "case2" "scan.pdf" "QmScan" "fff000" "dave" "PUBLIC")
      trivial
      (ReachableBy.step (quietCtx "tx1" 1700000000 0)
        (.createEvidence "E1" "case1" "photo.jpg" "QmCid" "abc123" "alice" "RESTRICTED")
        trivial ReachableBy.empty))

theorem reachable_ledgerFF : Reachable ledgerFF :=
  ReachableBy.step (quietCtx "tx1" 1700000000 0)
    (.createEvidence invalidText "case3" "dump.bin" "QmDump" "abc123" "alice" "RESTRICTED")
    trivial ReachableBy.empty

/-- C14, counterexample. Evidence is created under a key that has the text of a
composite key; a later transfer of `E1` stores its transfer record under that
key.  The record that `ReadEvidence` then returns for the key has an empty id,
not the key, and so has the newest version of the key's history.  And evidence
created under the key `"\xff"`, a Go string that is not valid UTF-8 and does not
begin with U+0000, is read back under that key with the id U+FFFD, not the key;
so is the one version of its history. -/
theorem evidence_id_lost_under_transfer_key :
    (Reachable ledgerShadowed ∧
      (Call.run (quietCtx "tx2" 1700000001 0) ledgerE1
        (.createEvidence sampleTransferKey "case2" "scan.pdf" "QmScan" "fff000" "dave"
          "PUBLIC")).1 = .ok () ∧
      (∃ e, (ReadEvidence (quietCtx "q" 1700000009 0) ledgerShadowed.stub sampleTransferKey).1 =
          .ok e ∧ e.ID = "" ∧ e.ID ≠ sampleTransferKey) ∧
      (GetEvidenceHistory (quietCtx "q" 1700000009 0) ledgerShadowed.stub
        sampleTransferKey).1.toOption.map
        (fun records => records.map (fun r => (r.Key, r.Record.ID))) =
        some [("tx3", ""), ("tx2", sampleTransferKey)]) ∧
    (Reachable ledgerFF ∧ ¬ isCompositeKey invalidText ∧
      (Call.run (quietCtx "tx1" 1700000000 0) Ledger.empty
        (.createEvidence invalidText "case3" "dump.bin" "QmDump" "abc123" "alice"
          "RESTRICTED")).1 = .ok () ∧
      (ReadEvidence (quietCtx "q" 1700000009 0) ledgerFF.stub invalidText).1.toOption.map
        (fun e => e.ID) = some replacementText ∧
      replacementText ≠ invalidText ∧
      (GetEvidenceHistory (quietCtx "q" 1700000009 0) ledgerFF.stub invalidText).1.toOption.map
        (fun records => records.map (fun r => (r.Key, r.Record.ID))) =
        some [("tx1", replacementText)]) := by
  have hread : (ReadEvidence (quietCtx "q" 1700000009 0) ledgerShadowed.stub
      sampleTransferKey).1 = .ok
      { Evidence.zero with Timestamp := { sec := 1700000005, nsec := 0, offset := 0 } } := by
    decide
  exact ⟨⟨reachable_ledgerShadowed, by decide, ⟨_, hread, rfl, by decide⟩, by decide⟩,
    reachable_ledgerFF, by decide, by decide, by decide, by decide, by decide⟩

/-- C14, amended. In every ledger reachable from the empty ledger by invocations of
`InitLedger`, `CreateEvidence`, `UpdateEvidenceStatus` and `TransferCustody`, for
every key `k` outside the composite-key namespace (not beginning with U+0000): the
record that `ReadEvidence` returns for `k` has as id the key as JSON stores it
(every byte that is not valid UTF-8 replaced by U+FFFD), every version in the
history of `k` deserializes to an evidence record with that id, and every entry
that `GetEvidenceHistory(k)` returns has that id or, for an empty version, the id
`k`; when `k` is valid UTF-8 all these ids are `k` itself. -/
theorem evidence_id_immutable (l : Ledger) (hreach : Reachable l) (ctx : TransactionContext)
    (k : String) (hk : ¬ isCompositeKey k) :
    ((∀ e, (ReadEvidence ctx l.stub k).1 = .ok e → e.ID = toValidUTF8 k) ∧
      (∀ m ∈ l.history, m.Key = k →
        ∃ e, jsonUnmarshalEvidence m.Value = .ok e ∧ e.ID = toValidUTF8 k) ∧
      (∀ records, (GetEvidenceHistory ctx l.stub k).1 = .ok records →
        ∀ r ∈ records, r.Record.ID = toValidUTF8 k ∨ r.Record.ID = k)) ∧
    (utf8Valid k = true →
      (∀ e, (ReadEvidence ctx l.stub k).1 = .ok e → e.ID = k) ∧
      (∀ m ∈ l.history, m.Key = k →
        ∃ e, jsonUnmarshalEvidence m.Value = .ok e ∧ e.ID = k) ∧
      (∀ records, (GetEvidenceHistory ctx l.stub k).1 = .ok records →
        ∀ r ∈ records, r.Record.ID = k)) := by
  have hh := historyIds_of_reachable hreach
  have hver : ∀ m ∈ l.history, m.Key = k →
      ∃ e, jsonUnmarshalEvidence m.Value = .ok e ∧ e.ID = toValidUTF8 k := by
    intro m hm hmk
    obtain ⟨e, hmar, hp, hid⟩ := hh.2 m hm (by rw [hmk]; exact hk)
    exact ⟨e.toValidUTF8, jsonUnmarshalEvidence_marshal e _ hp hmar, by rw [← hmk]; exact hid⟩
  have hrd : ∀ e, (ReadEvidence ctx l.stub k).1 = .ok e → e.ID = toValidUTF8 k :=
    fun e hr => @HistoryIds.read_id ctx l.stub hh _ _ hr hk
  have hhist : ∀ records, (GetEvidenceHistory ctx l.stub k).1 = .ok records →
      ∀ r ∈ records, r.Record.ID = toValidUTF8 k ∨ r.Record.ID = k := by
    intro records hrec
    unfold GetEvidenceHistory GetHistoryForKey at hrec
    cases hi : ctx.iteratorErr with
    | some err => simp [hi] at hrec
    | none =>
      simp only [hi] at hrec
      refine historyLoop_ids (p := fun s => s = toValidUTF8 k ∨ s = k) (Or.inr rfl) ?_
        (by intro r hr; cases hr) hrec
      intro m hm e he
      have hmem := historyIteratorFrom_mem hm
      simp only [List.mem_reverse, List.mem_filter, decide_eq_true_eq] at hmem
      obtain ⟨e2, he2, hid2⟩ := hver m hmem.1 hmem.2
      rw [he] at he2
      cases he2
      exact Or.inl hid2
  refine ⟨⟨hrd, hver, hhist⟩, ?_⟩
  intro hv
  have hkv := toValidUTF8_of_valid hv
  refine ⟨?_, ?_, ?_⟩
  · intro e hr
    rw [hrd e hr, hkv]
  · intro m hm hmk
    obtain ⟨e, he, hid⟩ := hver m hm hmk
    exact ⟨e, he, by rw [hid, hkv]⟩
  · intro records hrec r hr
    rcases hhist records hrec r hr with h | h
    · rw [h, hkv]
    · exact h

/-- C14, amended, at a concrete input: `E1` after its transfer. -/
theorem evidence_id_immutable_witness :
    Reachable ledgerE1Bob ∧ ¬ isCompositeKey "E1" ∧
    (∃ e, (ReadEvidence (quietCtx "q" 1700000009 0) ledgerE1Bob.stub "E1").1 = .ok e ∧
      e.ID = "E1") ∧
    ∃ records, (GetEvidenceHistory (quietCtx "q" 1700000009 0) ledgerE1Bob.stub "E1").1 =
        .ok records ∧
      records.length = 2 ∧ ∀ r ∈ records, r.Record.ID = "E1" := by
  have h := (evidence_id_immutable ledgerE1Bob reachable_ledgerE1Bob (quietCtx "q" 1700000009 0)
    "E1" (by decide)).2 (by decide)
  have hread : (ReadEvidence (quietCtx "q" 1700000009 0) ledgerE1Bob.stub "E1").1 =
      .ok (transferredEvidence (quietCtx "tx2" 1700000005 0)
        (createdEvidence (quietCtx "tx1" 1700000000 0) "E1" "case1" "photo.jpg" "QmCid" "abc123"
          "alice" "RESTRICTED").toValidUTF8 "bob").toValidUTF8 := by
    rfl
  have hhist : (GetEvidenceHistory (quietCtx "q" 1700000009 0) ledgerE1Bob.stub "E1").1 =
      .ok [{ Key := "tx2", Record := (transferredEvidence (quietCtx "tx2" 1700000005 0)
              (createdEvidence (quietCtx "tx1" 1700000000 0) "E1" "case1" "photo.jpg" "QmCid"
                "abc123" "alice" "RESTRICTED").toValidUTF8 "bob").toValidUTF8 },
           { Key := "tx1", Record := (createdEvidence (quietCtx "tx1" 1700000000 0) "E1" "case1"
              "photo.jpg" "QmCid" "abc123" "alice" "RESTRICTED").toValidUTF8 }] := by
    rfl
  exact ⟨reachable_ledgerE1Bob, by decide, ⟨_, hread, h.1 _ hread⟩, _, hhist, rfl,
    h.2.2 _ hhist⟩

/-! ## C20: the fields fixed at creation -/

theorem KeepsFields.put_other {id : String} {e0 : Evidence} {l : Ledger} {key : String}
    (hk : KeepsFields id e0 l) (hne : key ≠ id) (txID : String) (b : Bytes) :
    KeepsFields id e0 (l.put txID key b) := by
  obtain ⟨e, v, hg, hrest⟩ := hk
  refine ⟨e, v, ?_, hrest⟩
  rw [Ledger.put_world, WorldState.get_put_other _ _ _ _ (Ne.symm hne), hg]

theorem KeepsFields.read_fields {id : String} {e0 : Evidence} {ctx : TransactionContext} {stub : Stub}
    {e : Evidence} (hk : KeepsFields id e0 stub.ledger)
    (hr : (ReadEvidence ctx stub id).1 = .ok e) :
    e.FileHash = toValidUTF8 e0.FileHash ∧ e.CaseID = toValidUTF8 e0.CaseID ∧
      e.Filename = toValidUTF8 e0.Filename ∧ e.IPFSCid = toValidUTF8 e0.IPFSCid ∧
      e.AccessLevel = toValidUTF8 e0.AccessLevel := by
  obtain ⟨e1, v, hg, hm, hp, hfields⟩ := hk
  obtain ⟨_, v2, hg2, hu⟩ := ReadEvidence_ok hr
  rw [hg] at hg2
  cases hg2
  rw [jsonUnmarshalEvidence_marshal e1 v hp hm] at hu
  cases hu
  exact hfields

theorem KeepsFields.put_same {id : String} {e0 : Evidence} (l : Ledger) (txID : String)
    {b : Bytes} (e2 : Evidence) (hm : jsonMarshalEvidence e2 = .ok b)
    (hplain : e2.Timestamp.Plain)
    (hfields : toValidUTF8 e2.FileHash = toValidUTF8 e0.FileHash ∧
      toValidUTF8 e2.CaseID = toValidUTF8 e0.CaseID ∧
      toValidUTF8 e2.Filename = toValidUTF8 e0.Filename ∧
      toValidUTF8 e2.IPFSCid = toValidUTF8 e0.IPFSCid ∧
      toValidUTF8 e2.AccessLevel = toValidUTF8 e0.AccessLevel) :
    KeepsFields id e0 (l.put txID id b) :=
  ⟨e2, b, WorldState.get_put_same _ _ _, hm, hplain, hfields⟩

/-- What was read under the id keeps the fields when it is written back. -/
theorem KeepsFields.read_idem {id : String} {e0 : Evidence} {ctx : TransactionContext}
    {stub : Stub} {e : Evidence} (hk : KeepsFields id e0 stub.ledger)
    (hr : (ReadEvidence ctx stub id).1 = .ok e) :
    toValidUTF8 e.FileHash = toValidUTF8 e0.FileHash ∧
      toValidUTF8 e.CaseID = toValidUTF8 e0.CaseID ∧
      toValidUTF8 e.Filename = toValidUTF8 e0.Filename ∧
      toValidUTF8 e.IPFSCid = toValidUTF8 e0.IPFSCid ∧
      toValidUTF8 e.AccessLevel = toValidUTF8 e0.AccessLevel := by
  obtain ⟨h1, h2, h3, h4, h5⟩ := hk.read_fields hr
  rw [h1, h2, h3, h4, h5]
  exact ⟨toValidUTF8_idem _, toValidUTF8_idem _, toValidUTF8_idem _, toValidUTF8_idem _,
    toValidUTF8_idem _⟩

theorem KeepsFields.updateEvidenceStatus {id : String} {e0 : Evidence} {l : Ledger}
    (hk : KeepsFields id e0 l) (ctx : TransactionContext) (id2 newStatus : String) :
    KeepsFields id e0 (Call.run ctx l (.updateEvidenceStatus id2 newStatus)).2 := by
  cases hres : Call.run ctx l (.updateEvidenceStatus id2 newStatus) with
  | mk res l2 =>
    cases res with
    | error err =>
      rw [(invoke_error_ledger hres).1]
      exact hk
    | ok u =>
      obtain ⟨e, b, hr, hm, hl2⟩ := UpdateEvidenceStatus_run_ok hres
      simp only
      rw [hl2]
      by_cases hid : id2 = id
      · subst hid
        have hf := @KeepsFields.read_idem _ _ ctx l.stub e hk hr
        exact KeepsFields.put_same l _ (updatedEvidence ctx e newStatus) hm
          (updatedEvidence_plain ctx e newStatus) hf
      · exact hk.put_other hid _ _

theorem KeepsFields.transferCustody {id : String} {e0 : Evidence} {l : Ledger}
    (hk : KeepsFields id e0 l) (hnc : ¬ isCompositeKey id) (ctx : TransactionContext)
    (id2 newOfficer reason : String) :
    KeepsFields id e0 (Call.run ctx l (.transferCustody id2 newOfficer reason)).2 := by
  cases hres : Call.run ctx l (.transferCustody id2 newOfficer reason) with
  | mk res l2 =>
    cases res with
    | error err =>
      rw [(invoke_error_ledger hres).1]
      exact hk
    | ok u =>
      obtain ⟨e, key, tj, ej, hr, hck, hmt, hme, hl2⟩ := TransferCustody_run_ok hres
      have hkey : key ≠ id := fun heq => hnc (heq ▸ transferKey_head hck)
      have hk1 : KeepsFields id e0 (l.put ctx.txID key tj) := hk.put_other hkey _ _
      simp only
      rw [hl2]
      by_cases hid : id2 = id
      · subst hid
        have hf := @KeepsFields.read_idem _ _ ctx l.stub e hk hr
        exact KeepsFields.put_same _ _ (transferredEvidence ctx e newOfficer) hme
          (transferredEvidence_plain ctx e newOfficer) hf
      · exact hk1.put_other hid _ _

theorem KeepsFields.runAll {id : String} {e0 : Evidence} (hnc : ¬ isCompositeKey id)
    (later : List (TransactionContext × Invocation)) :
    ∀ l, KeepsFields id e0 l → (∀ x ∈ later, x.2.keepsRecords) →
      KeepsFields id e0 (runAll l later) := by
  induction later with
  | nil => intro l hk _; exact hk
  | cons x rest ih =>
    intro l hk hall
    obtain ⟨ctx, inv⟩ := x
    have hx : inv.keepsRecords := hall (ctx, inv) (List.mem_cons_self _ _)
    apply ih _ _ (fun y hy => hall y (List.mem_cons_of_mem _ hy))
    cases inv with
    | query qy =>
      show KeepsFields id e0 (qy.run ctx l).2
      rw [Query.run_eq]
      exact hk
    | call c =>
      cases c with
      | initLedger => exact absurd hx (by simp [Invocation.keepsRecords])
      | createEvidence a1 a2 a3 a4 a5 a6 a7 => exact absurd hx (by simp [Invocation.keepsRecords])
      | updateEvidenceStatus id2 newStatus => exact hk.updateEvidenceStatus ctx id2 newStatus
      | transferCustody id2 newOfficer reason =>
        exact hk.transferCustody hnc ctx id2 newOfficer reason

/-- C20, counterexample. Evidence created under a key with the text of a composite
key, with file hash `fff000`, is overwritten by the transfer record of a later
`TransferCustody` on `E1`: the record read back has an empty fileHash, and
`VerifyIntegrity` no longer reports a match for `fff000`.  And for evidence `E3`,
created under an ordinary id with the file hash `"\xff"`, a Go string that is not
valid UTF-8, the record read back has the fileHash U+FFFD, and `VerifyIntegrity`
reports no match for the file hash passed to `CreateEvidence` and a match for
U+FFFD. -/
theorem fileHash_lost_under_transfer_key :
    ((Call.run (quietCtx "tx2" 1700000001 0) ledgerE1
        (.createEvidence sampleTransferKey "case2" "scan.pdf" "QmScan" "fff000" "dave"
          "PUBLIC")).1 = .ok () ∧
      ledgerShadowed =
        runAll (Call.run (quietCtx "tx2" 1700000001 0) ledgerE1
          (.createEvidence sampleTransferKey "case2" "scan.pdf" "QmScan" "fff000" "dave"
            "PUBLIC")).2
          [(quietCtx "tx3" 1700000005 0, .call (.transferCustody "E1" "bob" "reassignment"))] ∧
      (∃ e, (ReadEvidence (quietCtx "q" 1700000009 0) ledgerShadowed.stub sampleTransferKey).1 =
          .ok e ∧ e.FileHash = "" ∧ e.CaseID = "") ∧
      (VerifyIntegrity (quietCtx "q" 1700000009 0) ledgerShadowed.stub sampleTransferKey
        "fff000").1.toOption.map (fun r => (r.originalHash, r.hashMatch)) = some ("", false)) ∧
    (¬ isCompositeKey "E3" ∧
      Call.run (quietCtx "tx1" 1700000000 0) Ledger.empty
        (.createEvidence "E3" "case3" "dump.bin" "QmDump" invalidText "alice" "RESTRICTED") =
        (.ok (), ledgerE3) ∧
      (VerifyIntegrity (quietCtx "q" 1700000009 0) ledgerE3.stub "E3"
        invalidText).1.toOption.map (fun r => (r.originalHash, r.hashMatch)) =
        some (replacementText, false) ∧
      (VerifyIntegrity (quietCtx "q" 1700000009 0) ledgerE3.stub "E3"
        replacementText).1.toOption.map (fun r => r.hashMatch) = some true ∧
      replacementText ≠ invalidText) := by
  have hread : (ReadEvidence (quietCtx "q" 1700000009 0) ledgerShadowed.stub
      sampleTransferKey).1 = .ok
      { Evidence.zero with Timestamp := { sec := 1700000005, nsec := 0, offset := 0 } } := by
    decide
  have hcreate : Call.run (quietCtx "tx1" 1700000000 0) Ledger.empty
      (.createEvidence "E3" "case3" "dump.bin" "QmDump" invalidText "alice" "RESTRICTED") =
      (.ok (), ledgerE3) := by
    apply Prod.ext
    · decide
    · rfl
  exact ⟨⟨by decide, rfl, ⟨_, hread, rfl, rfl⟩, by decide⟩, by decide, hcreate, by decide,
    by decide, by decide⟩

/-- C20, amended. Let the invocation of `CreateEvidence` succeed for an id outside
the composite-key namespace (not beginning with U+0000).  After any later sequence
of invocations of `UpdateEvidenceStatus`, `TransferCustody` and the read-only
functions, on any ids, in any environments and whether they succeed or fail,
`ReadEvidence(id)` returns a record whose fileHash, caseId, filename, ipfsCid and
accessLevel are the arguments of the creation as JSON stores them (every byte that
is not valid UTF-8 replaced by U+FFFD), and `VerifyIntegrity(id, h)` reports
`hashMatch = true` exactly when `h` is the fileHash given at creation so stored.
Each of the five fields whose argument is valid UTF-8 equals the argument, and
when the fileHash argument is valid UTF-8 `hashMatch = true` is reported exactly
for `h` equal to it. -/
theorem created_fields_immutable (ctx q : TransactionContext) (l0 l1 : Ledger)
    (id caseId filename ipfsCid fileHash custodyOfficer accessLevel h : String)
    (later : List (TransactionContext × Invocation))
    (hid : ¬ isCompositeKey id)
    (hcreate : Call.run ctx l0
      (.createEvidence id caseId filename ipfsCid fileHash custodyOfficer accessLevel) =
      (.ok (), l1))
    (hlater : ∀ x ∈ later, x.2.keepsRecords)
    (hq : q.getStateErr id = none) :
    ∃ e r, ReadEvidence q (runAll l1 later).stub id = (.ok e, (runAll l1 later).stub) ∧
      e.FileHash = toValidUTF8 fileHash ∧ e.CaseID = toValidUTF8 caseId ∧
      e.Filename = toValidUTF8 filename ∧ e.IPFSCid = toValidUTF8 ipfsCid ∧
      e.AccessLevel = toValidUTF8 accessLevel ∧
      VerifyIntegrity q (runAll l1 later).stub id h = (.ok r, (runAll l1 later).stub) ∧
      (r.hashMatch = true ↔ h = toValidUTF8 fileHash) ∧
      (utf8Valid fileHash = true → e.FileHash = fileHash ∧ (r.hashMatch = true ↔ h = fileHash)) ∧
      (utf8Valid caseId = true → e.CaseID = caseId) ∧
      (utf8Valid filename = true → e.Filename = filename) ∧
      (utf8Valid ipfsCid = true → e.IPFSCid = ipfsCid) ∧
      (utf8Valid accessLevel = true → e.AccessLevel = accessLevel) := by
  have hk1 : KeepsFields id (createdEvidence ctx id caseId filename ipfsCid fileHash
      custodyOfficer accessLevel) l1 := by
    obtain ⟨b, _, hm, hl1⟩ := CreateEvidence_run_ok hcreate
    rw [hl1]
    exact KeepsFields.put_same _ _ _ hm (ctx.nowPlain 0) ⟨rfl, rfl, rfl, rfl, rfl⟩
  have hk := KeepsFields.runAll hid later l1 hk1 hlater
  obtain ⟨e, b, hg, hm, hp, hfields⟩ := hk
  have hr : ReadEvidence q (runAll l1 later).stub id =
      (.ok e.toValidUTF8, (runAll l1 later).stub) :=
    ReadEvidence_of_get hq hg (jsonUnmarshalEvidence_marshal e b hp hm)
  obtain ⟨hf, hc, hn, hi, ha⟩ := hfields
  have hf2 : e.toValidUTF8.FileHash = toValidUTF8 fileHash := hf
  have hmatch : ((e.toValidUTF8.FileHash == h) = true ↔ h = toValidUTF8 fileHash) := by
    simp only [beq_iff_eq]
    rw [hf2]
    exact eq_comm
  refine ⟨e.toValidUTF8, _, hr, hf, hc, hn, hi, ha,
    by unfold VerifyIntegrity; rw [hr], hmatch, ?_, ?_, ?_, ?_, ?_⟩
  · intro hv
    have := toValidUTF8_of_valid hv
    rw [this] at hmatch
    exact ⟨hf2.trans this, hmatch⟩
  · intro hv
    exact Eq.trans hc (toValidUTF8_of_valid hv)
  · intro hv
    exact Eq.trans hn (toValidUTF8_of_valid hv)
  · intro hv
    exact Eq.trans hi (toValidUTF8_of_valid hv)
  · intro hv
    exact Eq.trans ha (toValidUTF8_of_valid hv)

/-- C20, amended, at a concrete input: `E1` after a transfer, an archiving and a
query. -/
theorem created_fields_immutable_witness :
    Call.run (quietCtx "tx1" 1700000000 0) Ledger.empty
      (.createEvidence "E1" "case1" "photo.jpg" "QmCid" "abc123" "alice" "RESTRICTED") =
      (.ok (), ledgerE1) ∧
    ∃ e r,
      (ReadEvidence (quietCtx "q" 1700000200 0)
        (runAll ledgerE1
          [(quietCtx "tx2" 1700000005 0, .call (.transferCustody "E1" "bob" "reassignment")),
           (quietCtx "tx4" 1700000100 0, .call (.updateEvidenceStatus "E1" "ARCHIVED")),
           (quietCtx "tx5" 1700000101 0, .query (.queryEvidenceByOfficer "bob"))]).stub
        "E1").1 = .ok e ∧
      e.FileHash = "abc123" ∧ e.AccessLevel = "RESTRICTED" ∧
      (VerifyIntegrity (quietCtx "q" 1700000200 0)
        (runAll ledgerE1
          [(quietCtx "tx2" 1700000005 0, .call (.transferCustody "E1" "bob" "reassignment")),
           (quietCtx "tx4" 1700000100 0, .call (.updateEvidenceStatus "E1" "ARCHIVED")),
           (quietCtx "tx5" 1700000101 0, .query (.queryEvidenceByOfficer "bob"))]).stub "E1"
        "abc123").1 = .ok r ∧
      r.hashMatch = true := by
  have hcreate : Call.run (quietCtx "tx1" 1700000000 0) Ledger.empty
      (.createEvidence "E1" "case1" "photo.jpg" "QmCid" "abc123" "alice" "RESTRICTED") =
      (.ok (), ledgerE1) := by
    apply Prod.ext
    · decide
    · rfl
  obtain ⟨e, r, hr, _, _, _, _, _, hv, _, hfv, _, _, _, hav⟩ :=
    created_fields_immutable (quietCtx "tx1" 1700000000 0) (quietCtx "q" 1700000200 0)
      Ledger.empty ledgerE1 "E1" "case1" "photo.jpg" "QmCid" "abc123" "alice" "RESTRICTED"
      "abc123"
      [(quietCtx "tx2" 1700000005 0, .call (.transferCustody "E1" "bob" "reassignment")),
       (quietCtx "tx4" 1700000100 0, .call (.updateEvidenceStatus "E1" "ARCHIVED")),
       (quietCtx "tx5" 1700000101 0, .query (.queryEvidenceByOfficer "bob"))]
      (by decide) hcreate
      (by
        intro x hx
        simp only [List.mem_cons, List.mem_singleton, List.not_mem_nil, or_false] at hx
        rcases hx with hx | hx | hx <;> subst hx <;> trivial)
      rfl
  exact ⟨hcreate, e, r, congrArg Prod.fst hr, (hfv (by decide)).1, hav (by decide),
    congrArg Prod.fst hv, (hfv (by decide)).2.2 rfl⟩

/-! ## C15: JSON round trip -/

/-- C15, counterexample. An evidence value with a clock reading in UTC as its
timestamp whose filename is the Go string `"\xff"`, one byte that is not valid
UTF-8, is read back with the filename U+FFFD, so the value read back differs from
the one written.  Further, an evidence value whose timestamp lies in the year 10000
is not serialised at all (`json.Marshal` fails in `Time.MarshalJSON`), and one
whose timestamp carries a zone offset of thirty seconds is read back with another
timestamp. -/
theorem json_roundtrip_fails :
    (timeUTC.Plain ∧
      roundTripEvidence { snapshotAt timeUTC with Filename := invalidText } =
        .ok { snapshotAt timeUTC with Filename := replacementText } ∧
      ({ snapshotAt timeUTC with Filename := replacementText } : Evidence) ≠
        { snapshotAt timeUTC with Filename := invalidText }) ∧
    roundTripEvidence (snapshotAt timeYear10000) =
      .error ("json: error calling MarshalJSON for type time.Time: " ++
        "Time.MarshalJSON: year outside of range [0,9999]") ∧
    roundTripEvidence (snapshotAt timeOddZone) =
      .ok (snapshotAt { sec := 1700000030, nsec := 0, offset := 0 }) ∧
    snapshotAt { sec := 1700000030, nsec := 0, offset := 0 } ≠ snapshotAt timeOddZone := by
  refine ⟨⟨by decide, by decide, by decide⟩, by decide, by decide, by decide⟩

/-- C15, amended. For every Evidence value whose timestamp is a plain time (a year
from 0 to 9999 and a zone offset of whole minutes below 24 hours, as every clock
reading of the write path is), `json.Marshal` succeeds and `json.Unmarshal` of its
output succeeds and yields the value with every byte of its nine strings that is
not valid UTF-8 replaced by U+FFFD; the value read back equals the one written
exactly when its nine strings are valid UTF-8. -/
theorem json_roundtrip (e : Evidence) (he : e.Timestamp.Plain) :
    (∃ b, jsonMarshalEvidence e = .ok b ∧ jsonUnmarshalEvidence b = .ok e.toValidUTF8) ∧
    roundTripEvidence e = .ok e.toValidUTF8 ∧
    (roundTripEvidence e = .ok e ↔ e.utf8Valid) := by
  have hm := jsonMarshalEvidence_of_plain e he
  have hu := jsonUnmarshalEvidence_marshal e _ he hm
  have hrt : roundTripEvidence e = .ok e.toValidUTF8 := by
    unfold roundTripEvidence
    rw [hm]
    exact hu
  refine ⟨⟨_, hm, hu⟩, hrt, ?_⟩
  rw [hrt]
  constructor
  · intro h
    simp only [Except.ok.injEq] at h
    rw [← h]
    exact Evidence.coerced_utf8Valid e
  · intro h
    rw [Evidence.coerced_of_valid h]

/-- C15, amended, at a concrete input: a snapshot stamped in the zone +05:30 with a
quote, a backslash and a line break in its strings. -/
theorem json_roundtrip_witness :
    timeIndia.Plain ∧
    roundTripEvidence { snapshotAt timeIndia with Filename := "a\"b\\c\nd" } =
      .ok { snapshotAt timeIndia with Filename := "a\"b\\c\nd" } :=
  ⟨by decide,
    (json_roundtrip { snapshotAt timeIndia with Filename := "a\"b\\c\nd" }
      (by decide)).2.2.mpr (by decide)⟩

/-! ## C16: the text of the timestamp -/

/-- C16, counterexample. Two time values that denote the same instant, one in UTC
and one in the zone +05:30, are rendered as different texts of different lengths
(20 and 25 characters); and a UTC time in the year 10000 takes 21 characters. -/
theorem timestamp_text_not_canonical :
    timeUTC.sec = timeIndia.sec ∧ timeUTC.nsec = timeIndia.nsec ∧
    timeUTC.formatRFC3339 = "2023-11-14T22:13:20Z" ∧
    timeIndia.formatRFC3339 = "2023-11-15T03:43:20+05:30" ∧
    timeUTC.formatRFC3339.length = 20 ∧ timeIndia.formatRFC3339.length = 25 ∧
    timeYear10000.formatRFC3339 = "10000-01-01T00:00:00Z" ∧
    timeYear10000.formatRFC3339.length = 21 ∧
    digestInput (snapshotAt timeUTC) ≠ digestInput (snapshotAt timeIndia) := by
  refine ⟨rfl, rfl, by decide, by decide, by decide, by decide, by decide, by decide, by decide⟩

/-- C16, amended. The timestamp text in the digest input depends only on the Unix
second and the zone offset of the time value: two time values with the same
second and the same offset get the same text, whatever their sub-second parts.
For a year from 0 to 9999 the text has 20 characters when the offset is zero and
25 characters when it is not (and below a hundred hours). -/
theorem timestamp_text (t u : Time) (h0 : 0 ≤ t.Year) (h1 : t.Year ≤ 9999) :
    (t.sec = u.sec → t.offset = u.offset → t.formatRFC3339 = u.formatRFC3339) ∧
    (t.offset = 0 → t.formatRFC3339.length = 20) ∧
    (t.offset ≠ 0 → t.offset.natAbs < 360000 → t.formatRFC3339.length = 25) := by
  refine ⟨?_, ?_, ?_⟩
  · intro hs ho
    simp only [Time.formatRFC3339, Time.dateClock, Time.zoneText, hs, ho]
  · intro ho
    simp only [Time.formatRFC3339, String.length, List.length_append, dateClock_length t h0 h1,
      Time.zoneText, ho, if_true, List.length_cons, List.length_nil]
  · intro ho hlt
    have hh := appendInt_length ((t.offset.natAbs / 60 / 60 : Nat) : Int) 2 (by decide) (by omega)
      (by omega)
    have hm := appendInt_length ((t.offset.natAbs / 60 % 60 : Nat) : Int) 2 (by decide) (by omega)
      (by omega)
    simp only [Time.formatRFC3339, String.length, List.length_append, dateClock_length t h0 h1,
      Time.zoneText, ho, if_false, List.length_cons]
    rw [show ((t.offset.natAbs / 60 : Nat) : Int) / 60 = ((t.offset.natAbs / 60 / 60 : Nat) : Int)
      from by omega,
      show ((t.offset.natAbs / 60 : Nat) : Int) % 60 = ((t.offset.natAbs / 60 % 60 : Nat) : Int)
      from by omega, hh, hm]

/-- C16, amended, at a concrete input: two readings within one second in UTC. -/
theorem timestamp_text_witness :
    (0 ≤ timeUTC.Year ∧ timeUTC.Year ≤ 9999) ∧
    timeUTC.formatRFC3339 =
      ({ sec := 1700000000, nsec := 999999999, offset := 0 } : Time).formatRFC3339 ∧
    timeUTC.formatRFC3339.length = 20 ∧ timeIndia.formatRFC3339.length = 25 :=
  ⟨by decide,
    (timestamp_text timeUTC { sec := 1700000000, nsec := 999999999, offset := 0 } (by decide)
      (by decide)).1 rfl rfl,
    (timestamp_text timeUTC timeUTC (by decide) (by decide)).2.1 rfl,
    (timestamp_text timeIndia timeIndia (by decide) (by decide)).2.2 (by decide) (by decide)⟩

/-! ## C17: order of the transfer keys -/

/-- C17, counterexample. The clock readings of the seconds 999999999 and
1000000000 are in this order, but the key part built from the first is not below
the key part built from the second in string order: it is above it. -/
theorem transfer_key_order_fails :
    (({ sec := 999999999, nsec := 0, offset := 0 } : Time).Before
      { sec := 1000000000, nsec := 0, offset := 0 }) ∧
    formatInt ({ sec := 999999999, nsec := 0, offset := 0 } : Time).Unix = "999999999" ∧
    formatInt ({ sec := 1000000000, nsec := 0, offset := 0 } : Time).Unix = "1000000000" ∧
    keyLt "999999999".data "1000000000".data = false ∧
    keyLt "1000000000".data "999999999".data = true := by
  refine ⟨by decide, by decide, by decide, by decide, by decide⟩

/-- C17, amended. For every evidence id and every two clock readings in different
seconds, the first before the second, whose Unix seconds have the same number of
decimal digits (both from `10^w` up to `10^(w+1)`, as all seconds between
2001-09-09 and 2286-11-20 are for `w = 9`), the key part that `TransferCustody`
builds from the first reading is strictly below the one built from the second in
string order, and so is the whole composite key. -/
theorem transfer_key_order (w : Nat) (t1 t2 : Time) (id key1 key2 : String)
    (hlo : (10 : Int) ^ w ≤ t1.Unix) (hlt : t1.Unix < t2.Unix)
    (hhi : t2.Unix < (10 : Int) ^ (w + 1))
    (hk1 : CreateCompositeKey "custody_transfer" [id, formatInt t1.Unix] = .ok key1)
    (hk2 : CreateCompositeKey "custody_transfer" [id, formatInt t2.Unix] = .ok key2) :
    keyLt (formatInt t1.Unix).data (formatInt t2.Unix).data = true ∧
    keyLt key1.data key2.data = true := by
  constructor
  · have := formatInt_lt w t1.Unix t2.Unix [] [] hlo hlt hhi
    simpa using this
  · obtain ⟨s1, hs1, hd1⟩ := CreateCompositeKey_two hk1
    obtain ⟨s2, hs2, hd2⟩ := CreateCompositeKey_two hk2
    rw [hs1] at hs2
    cases hs2
    rw [hd1, hd2, keyLt_append_left]
    exact formatInt_lt w t1.Unix t2.Unix _ _ hlo hlt hhi

/-- C17, amended, at a concrete input: transfers of `E1` a minute apart. -/
theorem transfer_key_order_witness :
    keyLt "1700000005".data "1700000065".data = true ∧
    ∃ key2, CreateCompositeKey "custody_transfer" ["E1", "1700000065"] = .ok key2 ∧
      keyLt sampleTransferKey.data key2.data = true := by
  have hk1 : CreateCompositeKey "custody_transfer"
      ["E1", formatInt ({ sec := 1700000005, nsec := 0, offset := 0 } : Time).Unix] =
      .ok sampleTransferKey := by decide
  have hk2 : CreateCompositeKey "custody_transfer"
      ["E1", formatInt ({ sec := 1700000065, nsec := 0, offset := 0 } : Time).Unix] =
      .ok (String.mk ([Char.ofNat 0] ++ "custody_transfer".data ++ [Char.ofNat 0] ++ "E1".data ++
        [Char.ofNat 0] ++ "1700000065".data ++ [Char.ofNat 0])) := by decide
  have h := transfer_key_order 9 { sec := 1700000005, nsec := 0, offset := 0 }
    { sec := 1700000065, nsec := 0, offset := 0 } "E1" _ _ (by decide) (by decide) (by decide)
    hk1 hk2
  exact ⟨h.1, _, hk2, h.2⟩

/-! ## C18: `GetEvidenceHistory` -/

theorem historyIteratorFrom_quiet (ctx : TransactionContext) (i : Nat)
    (results : List KeyModification) (h : ∀ j, ctx.nextErr j = none) :
    historyIteratorFrom ctx i results = results.map Except.ok := by
  induction results generalizing i with
  | nil => rfl
  | cons m rest ih => simp [historyIteratorFrom, h i, ih]

theorem historyLoop_ok (id : String) (versions : List KeyModification) :
    ∀ acc : List QueryResult,
      (∀ m ∈ versions, m.Value.nonEmpty = true → ∃ e, jsonUnmarshalEvidence m.Value = .ok e) →
      ∃ records, GetEvidenceHistory.loop id (versions.map Except.ok) acc = .ok (acc ++ records) ∧
        List.Forall₂ (IsHistoryEntry id) versions records := by
  induction versions with
  | nil =>
    intro acc _
    exact ⟨[], by simp [GetEvidenceHistory.loop], List.Forall₂.nil⟩
  | cons m rest ih =>
    intro acc hdec
    have hrest := fun m2 hm2 => hdec m2 (List.mem_cons_of_mem _ hm2)
    by_cases hne : m.Value.nonEmpty = true
    · obtain ⟨e, he⟩ := hdec m (List.mem_cons_self _ _) hne
      obtain ⟨records, hloop, hrel⟩ := ih (acc ++ [{ Key := m.TxId, Record := e }]) hrest
      refine ⟨{ Key := m.TxId, Record := e } :: records, ?_, List.Forall₂.cons ?_ hrel⟩
      · have hstep : GetEvidenceHistory.loop id (Except.ok m :: rest.map Except.ok) acc =
            GetEvidenceHistory.loop id (rest.map Except.ok)
              (acc ++ [{ Key := m.TxId, Record := e }]) := by
          simp only [GetEvidenceHistory.loop, hne, if_true, he]
        rw [List.map_cons, hstep, hloop, List.append_assoc]
        rfl
      · unfold IsHistoryEntry
        exact ⟨rfl, fun _ => he, fun h => by rw [hne] at h; cases h⟩
    · have hne2 : m.Value.nonEmpty = false := by simpa using hne
      obtain ⟨records, hloop, hrel⟩ :=
        ih (acc ++ [{ Key := m.TxId, Record := { Evidence.zero with ID := id } }]) hrest
      refine ⟨{ Key := m.TxId, Record := { Evidence.zero with ID := id } } :: records, ?_,
        List.Forall₂.cons ?_ hrel⟩
      · have hstep : GetEvidenceHistory.loop id (Except.ok m :: rest.map Except.ok) acc =
            GetEvidenceHistory.loop id (rest.map Except.ok)
              (acc ++ [{ Key := m.TxId, Record := { Evidence.zero with ID := id } }]) := by
          simp only [GetEvidenceHistory.loop, hne2]
          rfl
        rw [List.map_cons, hstep, hloop, List.append_assoc]
        rfl
      · unfold IsHistoryEntry
        refine And.intro rfl (And.intro ?_ ?_)
        · intro h
          rw [hne2] at h
          cases h
        · intro _
          rfl

theorem historyLoop_error (id : String) (it : List (Except Error KeyModification)) :
    ∀ acc : List QueryResult,
      (∃ r ∈ it, (∃ err, r = .error err) ∨
        ∃ m err, r = .ok m ∧ m.Value.nonEmpty = true ∧
          jsonUnmarshalEvidence m.Value = .error err) →
      ∃ err, GetEvidenceHistory.loop id it acc = .error err := by
  induction it with
  | nil =>
    intro acc h
    obtain ⟨r, hr, _⟩ := h
    cases hr
  | cons x rest ih =>
    intro acc h
    cases x with
    | error err => exact ⟨err, rfl⟩
    | ok m =>
      simp only [GetEvidenceHistory.loop]
      split
      · rename_i err _
        exact ⟨err, rfl⟩
      · rename_i evidence hdec
        apply ih
        obtain ⟨r, hr, hbad⟩ := h
        rcases List.mem_cons.mp hr with hr | hr
        · subst hr
          rcases hbad with ⟨err, hbad⟩ | ⟨m2, err, hm2, hne, hu⟩
          · cases hbad
          · simp only [Except.ok.injEq] at hm2
            subst hm2
            simp only [hne, if_true, hu] at hdec
            cases hdec
        · exact ⟨r, hr, hbad⟩

/-- C18. Let the store return an iterator over the versions of the history of
`id`.  When every `Next` succeeds and every version with a non-empty value
deserializes, `GetEvidenceHistory(id)` returns one entry per version, in the
store's order, each with the transaction id of its version as key and as record
the deserialized value, or `Evidence` with only the id set when the value is
empty.  When a single `Next` fails or a single non-empty value does not
deserialize, the call fails and returns no entries; it also fails when the
iterator cannot be opened. -/
theorem getEvidenceHistory_entries (ctx : TransactionContext) (stub : Stub) (id : String)
    (it : List (Except Error KeyModification))
    (hit : (GetHistoryForKey ctx stub id).1 = .ok it) :
    (∀ versions : List KeyModification, it = versions.map Except.ok →
      (∀ m ∈ versions, m.Value.nonEmpty = true → ∃ e, jsonUnmarshalEvidence m.Value = .ok e) →
      ∃ records, GetEvidenceHistory ctx stub id = (.ok records, stub) ∧
        List.Forall₂ (IsHistoryEntry id) versions records) ∧
    ((∃ r ∈ it, (∃ err, r = .error err) ∨
        ∃ m err, r = .ok m ∧ m.Value.nonEmpty = true ∧
          jsonUnmarshalEvidence m.Value = .error err) →
      ∃ err, GetEvidenceHistory ctx stub id = (.error err, stub)) ∧
    (ctx.nextErr = (fun _ => none) →
      it = ((stub.ledger.history.filter (fun m => m.Key = id)).reverse).map Except.ok) ∧
    (∀ err, (GetHistoryForKey ctx stub id).1 = .error err →
      GetEvidenceHistory ctx stub id = (.error err, stub)) := by
  have hpair : GetHistoryForKey ctx stub id = (.ok it, stub) :=
    Prod.ext hit (GetHistoryForKey_snd ctx stub id)
  refine ⟨?_, ?_, ?_, ?_⟩
  · intro versions hv hdec
    obtain ⟨records, hloop, hrel⟩ := historyLoop_ok id versions [] hdec
    refine ⟨records, ?_, hrel⟩
    simp only [GetEvidenceHistory, hpair, hv, hloop, List.nil_append]
  · intro hbad
    obtain ⟨err, herr⟩ := historyLoop_error id it [] hbad
    exact ⟨err, by simp only [GetEvidenceHistory, hpair, herr]⟩
  · intro hq
    unfold GetHistoryForKey at hit
    split at hit
    · cases hit
    · simp only [Except.ok.injEq] at hit
      rw [← hit]
      exact historyIteratorFrom_quiet ctx 0 _ (fun j => by rw [hq])
  · intro err herr
    rw [hit] at herr
    cases herr

/-- C18 at concrete inputs: a history with a written version and a deletion, read
newest first, and a history with a version that is not JSON. -/
theorem getEvidenceHistory_entries_witness :
    (GetHistoryForKey (quietCtx "q" 1700000009 0) ledgerDeleted.stub "E9").1 =
      .ok [.ok { Key := "E9", TxId := "tx2", Value := .raw "" },
           .ok { Key := "E9", TxId := "tx1",
                 Value := .object [("id", .string "E9"), ("status", .string "ACTIVE")] }] ∧
    (∃ records, GetEvidenceHistory (quietCtx "q" 1700000009 0) ledgerDeleted.stub "E9" =
        (.ok records, ledgerDeleted.stub) ∧
      List.Forall₂ (IsHistoryEntry "E9")
        [{ Key := "E9", TxId := "tx2", Value := .raw "" },
         { Key := "E9", TxId := "tx1",
           Value := .object [("id", .string "E9"), ("status", .string "ACTIVE")] }] records) ∧
    (GetEvidenceHistory (quietCtx "q" 1700000009 0) ledgerDeleted.stub "E9").1 =
      .ok [{ Key := "tx2", Record := { Evidence.zero with ID := "E9" } },
           { Key := "tx1", Record := { Evidence.zero with ID := "E9", Status := "ACTIVE" } }] ∧
    ∃ err, GetEvidenceHistory (quietCtx "q" 1700000009 0) ledgerCorrupt.stub "E9" =
      (.error err, ledgerCorrupt.stub) := by
  have hit : (GetHistoryForKey (quietCtx "q" 1700000009 0) ledgerDeleted.stub "E9").1 =
      .ok [.ok { Key := "E9", TxId := "tx2", Value := .raw "" },
           .ok { Key := "E9", TxId := "tx1",
                 Value := .object [("id", .string "E9"), ("status", .string "ACTIVE")] }] := by
    decide
  have hit2 : (GetHistoryForKey (quietCtx "q" 1700000009 0) ledgerCorrupt.stub "E9").1 =
      .ok [.ok { Key := "E9", TxId := "tx2",
                 Value := .object [("id", .string "E9"), ("status", .string "ACTIVE")] },
           .ok { Key := "E9", TxId := "tx1", Value := .raw "not json" }] := by
    decide
  refine ⟨hit, ?_, by decide, ?_⟩
  · apply (getEvidenceHistory_entries _ _ _ _ hit).1
      [{ Key := "E9", TxId := "tx2", Value := .raw "" },
       { Key := "E9", TxId := "tx1",
         Value := .object [("id", .string "E9"), ("status", .string "ACTIVE")] }] rfl
    intro m hm hne
    simp only [List.mem_cons, List.mem_singleton, List.not_mem_nil, or_false] at hm
    rcases hm with hm | hm
    · subst hm
      cases hne
    · subst hm
      exact ⟨{ Evidence.zero with ID := "E9", Status := "ACTIVE" }, by decide⟩
  · apply (getEvidenceHistory_entries _ _ _ _ hit2).2.1
    exact ⟨_, List.mem_cons_of_mem _ (List.mem_cons_self _ _), Or.inr ⟨_, _, rfl, rfl, rfl⟩⟩

/-! ## C19: the selectors of the two rich queries -/

theorem scanString_plain (cs : List Char) (hcs : ∀ c ∈ cs, plainChar c) :
    ∀ (rest acc : List Char),
      scanString 0 (cs ++ '"' :: rest) acc =
        .ok (toValidUTF8 (String.mk (acc.reverse ++ cs)), rest) := by
  induction cs with
  | nil =>
    intro rest acc
    rw [scanString.eq_def]
    simp
  | cons c cs ih =>
    intro rest acc
    obtain ⟨h1, h2, h3⟩ := hcs c (List.mem_cons_self _ _)
    have h4 : ¬ c.toNat < 32 := by omega
    rw [List.cons_append, scanString.eq_def]
    simp only [h1, h2, h4, if_false]
    rw [ih (fun d hd => hcs d (List.mem_cons_of_mem _ hd))]
    simp

theorem scanStringMembers_more (fuel : Nat) (k v rest : List Char)
    (acc : List (String × String))
    (hk : ∀ c ∈ k, plainChar c) (hv : ∀ c ∈ v, plainChar c) :
    scanStringMembers (fuel + 1) ('"' :: (k ++ '"' :: ':' :: '"' :: (v ++ '"' :: ',' :: rest))) acc =
      scanStringMembers fuel rest
        (acc ++ [(toValidUTF8 (String.mk k), toValidUTF8 (String.mk v))]) := by
  rw [scanStringMembers.eq_def]
  simp only [scanString_plain k hk, scanString_plain v hv, List.reverse_nil, List.nil_append,
    if_true]

theorem scanStringMembers_last (fuel : Nat) (k v rest : List Char)
    (acc : List (String × String))
    (hk : ∀ c ∈ k, plainChar c) (hv : ∀ c ∈ v, plainChar c) :
    scanStringMembers (fuel + 1)
        ('"' :: (k ++ '"' :: ':' :: '"' :: (v ++ '"' :: Char.ofNat 125 :: rest))) acc =
      .ok (acc ++ [(toValidUTF8 (String.mk k), toValidUTF8 (String.mk v))], rest) := by
  rw [scanStringMembers.eq_def]
  have h : ¬ (Char.ofNat 125 = ',') := by decide
  simp only [scanString_plain k hk, scanString_plain v hv, List.reverse_nil, List.nil_append,
    h, if_true, if_false]

theorem scanStringObject_one (k v rest : List Char)
    (hk : ∀ c ∈ k, plainChar c) (hv : ∀ c ∈ v, plainChar c) :
    scanStringObject (Char.ofNat 123 ::
        '"' :: (k ++ '"' :: ':' :: '"' :: (v ++ '"' :: Char.ofNat 125 :: rest))) =
      .ok ([(toValidUTF8 (String.mk k), toValidUTF8 (String.mk v))], rest) := by
  have h : ¬ ('"' = Char.ofNat 125) := by decide
  simp only [scanStringObject, if_true, h, if_false, List.length_cons]
  rw [scanStringMembers_last _ k v rest [] hk hv]
  rfl

theorem scanStringObject_two (k1 v1 k2 v2 rest : List Char)
    (hk1 : ∀ c ∈ k1, plainChar c) (hv1 : ∀ c ∈ v1, plainChar c)
    (hk2 : ∀ c ∈ k2, plainChar c) (hv2 : ∀ c ∈ v2, plainChar c) :
    scanStringObject (Char.ofNat 123 ::
        '"' :: (k1 ++ '"' :: ':' :: '"' :: (v1 ++ '"' :: ',' ::
        '"' :: (k2 ++ '"' :: ':' :: '"' :: (v2 ++ '"' :: Char.ofNat 125 :: rest))))) =
      .ok ([(toValidUTF8 (String.mk k1), toValidUTF8 (String.mk v1)),
        (toValidUTF8 (String.mk k2), toValidUTF8 (String.mk v2))], rest) := by
  have h : ¬ ('"' = Char.ofNat 125) := by decide
  simp only [scanStringObject, if_true, h, if_false, List.length_cons]
  rw [scanStringMembers_more _ k1 v1 _ [] hk1 hv1]
  simp only [List.length_append, List.length_cons]
  rw [show k1.length + (v1.length + (k2.length + (v2.length + (rest.length + 1 + 1) + 1 + 1 + 1)
        + 1 + 1 + 1) + 1 + 1 + 1) =
      (k1.length + v1.length + k2.length + v2.length + rest.length + 10) + 1 from by omega]
  rw [scanStringMembers_last _ k2 v2 rest _ hk2 hv2]
  rfl

theorem scanQueryMembers_last (fuel : Nat) (k obj rest : List Char)
    (value : List (String × String)) (acc : List (String × List (String × String)))
    (hk : ∀ c ∈ k, plainChar c)
    (hobj : scanStringObject obj = .ok (value, Char.ofNat 125 :: rest)) :
    scanQueryMembers (fuel + 1) ('"' :: (k ++ '"' :: ':' :: obj)) acc =
      .ok (acc ++ [(toValidUTF8 (String.mk k), value)], rest) := by
  rw [scanQueryMembers.eq_def]
  have h : ¬ (Char.ofNat 125 = ',') := by decide
  simp only [scanString_plain k hk, hobj, List.reverse_nil, List.nil_append, h, if_true, if_false]

theorem parseQuery_selector (query : String) (obj : List Char) (value : List (String × String))
    (hq : query.data = Char.ofNat 123 :: '"' :: ("selector".data ++ '"' :: ':' :: obj))
    (hobj : scanStringObject obj = .ok (value, [Char.ofNat 125])) :
    parseQuery query = .ok [("selector", value)] := by
  unfold parseQuery
  rw [hq]
  have h : ¬ ('"' :: ("selector".data ++ '"' :: ':' :: obj) = [Char.ofNat 125]) := by
    intro h
    have h2 := (List.cons.inj h).1
    revert h2
    decide
  simp only [if_true, h, if_false, List.length_cons]
  rw [scanQueryMembers_last _ "selector".data obj [] value [] (by decide) hobj]
  rfl

theorem officerQueryString_data (officer : String) :
    (officerQueryString officer).data =
      Char.ofNat 123 :: '"' :: ("selector".data ++ '"' :: ':' ::
        (Char.ofNat 123 :: '"' :: ("custodyOfficer".data ++ '"' :: ':' :: '"' ::
          (officer.data ++ '"' :: ',' :: '"' :: ("status".data ++ '"' :: ':' :: '"' ::
            ("ACTIVE".data ++ '"' :: Char.ofNat 125 :: [Char.ofNat 125])))))) := by
  unfold officerQueryString
  rw [String.data_append, String.data_append]
  rfl

theorem caseQueryString_data (caseId : String) :
    (caseQueryString caseId).data =
      Char.ofNat 123 :: '"' :: ("selector".data ++ '"' :: ':' ::
        (Char.ofNat 123 :: '"' :: ("caseId".data ++ '"' :: ':' :: '"' ::
          (caseId.data ++ '"' :: Char.ofNat 125 :: [Char.ofNat 125])))) := by
  unfold caseQueryString
  rw [String.data_append, String.data_append]
  rfl

theorem parseQuery_officer (officer : String) (h : ∀ c ∈ officer.data, plainChar c) :
    parseQuery (officerQueryString officer) =
      .ok [("selector", [("custodyOfficer", toValidUTF8 officer), ("status", "ACTIVE")])] :=
  parseQuery_selector _ _ _ (officerQueryString_data officer)
    (scanStringObject_two _ _ _ _ _ (by decide) h (by decide) (by decide))

theorem parseQuery_case (caseId : String) (h : ∀ c ∈ caseId.data, plainChar c) :
    parseQuery (caseQueryString caseId) =
      .ok [("selector", [("caseId", toValidUTF8 caseId)])] :=
  parseQuery_selector _ _ _ (caseQueryString_data caseId)
    (scanStringObject_one _ _ _ (by decide) h)

/-- C19 (code defect). For an `officer` or `caseId` that is valid UTF-8 and made of
characters that need no escaping in a JSON string, the query string decodes to
exactly the selector `custodyOfficer = officer` and `status = "ACTIVE"`,
respectively `caseId = caseId` (for bytes that are not valid UTF-8 the decoder puts
U+FFFD), and `QueryEvidenceByOfficer("bob")` returns `E1` after its transfer to
`bob` and nothing after `E1` is archived.  The argument is pasted into the text
unescaped, however: with the officer `CORP\alice`, who holds the active evidence
`E7`, the query string is not a JSON document and `QueryEvidenceByOfficer` fails; a
quote in `caseId` does the same to `QueryEvidenceByCase`; and with `bob\u0021` the
document is well formed but its selector asks for the officer `bob!`. -/
theorem query_argument_not_escaped :
    (∀ officer : String, (∀ c ∈ officer.data, plainChar c) →
      parseQuery (officerQueryString officer) =
          .ok [("selector", [("custodyOfficer", toValidUTF8 officer), ("status", "ACTIVE")])] ∧
        (utf8Valid officer = true →
          parseQuery (officerQueryString officer) =
            .ok [("selector", [("custodyOfficer", officer), ("status", "ACTIVE")])])) ∧
    (∀ caseId : String, (∀ c ∈ caseId.data, plainChar c) →
      parseQuery (caseQueryString caseId) =
          .ok [("selector", [("caseId", toValidUTF8 caseId)])] ∧
        (utf8Valid caseId = true →
          parseQuery (caseQueryString caseId) = .ok [("selector", [("caseId", caseId)])])) ∧
    ((QueryEvidenceByOfficer (quietCtx "q" 1700000200 0) ledgerE1Bob.stub "bob").1 =
        (ReadEvidence (quietCtx "q" 1700000200 0) ledgerE1Bob.stub "E1").1.map (fun e => [e]) ∧
      (QueryEvidenceByOfficer (quietCtx "q" 1700000200 0) ledgerE1Bob.stub
        "bob").1.toOption.map
        (fun es => es.map (fun e => (e.ID, e.CustodyOfficer, e.Status))) =
        some [("E1", "bob", "ACTIVE")] ∧
      (QueryEvidenceByOfficer (quietCtx "q" 1700000200 0) ledgerE1Archived.stub "bob").1 =
        .ok []) ∧
    ((ReadEvidence (quietCtx "q" 1700000200 0) ledgerCorp.stub "E7").1.toOption.map
        (fun e => (e.CustodyOfficer, e.Status)) = some ("CORP\\alice", "ACTIVE") ∧
      officerQueryString "CORP\\alice" =
        "\x7b\"selector\":\x7b\"custodyOfficer\":\"CORP\\alice\",\"status\":\"ACTIVE\"\x7d\x7d" ∧
      parseQuery (officerQueryString "CORP\\alice") =
        .error "invalid character in string escape code" ∧
      (QueryEvidenceByOfficer (quietCtx "q" 1700000200 0) ledgerCorp.stub "CORP\\alice").1 =
        .error "invalid character in string escape code") ∧
    parseQuery (caseQueryString "a\"b") =
      .error "invalid character after object key:value pair" ∧
    parseQuery (officerQueryString "bob\\u0021") =
      .ok [("selector", [("custodyOfficer", "bob!"), ("status", "ACTIVE")])] := by
  refine ⟨fun officer h => ⟨parseQuery_officer officer h, fun hv => ?_⟩,
    fun caseId h => ⟨parseQuery_case caseId h, fun hv => ?_⟩, ⟨rfl, by decide, by decide⟩,
    ⟨by decide, by decide, by decide, by decide⟩, by decide, by decide⟩
  · have := parseQuery_officer officer h
    rw [toValidUTF8_of_valid hv] at this
    exact this
  · have := parseQuery_case caseId h
    rw [toValidUTF8_of_valid hv] at this
    exact this

end EvidenceContract
